import Mathlib

/-!
# MarchingSquares: a verification development

Shallow embedding of `MarchingSquares.hpp` (the contour extractor), of the
lane pipeline of `main.cpp` (worker loops, consumer loop, frame scheduling)
and of `LangstonsAnt.hpp` (the cellular automaton).

Modelling conventions.
* Samples, iso-levels and coordinates are rationals (`ℚ`).  The total
  methods (`render`, `countVerticies`, `edgeFactor`) compute on them exactly;
  a quotient with a zero denominator is `0` there.  Next to them stand the
  same computations in `double` arithmetic (`Double.round`, `edgeFactorDouble`,
  `renderDouble`, the temporal coordinates of the pipeline): an operation
  rounds its exact result to the nearest binary64 value, ties to even, with
  gradual underflow; its operands are rationals that are `double`s.  A result
  that is not finite (overflow, division by zero) is `none`, and so is every
  result computed from it.
* `std::vector<double>` is `List ℚ`; in the total methods
  `operator[]` is `List.getD _ _ 0` for a read and `List.set` for a write.
  The definitions whose names end in `?` are the same methods with every
  subscript checked: they return `none` at the first access out of bounds.
* The `ISquaresOutput` sink is the list of calls made on it, in call order.
* The threads of `main.cpp` are a step relation: a schedule names the thread
  that moves next, and a thread moves from one of its synchronisation points
  (a read of the flag `invalidated`, `threadSync.lock()`, the end of a locked
  section) to the next.  A `std::mutex` is a Boolean that `lock()` sets only
  when it is clear.  The pipeline starts in the state the launch loop leaves,
  which depends on whether the thread of a lane read its `threadId` before or
  after the launch loop assigned it; shutdown is not modelled.
* `size_t` is 64 bits wide.  `ResolutionX - 1`, the constant `ArraySize`, the
  sample index of the checked methods and the frame counter wrap explicitly.
  The count of emitted vertices is a natural number: one sink call per counted
  vertex keeps it far below `2^64`.
* In `LangstonsAnt` the `size_t` coordinates of the ant and its `uint8_t`
  direction wrap explicitly, and a cell access outside `mCells` ends the run:
  `update` returns `none`.
-/

set_option autoImplicit false
set_option maxRecDepth 10000

namespace MarchingSquares

/-- The modulus of `size_t` arithmetic. -/
def SIZE_MOD : Nat := 2 ^ 64

/-- The `size_t` expression `n - 1`: it wraps to the largest value at `n = 0`. -/
def sizePred (n : Nat) : Nat := if n = 0 then SIZE_MOD - 1 else n - 1

/-- One call made on the `ISquaresOutput` sink. -/
inductive SinkCall where
  | resetVertices (vertexCount : Nat)
  | addVertex (isoLevel x y : ℚ)
  deriving DecidableEq

/-- The extractor: its four template parameters, the sample buffer
`mAllPoints` and the bound generator (`ISquaresGenerator::getPoint`). -/
structure Squares where
  ResolutionX : Nat
  ResolutionY : Nat
  PixelsPerPointX : Nat
  PixelsPerPointY : Nat
  mAllPoints : List ℚ
  mGenerator : Nat → Nat → ℚ

/-- The constant `ArraySize = ResolutionX * ResolutionY`, a product of
`size_t` values in a `size_t`: it wraps at `2^64`. -/
def ArraySize (ResolutionX ResolutionY : Nat) : Nat := (ResolutionX * ResolutionY) % SIZE_MOD

/-- The method `getPoint(x, y)`: `mAllPoints[(y * ResolutionX) + x]`. -/
def Squares.getPoint (ms : Squares) (x y : Nat) : ℚ :=
  ms.mAllPoints.getD ((y * ms.ResolutionX) + x) 0

/-- The method `getSquareType(x, y, isoLevel)`: four strict comparisons, each
OR-ing one bit into the code. -/
def Squares.getSquareType (ms : Squares) (x y : Nat) (isoLevel : ℚ) : Nat :=
  let squareType : Nat := 0
  let squareType := if ms.getPoint x y > isoLevel then squareType ||| 0x1 else squareType
  let squareType := if ms.getPoint (x+1) y > isoLevel then squareType ||| 0x2 else squareType
  let squareType := if ms.getPoint (x+1) (y+1) > isoLevel then squareType ||| 0x4 else squareType
  let squareType := if ms.getPoint x (y+1) > isoLevel then squareType ||| 0x8 else squareType
  squareType

/-- The table `squareVerticies`: the offset of each of the eight vertex
references (edges 0 to 3, corners 4 to 7) from the cell origin, in grid units. -/
def squareVerticies : List (ℚ × ℚ) :=
  [(0, 0), (0, 0), (1, 0), (0, 1),
   (0, 0), (1, 0), (1, 1), (0, 1)]

/-- The table `squareIndicies`: sixteen rows of ten `int`s; the entries after
a row's initialisers are zero. -/
def squareIndicies : List (List Int) :=
  [ /-00-/ [-1, 0, 0, 0, 0, 0, 0, 0, 0, 0],
    /-01-/ [4, 0, 1, -1, 0, 0, 0, 0, 0, 0],
    /-02-/ [1, 2, 5, -1, 0, 0, 0, 0, 0, 0],
    /-03-/ [4, 0, 5, 5, 0, 2, -1, 0, 0, 0],
    /-04-/ [2, 3, 6, -1, 0, 0, 0, 0, 0, 0],
    /-05-/ [4, 0, 1, 2, 3, 6, -1, 0, 0, 0],
    /-06-/ [5, 1, 6, 6, 1, 3, -1, 0, 0, 0],
    /-07-/ [4, 0, 5, 5, 0, 3, 3, 6, 5, -1],
    /-08-/ [0, 7, 3, -1, 0, 0, 0, 0, 0, 0],
    /-09-/ [4, 7, 3, 3, 1, 4, -1, 0, 0, 0],
    /-10-/ [1, 2, 5, 0, 7, 3, -1, 0, 0, 0],
    /-11-/ [5, 4, 2, 2, 4, 3, 3, 4, 7, -1],
    /-12-/ [2, 0, 7, 7, 6, 2, -1, 0, 0, 0],
    /-13-/ [1, 4, 7, 7, 2, 1, 2, 7, 6, -1],
    /-14-/ [5, 1, 6, 6, 1, 0, 0, 7, 6, -1],
    /-15-/ [4, 7, 5, 5, 7, 6, -1, 0, 0, 0] ]

/-- The writes of `recalculate` on the buffer: `y` outer, `x` inner, each
storing the generator's sample at index `(y * ResolutionX) + x`. -/
def recalculatePoints (ResolutionX ResolutionY : Nat) (gen : Nat → Nat → ℚ)
    (pts : List ℚ) : List ℚ :=
  (List.range ResolutionY).foldl (fun pts y =>
    (List.range ResolutionX).foldl (fun pts x =>
      pts.set ((y * ResolutionX) + x) (gen x y)) pts) pts

/-- The method `recalculate()`. -/
def Squares.recalculate (ms : Squares) : Squares :=
  { ms with mAllPoints :=
      recalculatePoints ms.ResolutionX ms.ResolutionY ms.mGenerator ms.mAllPoints }

/-- The constructor: a zero-filled buffer of `ArraySize` samples, then
`recalculate()`. -/
def Squares.new (ResolutionX ResolutionY PixelsPerPointX PixelsPerPointY : Nat)
    (generator : Nat → Nat → ℚ) : Squares :=
  Squares.recalculate
    { ResolutionX, ResolutionY, PixelsPerPointX, PixelsPerPointY,
      mAllPoints := List.replicate (ArraySize ResolutionX ResolutionY) 0,
      mGenerator := generator }

/-- The method `countVerticies(contour)`. -/
def Squares.countVerticies (ms : Squares) (contour : ℚ) : Nat :=
  (List.range (sizePred ms.ResolutionY)).foldl (fun vertexCount y =>
    (List.range (sizePred ms.ResolutionX)).foldl (fun vertexCount x =>
      let squareType := ms.getSquareType x y contour
      if squareType > 0 ∧ squareType < 15 then
        vertexCount + (if squareType = 5 ∨ squareType = 10 then 4 else 2)
      else vertexCount) vertexCount) 0

/-- The local state of one `render` call: the calls made on the sink so far,
the counter `currentVertex` and the array `interpolated`. -/
structure RenderState where
  calls : List SinkCall
  currentVertex : Nat
  interpolated : List (ℚ × ℚ)

/-- The initial value of the local array `interpolated`. -/
def interpolatedInit : List (ℚ × ℚ) :=
  [(0, 1/2), (1/2, 0), (0, 1/2), (1/2, 0), (0, 0), (0, 0), (0, 0), (0, 0)]

/-- Assignment to `std::get<0>(arr[i])`. -/
def setGet0 (arr : List (ℚ × ℚ)) (i : Nat) (v : ℚ) : List (ℚ × ℚ) :=
  arr.set i (v, (arr.getD i (0, 0)).2)

/-- Assignment to `std::get<1>(arr[i])`. -/
def setGet1 (arr : List (ℚ × ℚ)) (i : Nat) (v : ℚ) : List (ℚ × ℚ) :=
  arr.set i ((arr.getD i (0, 0)).1, v)

/-- The four assignments to `interpolated` made for the cell `(x, y)`. -/
def Squares.interpolate (ms : Squares) (x y : Nat) (isoLevel : ℚ)
    (interpolated : List (ℚ × ℚ)) : List (ℚ × ℚ) :=
  let interpolated := setGet1 interpolated 0
    (ms.PixelsPerPointY * |(isoLevel - ms.getPoint x y) / (ms.getPoint x (y+1) - ms.getPoint x y)|)
  let interpolated := setGet0 interpolated 1
    (ms.PixelsPerPointX * |(isoLevel - ms.getPoint x y) / (ms.getPoint (x+1) y - ms.getPoint x y)|)
  let interpolated := setGet1 interpolated 2
    (ms.PixelsPerPointY * |(isoLevel - ms.getPoint (x+1) y) / (ms.getPoint (x+1) (y+1) - ms.getPoint (x+1) y)|)
  let interpolated := setGet0 interpolated 3
    (ms.PixelsPerPointX * |(isoLevel - ms.getPoint x (y+1)) / (ms.getPoint (x+1) (y+1) - ms.getPoint x (y+1))|)
  interpolated

/-- The loop over one table row: it stops at the first `-1`; every other
entry `i` makes one `addVertex` call and increments `currentVertex`. -/
def Squares.emitRow (ms : Squares) (x y : Nat) (isoLevel : ℚ) :
    List Int → RenderState → RenderState
  | [], s => s
  | i :: rest, s =>
    if i = -1 then s
    else
      let interTuple : ℚ × ℚ :=
        ((((squareVerticies.getD i.toNat (0, 0)).1 + (x : ℚ)) * ms.PixelsPerPointX)
            + (s.interpolated.getD i.toNat (0, 0)).1,
         (((squareVerticies.getD i.toNat (0, 0)).2 + (y : ℚ)) * ms.PixelsPerPointY)
            + (s.interpolated.getD i.toNat (0, 0)).2)
      ms.emitRow x y isoLevel rest
        { s with
            calls := s.calls ++ [SinkCall.addVertex isoLevel interTuple.1 interTuple.2],
            currentVertex := s.currentVertex + 1 }

/-- The body of the innermost loop of `render` for the cell `(x, y)`. -/
def Squares.renderCell (ms : Squares) (isoLevel : ℚ) (y x : Nat) (s : RenderState) :
    RenderState :=
  let squareType := ms.getSquareType x y isoLevel
  let s := { s with interpolated := ms.interpolate x y isoLevel s.interpolated }
  ms.emitRow x y isoLevel (squareIndicies.getD squareType []) s

/-- The method `render(isoLevels)`: the calls it makes on the sink, and its
return value. -/
def Squares.render (ms : Squares) (isoLevels : List ℚ) : List SinkCall × Nat :=
  let s : RenderState :=
    { calls := [SinkCall.resetVertices 0], currentVertex := 0,
      interpolated := interpolatedInit }
  let s := isoLevels.foldl (fun s isoLevel =>
    (List.range (sizePred ms.ResolutionY)).foldl (fun s y =>
      (List.range (sizePred ms.ResolutionX)).foldl (fun s x =>
        ms.renderCell isoLevel y x s) s) s) s
  (s.calls, s.currentVertex)

/-- The generator `TestPattern` of `main.cpp`. -/
def TestPattern.mTestPattern : List ℚ :=
  [0.0, 0.1, 0.1, 0.3, 0.2,
   0.1, 0.3, 0.6, 0.6, 0.3,
   0.3, 0.7, 0.9, 0.7, 0.3,
   0.2, 0.7, 0.8, 0.6, 0.2,
   0.1, 0.2, 0.3, 0.4, 0.7]

/-- The method `TestPattern::getPoint`. -/
def TestPattern.getPoint (x y : Nat) : ℚ :=
  TestPattern.mTestPattern.getD ((y * 5) + x) 0

/-- The entries of row `squareType` that the loop of `render` visits: those
before the first `-1`. -/
def vertexRefs (squareType : Nat) : List Int :=
  (squareIndicies.getD squareType []).takeWhile (fun i => i != -1)

/-- The `addVertex` call `render` makes for the table entry `i` in the cell
`(x, y)`, with `interpolated` as it stands. -/
def Squares.vertexCall (ms : Squares) (x y : Nat) (isoLevel : ℚ)
    (interpolated : List (ℚ × ℚ)) (i : Int) : SinkCall :=
  SinkCall.addVertex isoLevel
    ((((squareVerticies.getD i.toNat (0, 0)).1 + (x : ℚ)) * ms.PixelsPerPointX)
        + (interpolated.getD i.toNat (0, 0)).1)
    ((((squareVerticies.getD i.toNat (0, 0)).2 + (y : ℚ)) * ms.PixelsPerPointY)
        + (interpolated.getD i.toNat (0, 0)).2)

/-- The sink calls `render` makes while it handles the cell `(x, y)` for one
iso-level: those of the loop body run from an empty call list. -/
def Squares.cellCalls (ms : Squares) (isoLevel : ℚ) (y x : Nat) : List SinkCall :=
  (ms.renderCell isoLevel y x
    { calls := [], currentVertex := 0, interpolated := interpolatedInit }).calls

/-- The shape `interpolated` keeps throughout `render`: the components that
are never assigned stay zero. -/
def InterpolatedShape (arr : List (ℚ × ℚ)) : Prop :=
  ∃ a b c d : ℚ, arr = [(0, a), (b, 0), (0, c), (d, 0), (0, 0), (0, 0), (0, 0), (0, 0)]

/-- The sink calls of one iso-level pass: the cells in row-major order. -/
def Squares.levelCalls (ms : Squares) (isoLevel : ℚ) : List SinkCall :=
  (List.range (sizePred ms.ResolutionY)).flatMap (fun y =>
    (List.range (sizePred ms.ResolutionX)).flatMap (fun x => ms.cellCalls isoLevel y x))

/-- The consumer's lane selection `workerThreads[frameCount++ % ThreadCount]`:
the selected lane index and the incremented `size_t` counter. -/
def selectLane (ThreadCount frameCount : Nat) : Nat × Nat :=
  (frameCount % ThreadCount, (frameCount + 1) % SIZE_MOD)

/-- The lane indices selected by `frames` consecutive frames of the consumer
loop, starting with the counter at `frameCount`. -/
def consumedLanes (ThreadCount : Nat) : Nat → Nat → List Nat
  | 0, _ => []
  | frames + 1, frameCount =>
    (selectLane ThreadCount frameCount).1 ::
      consumedLanes ThreadCount frames (selectLane ThreadCount frameCount).2

/-- The subexpression `std::abs((isoLevel - a) / (b - a))` of the four
assignments to `interpolated`: the offset along an edge, as a fraction of the
edge, measured from the corner with sample `a`. -/
def edgeFactor (isoLevel a b : ℚ) : ℚ := |(isoLevel - a) / (b - a)|

/-- The extractor `MarchingSquares<5, 5, Px, Py>` bound to `TestPattern`. -/
def testGrid (Px Py : Nat) : Squares := Squares.new 5 5 Px Py TestPattern.getPoint

/-- A 2x2 grid with unit pixel scale whose only non-zero sample is `1` at `(0, 0)`. -/
def singleCornerGrid : Squares :=
  Squares.new 2 2 1 1 (fun x y => if x = 0 ∧ y = 0 then 1 else 0)

/-- A 2x2 grid with unit pixel scale whose four samples are all `1`. -/
def uniformGrid : Squares := Squares.new 2 2 1 1 (fun _ _ => 1)

/-- A 2x2 grid with pixel scale 3 by 2 sampled from `getPoint(x, y) = x`. -/
def rampGrid : Squares := Squares.new 2 2 3 2 (fun x _ => x)

/-- The corner samples `a` and `b` of an edge lie on opposite sides of the
iso-level: one is above it and the other is not. -/
def OppositeSides (isoLevel a b : ℚ) : Prop :=
  (a > isoLevel ∧ b ≤ isoLevel) ∨ (a ≤ isoLevel ∧ b > isoLevel)

/-- A 2x2 grid with unit pixel scale whose four samples are all `0`. -/
def zeroGrid : Squares := Squares.new 2 2 1 1 (fun _ _ => 0)

/-- A 2x2 grid with unit pixel scale whose only non-zero sample is `1` at
`(cx, cy)`. -/
def cornerGrid (cx cy : Nat) : Squares :=
  Squares.new 2 2 1 1 (fun x y => if x = cx ∧ y = cy then 1 else 0)

/-- The power `2^e` of an integer exponent `e`. -/
def Double.pow2 (e : ℤ) : ℚ :=
  if 0 ≤ e then ((2 ^ e.toNat : ℕ) : ℚ) else 1 / ((2 ^ (-e).toNat : ℕ) : ℚ)

/-- The binary logarithm of a natural number, rounded down, by halving;
`fuel` bounds the number of halvings. -/
def Double.log2Fuel : Nat → Nat → Nat
  | 0, _ => 0
  | fuel + 1, n => if 2 ≤ n then Double.log2Fuel fuel (n / 2) + 1 else 0

/-- The binary logarithm of a natural number, rounded down. -/
def Double.log2 (n : Nat) : Nat := Double.log2Fuel n n

/-- The binary exponent of a non-zero rational `q`: the `e` with
`2^e ≤ |q| < 2^(e+1)`. -/
def Double.exponent (q : ℚ) : ℤ :=
  let k : ℤ := (Double.log2 q.num.natAbs : ℤ) - (Double.log2 q.den : ℤ)
  if |q| < Double.pow2 k then k - 1 else k

/-- The integer nearest to `r`, the even one of the two when `r` lies halfway
between two integers. -/
def Double.roundHalfEven (r : ℚ) : ℤ :=
  if r - ⌊r⌋ < 1/2 then ⌊r⌋
  else if 1/2 < r - ⌊r⌋ then ⌊r⌋ + 1
  else if ⌊r⌋ % 2 = 0 then ⌊r⌋ else ⌊r⌋ + 1

/-- Rounding of the exact result `q` of an operation to a `double` (IEEE 754
binary64, round to nearest, ties to even): 53 significant bits above `2^-1022`,
multiples of `2^-1074` below; `none` when the rounded magnitude reaches
`2^1024`, where the operation yields an infinity. -/
def Double.round (q : ℚ) : Option ℚ :=
  if q = 0 then some 0
  else
    let p : ℤ := max (Double.exponent q - 52) (-1074)
    let r : ℚ := (Double.roundHalfEven (q / Double.pow2 p) : ℚ) * Double.pow2 p
    if |r| < Double.pow2 1024 then some r else none

/-- The `double` sum `a + b`; `none` stands for an operand or result that is
not finite. -/
def Double.add (a b : Option ℚ) : Option ℚ :=
  a.bind (fun x => b.bind (fun y => Double.round (x + y)))

/-- The `double` difference `a - b`. -/
def Double.sub (a b : Option ℚ) : Option ℚ :=
  a.bind (fun x => b.bind (fun y => Double.round (x - y)))

/-- The `double` product `a * b`. -/
def Double.mul (a b : Option ℚ) : Option ℚ :=
  a.bind (fun x => b.bind (fun y => Double.round (x * y)))

/-- The `double` quotient `a / b`; a division by zero is not finite. -/
def Double.div (a b : Option ℚ) : Option ℚ :=
  a.bind (fun x => b.bind (fun y => if y = 0 then none else Double.round (x / y)))

/-- The function `std::abs` on a `double`. -/
def Double.abs (a : Option ℚ) : Option ℚ := a.map (fun x => |x|)

/-- The conversion of a `size_t` to `double`. -/
def Double.ofNat (n : Nat) : Option ℚ := Double.round (n : ℚ)

/-- The initial `mOffsetZ` of a `PerlinHeightmapGenerator`. -/
def PerlinHeightmapGenerator.mOffsetZ : Option ℚ := some 1.0

/-- The method `PerlinHeightmapGenerator::step(delta)`: `mOffsetZ += delta`, an
addition of `double`s. -/
def PerlinHeightmapGenerator.step (mOffsetZ delta : Option ℚ) : Option ℚ :=
  Double.add mOffsetZ delta

/-- The data of one lane: the fields `threadId`, `invalidated` and `isRunning`
of its `WorkerThread`, the temporal coordinate `mOffsetZ` of the generator
local to its thread, and `outputZ`, the temporal coordinate at which the
samples were taken that the contents of its `output` sink were rendered from
(none while the sink is still empty).  A temporal coordinate is a `double`:
`none` when it is not finite. -/
structure WorkerThread where
  threadId : Nat
  invalidated : Bool
  isRunning : Bool
  mOffsetZ : Option ℚ
  outputZ : Option (Option ℚ)

/-- Where the thread of a lane stands in the loop of `calculationThread`: at
the top of the loop, at `threadSync.lock()`, or inside the locked pass. -/
inductive WorkerAt where
  | loopTop
  | lock
  | pass
  deriving DecidableEq

/-- Where the consumer stands in its frame: before the lane selection, in the
wait loop on the selected lane, at `threadSync.lock()`, or inside the locked
draw. -/
inductive ConsumerAt where
  | frameStart
  | waiting (lane : Nat)
  | lock (lane : Nat)
  | drawing (lane : Nat)
  deriving DecidableEq

/-- The lane `threadInfo` refers to, once the consumer has selected it. -/
def ConsumerAt.lane : ConsumerAt → Option Nat
  | ConsumerAt.frameStart => none
  | ConsumerAt.waiting lane => some lane
  | ConsumerAt.lock lane => some lane
  | ConsumerAt.drawing lane => some lane

/-- The pipeline of `main`: the constants `ThreadCount` and
`DepthIncrementAmountPerFrame`, the data of the array `workerThreads`, the
mutexes `threadSync` of the lanes (`true` when locked), the position of every
worker thread, the consumer's counter `frameCount` and the position of the
consumer. -/
structure Pipeline where
  ThreadCount : Nat
  DepthIncrementAmountPerFrame : ℚ
  workerThreads : List WorkerThread
  threadSync : List Bool
  workerAt : List WorkerAt
  frameCount : Nat
  consumerAt : ConsumerAt

/-- What one step of the pipeline does to a sink: a recompute pass of a lane
that sampled its field at `z`, or the consumer drawing the sink of a lane. -/
inductive PipelineEvent where
  | recompute (threadId : Nat) (z : Option ℚ)
  | draw (threadId : Nat) (outputZ : Option (Option ℚ))
  deriving DecidableEq

/-- Which thread runs next: the worker of a lane or the consumer. -/
inductive PipelineStep where
  | worker (threadId : Nat)
  | consumer
  deriving DecidableEq

/-- The state once the launch loop has run and every worker has constructed
its generator and stepped it by `DepthIncrementAmountPerFrame` times the
`threadId` it read.  The launch loop starts the thread of a lane before it
assigns the lane's `threadId`, so that the thread reads either the 0 stored by
the constructor of `WorkerThread` or the assigned value: `readEarly i` tells
that the thread of lane `i` read before the assignment. -/
def Pipeline.launch (ThreadCount : Nat) (DepthIncrementAmountPerFrame : ℚ)
    (readEarly : Nat → Bool) : Pipeline :=
  { ThreadCount := ThreadCount,
    DepthIncrementAmountPerFrame := DepthIncrementAmountPerFrame,
    workerThreads := (List.range ThreadCount).map (fun threadIdCounter =>
      { threadId := threadIdCounter, invalidated := true, isRunning := true,
        mOffsetZ := PerlinHeightmapGenerator.step PerlinHeightmapGenerator.mOffsetZ
          (Double.mul (some DepthIncrementAmountPerFrame)
            (Double.ofNat (if readEarly threadIdCounter then 0 else threadIdCounter))),
        outputZ := none }),
    threadSync := List.replicate ThreadCount false,
    workerAt := List.replicate ThreadCount WorkerAt.loopTop,
    frameCount := 0,
    consumerAt := ConsumerAt.frameStart }

/-- The temporal coordinate of a generator that was stepped by
`DepthIncrementAmountPerFrame * threadId` at the start of its thread and by
`DepthIncrementAmountPerFrame * ThreadCount` at the end of each of `k` passes,
in `double` arithmetic. -/
def laneOffsetZ (ThreadCount : Nat) (DepthIncrementAmountPerFrame : ℚ) (threadId : Nat) :
    Nat → Option ℚ
  | 0 =>
    PerlinHeightmapGenerator.step PerlinHeightmapGenerator.mOffsetZ
      (Double.mul (some DepthIncrementAmountPerFrame) (Double.ofNat threadId))
  | k + 1 =>
    PerlinHeightmapGenerator.step (laneOffsetZ ThreadCount DepthIncrementAmountPerFrame threadId k)
      (Double.mul (some DepthIncrementAmountPerFrame) (Double.ofNat ThreadCount))

/-- One step of the worker of lane `threadId`.  At the top of the loop it
stays there while `isRunning` is false (the loop has ended) or the lane is not
invalidated (`sleep_for; continue`), and otherwise goes on to
`threadSync.lock()`.  There it waits while the mutex is locked, and otherwise
locks it.  The pass, `recalculate()` and `render` at the current `mOffsetZ`,
then `generator.step(DepthIncrementAmountPerFrame * ThreadCount)`,
`invalidated = false` and `threadSync.unlock()`, is one step. -/
def Pipeline.workerStep (p : Pipeline) (threadId : Nat) : Pipeline × Option PipelineEvent :=
  match p.workerThreads[threadId]?, p.workerAt[threadId]?, p.threadSync[threadId]? with
  | some w, some WorkerAt.loopTop, some _ =>
    if !w.isRunning then (p, none)
    else if !w.invalidated then (p, none)
    else ({ p with workerAt := p.workerAt.set threadId WorkerAt.lock }, none)
  | some _, some WorkerAt.lock, some locked =>
    if locked then (p, none)
    else
      ({ p with
          threadSync := p.threadSync.set threadId true,
          workerAt := p.workerAt.set threadId WorkerAt.pass },
       none)
  | some w, some WorkerAt.pass, some _ =>
    ({ p with
        workerThreads := p.workerThreads.set threadId
          { w with
              outputZ := some w.mOffsetZ,
              mOffsetZ := PerlinHeightmapGenerator.step w.mOffsetZ
                (Double.mul (some p.DepthIncrementAmountPerFrame) (Double.ofNat p.ThreadCount)),
              invalidated := false },
        threadSync := p.threadSync.set threadId false,
        workerAt := p.workerAt.set threadId WorkerAt.loopTop },
     some (PipelineEvent.recompute threadId w.mOffsetZ))
  | _, _, _ => (p, none)

/-- One step of the consumer.  At the start of a frame it selects the lane
`frameCount++ % ThreadCount`.  In the wait loop it stays while the lane is
invalidated.  At `threadSync.lock()` it waits while the mutex is locked, and
otherwise locks it.  The draw of the lane's sink, then `invalidated = true`
and `threadSync.unlock()`, is one step. -/
def Pipeline.consumerStep (p : Pipeline) : Pipeline × Option PipelineEvent :=
  match p.consumerAt with
  | ConsumerAt.frameStart =>
    ({ p with
        consumerAt := ConsumerAt.waiting (selectLane p.ThreadCount p.frameCount).1,
        frameCount := (selectLane p.ThreadCount p.frameCount).2 },
     none)
  | ConsumerAt.waiting lane =>
    match p.workerThreads[lane]? with
    | some w =>
      if w.invalidated then (p, none)
      else ({ p with consumerAt := ConsumerAt.lock lane }, none)
    | none => (p, none)
  | ConsumerAt.lock lane =>
    match p.threadSync[lane]? with
    | some false =>
      ({ p with
          threadSync := p.threadSync.set lane true,
          consumerAt := ConsumerAt.drawing lane },
       none)
    | _ => (p, none)
  | ConsumerAt.drawing lane =>
    match p.workerThreads[lane]? with
    | some w =>
      ({ p with
          workerThreads := p.workerThreads.set lane { w with invalidated := true },
          threadSync := p.threadSync.set lane false,
          consumerAt := ConsumerAt.frameStart },
       some (PipelineEvent.draw lane w.outputZ))
    | none => (p, none)

/-- One step of the pipeline: the scheduled thread moves. -/
def Pipeline.step (p : Pipeline) : PipelineStep → Pipeline × Option PipelineEvent
  | PipelineStep.worker threadId => p.workerStep threadId
  | PipelineStep.consumer => p.consumerStep

/-- A run of the pipeline under a schedule, any interleaving of the threads:
the final state and the events in the order they happened. -/
def Pipeline.run (p : Pipeline) (schedule : List PipelineStep) :
    Pipeline × List PipelineEvent :=
  schedule.foldl (fun acc s =>
    let r := acc.1.step s
    (r.1, acc.2 ++ r.2.toList)) (p, [])

/-- The coordinates sampled by the recompute passes of one lane, in order. -/
def recomputesOf (threadId : Nat) (events : List PipelineEvent) : List (Option ℚ) :=
  events.filterMap (fun e =>
    match e with
    | PipelineEvent.recompute i z => if i = threadId then some z else none
    | PipelineEvent.draw _ _ => none)

/-- The frames drawn, in order: the lane of each and the coordinate its sink
was sampled at. -/
def drawsOf (events : List PipelineEvent) : List (Nat × Option (Option ℚ)) :=
  events.filterMap (fun e =>
    match e with
    | PipelineEvent.recompute _ _ => none
    | PipelineEvent.draw i z => some (i, z))

/-- The events of one lane, in order: `true` for a recompute pass, `false` for
a draw. -/
def laneEvents (threadId : Nat) (events : List PipelineEvent) : List Bool :=
  events.filterMap (fun e =>
    match e with
    | PipelineEvent.recompute i _ => if i = threadId then some true else none
    | PipelineEvent.draw i _ => if i = threadId then some false else none)

/-- The alternation of passes (`true`) and draws (`false`) that starts with a
pass, `n` events long. -/
def alternation (n : Nat) : List Bool := (List.range n).map (fun j => decide (j % 2 = 0))

/-- The invariant of the handshake: the three arrays have one entry per lane;
a worker at the lock or in its pass has its flag STALE; the consumer at the
lock of a lane or drawing it has that lane's flag READY; the consumer draws
lanes that exist only; and a mutex is locked exactly when its worker is in
its pass or the consumer is drawing the lane. -/
def Pipeline.Coherent (p : Pipeline) : Prop :=
  p.workerAt.length = p.workerThreads.length ∧
  p.threadSync.length = p.workerThreads.length ∧
  (∀ (i : Nat) (w : WorkerThread), p.workerThreads[i]? = some w →
    (p.workerAt[i]? = some WorkerAt.lock ∨ p.workerAt[i]? = some WorkerAt.pass) →
    w.invalidated = true) ∧
  (∀ (l : Nat) (w : WorkerThread), p.workerThreads[l]? = some w →
    (p.consumerAt = ConsumerAt.lock l ∨ p.consumerAt = ConsumerAt.drawing l) →
    w.invalidated = false) ∧
  (∀ l, p.consumerAt = ConsumerAt.drawing l → l < p.workerThreads.length) ∧
  (∀ i, p.threadSync[i]? = some true ↔
    (p.workerAt[i]? = some WorkerAt.pass ∨ p.consumerAt = ConsumerAt.drawing i))

/-- A schedule for three lanes: every worker runs its first pass (three steps
each), the consumer draws the lanes 0 and 1 (four steps each), the workers of
the lanes 1 and 0 run their second pass, the consumer draws the lanes 2 and 0,
and the worker of lane 2 goes on to its lock. -/
def sampleSchedule : List PipelineStep :=
  [PipelineStep.worker 0, PipelineStep.worker 0, PipelineStep.worker 0,
   PipelineStep.worker 1, PipelineStep.worker 1, PipelineStep.worker 1,
   PipelineStep.worker 2, PipelineStep.worker 2, PipelineStep.worker 2,
   PipelineStep.consumer, PipelineStep.consumer, PipelineStep.consumer, PipelineStep.consumer,
   PipelineStep.consumer, PipelineStep.consumer, PipelineStep.consumer, PipelineStep.consumer,
   PipelineStep.worker 1, PipelineStep.worker 1, PipelineStep.worker 1,
   PipelineStep.worker 0, PipelineStep.worker 0, PipelineStep.worker 0,
   PipelineStep.consumer, PipelineStep.consumer, PipelineStep.consumer, PipelineStep.consumer,
   PipelineStep.consumer, PipelineStep.consumer, PipelineStep.consumer, PipelineStep.consumer,
   PipelineStep.worker 2]

/-- The modulus of `uint8_t` arithmetic. -/
def UINT8_MOD : Nat := 2 ^ 8

/-- The class `LangstonsAnt<Width, Height>` with the default `CellType`: the
cells `mCells` and the ant `mAnt`, a triple of two `size_t` coordinates and a
`uint8_t` direction. -/
structure LangstonsAnt where
  Width : Nat
  Height : Nat
  mCells : List ℚ
  mAnt : Nat × Nat × Nat

/-- The constructor: `ArraySize = Width * Height` zero cells, the ant at
`(Width/2, Height/2)` with direction 0. -/
def LangstonsAnt.new (Width Height : Nat) : LangstonsAnt :=
  { Width := Width, Height := Height,
    mCells := List.replicate (Width * Height) 0,
    mAnt := (Width / 2, Height / 2, 0) }

/-- The method `pointToArray(point)`: `get<1>(point) * Width + get<0>(point)`. -/
def LangstonsAnt.pointToArray (a : LangstonsAnt) (point : Nat × Nat) : Nat :=
  (point.2 * a.Width) + point.1

/-- The method `getCellState(point)`: the cell `mCells[pointToArray(point)]`,
and `none` when the index is outside the vector. -/
def LangstonsAnt.getCellState (a : LangstonsAnt) (point : Nat × Nat) : Option ℚ :=
  a.mCells[a.pointToArray point]?

/-- The method `flipCellState(point)`: the cell becomes 0 when it is non-zero
and 1 otherwise; `none` when the index is outside the vector. -/
def LangstonsAnt.flipCellState (a : LangstonsAnt) (point : Nat × Nat) : Option LangstonsAnt :=
  match a.mCells[a.pointToArray point]? with
  | some c =>
    some { a with mCells := a.mCells.set (a.pointToArray point) (if c ≠ 0 then 0 else 1) }
  | none => none

/-- The method `update()`: flip the cell under the ant, turn by its new state,
and move one unit with the four edge tests of the `switch`.  The `size_t`
coordinates and the `uint8_t` direction wrap; the result is `none` when a cell
access is outside the vector. -/
def LangstonsAnt.update (a : LangstonsAnt) : Option LangstonsAnt :=
  let x := a.mAnt.1
  let y := a.mAnt.2.1
  let r := a.mAnt.2.2
  (a.flipCellState (x, y)).bind fun a =>
  (a.getCellState (x, y)).map fun (state : ℚ) =>
  let r :=
    if state > 0 then
      let r := (r + 1) % UINT8_MOD
      if r > 3 then 0 else r
    else
      let r := (r + UINT8_MOD - 1) % UINT8_MOD
      if r > 3 then 3 else r
  match r with
  | 0 =>
    let y := (y + SIZE_MOD - 1) % SIZE_MOD
    let y := if y > a.Height then sizePred a.Height else y
    { a with mAnt := (x, y, r) }
  | 1 =>
    let x := (x + 1) % SIZE_MOD
    let x := if x > a.Width then 0 else x
    { a with mAnt := (x, y, r) }
  | 2 =>
    let y := (y + 1) % SIZE_MOD
    let y := if y > a.Height then 0 else y
    { a with mAnt := (x, y, r) }
  | 3 =>
    let x := (x + SIZE_MOD - 1) % SIZE_MOD
    let x := if x > a.Width then sizePred a.Width else x
    { a with mAnt := (x, y, r) }
  | _ => { a with mAnt := (x, y, r) }

/-- The ant after `n` calls of `update()`; `none` once a call has accessed a
cell outside the vector. -/
def LangstonsAnt.updates (a : LangstonsAnt) : Nat → Option LangstonsAnt
  | 0 => some a
  | n + 1 => (a.updates n).bind LangstonsAnt.update

/-- The subexpression `std::abs((isoLevel - a) / (b - a))` of the four
assignments to `interpolated`, in `double` arithmetic. -/
def edgeFactorDouble (isoLevel a b : ℚ) : Option ℚ :=
  Double.abs (Double.div (Double.sub (some isoLevel) (some a)) (Double.sub (some b) (some a)))

/-- The initial value of the local array `interpolated`, as `double`s. -/
def interpolatedInitDouble : List (Option ℚ × Option ℚ) :=
  [(some 0, some (1/2)), (some (1/2), some 0), (some 0, some (1/2)), (some (1/2), some 0),
   (some 0, some 0), (some 0, some 0), (some 0, some 0), (some 0, some 0)]

/-- Assignment to `std::get<0>(arr[i])` of an array of `double` pairs. -/
def setGet0Double (arr : List (Option ℚ × Option ℚ)) (i : Nat) (v : Option ℚ) :
    List (Option ℚ × Option ℚ) :=
  arr.set i (v, (arr.getD i (none, none)).2)

/-- Assignment to `std::get<1>(arr[i])` of an array of `double` pairs. -/
def setGet1Double (arr : List (Option ℚ × Option ℚ)) (i : Nat) (v : Option ℚ) :
    List (Option ℚ × Option ℚ) :=
  arr.set i ((arr.getD i (none, none)).1, v)

/-- The four assignments to `interpolated` made for the cell `(x, y)`, in
`double` arithmetic: the `size_t` constants `PixelsPerPointX` and
`PixelsPerPointY` are converted to `double`. -/
def Squares.interpolateDouble (ms : Squares) (x y : Nat) (isoLevel : ℚ)
    (interpolated : List (Option ℚ × Option ℚ)) : List (Option ℚ × Option ℚ) :=
  let interpolated := setGet1Double interpolated 0
    (Double.mul (Double.ofNat ms.PixelsPerPointY)
      (Double.abs (Double.div (Double.sub (some isoLevel) (some (ms.getPoint x y)))
        (Double.sub (some (ms.getPoint x (y+1))) (some (ms.getPoint x y))))))
  let interpolated := setGet0Double interpolated 1
    (Double.mul (Double.ofNat ms.PixelsPerPointX)
      (Double.abs (Double.div (Double.sub (some isoLevel) (some (ms.getPoint x y)))
        (Double.sub (some (ms.getPoint (x+1) y)) (some (ms.getPoint x y))))))
  let interpolated := setGet1Double interpolated 2
    (Double.mul (Double.ofNat ms.PixelsPerPointY)
      (Double.abs (Double.div (Double.sub (some isoLevel) (some (ms.getPoint (x+1) y)))
        (Double.sub (some (ms.getPoint (x+1) (y+1))) (some (ms.getPoint (x+1) y))))))
  let interpolated := setGet0Double interpolated 3
    (Double.mul (Double.ofNat ms.PixelsPerPointX)
      (Double.abs (Double.div (Double.sub (some isoLevel) (some (ms.getPoint x (y+1))))
        (Double.sub (some (ms.getPoint (x+1) (y+1))) (some (ms.getPoint x (y+1)))))))
  interpolated

/-- The loop over one table row in `double` arithmetic: the coordinates
passed to `addVertex`, call by call.  It stops at the first `-1`. -/
def Squares.emitRowDouble (ms : Squares) (x y : Nat)
    (interpolated : List (Option ℚ × Option ℚ)) : List Int → List (Option ℚ × Option ℚ)
  | [] => []
  | i :: rest =>
    if i = -1 then []
    else
      (Double.add
          (Double.mul
            (Double.add (some (squareVerticies.getD i.toNat (0, 0)).1) (Double.ofNat x))
            (Double.ofNat ms.PixelsPerPointX))
          (interpolated.getD i.toNat (none, none)).1,
       Double.add
          (Double.mul
            (Double.add (some (squareVerticies.getD i.toNat (0, 0)).2) (Double.ofNat y))
            (Double.ofNat ms.PixelsPerPointY))
          (interpolated.getD i.toNat (none, none)).2)
        :: ms.emitRowDouble x y interpolated rest

/-- The body of the innermost loop of `render` for the cell `(x, y)` in
`double` arithmetic: the coordinates passed to `addVertex`, call by call. -/
def Squares.renderCellDouble (ms : Squares) (isoLevel : ℚ) (y x : Nat)
    (interpolated : List (Option ℚ × Option ℚ)) : List (Option ℚ × Option ℚ) :=
  ms.emitRowDouble x y (ms.interpolateDouble x y isoLevel interpolated)
    (squareIndicies.getD (ms.getSquareType x y isoLevel) [])

/-- A magnitude in the range of the normal `double`s, with room for one
rounding. -/
def Double.Normal (q : ℚ) : Prop :=
  Double.pow2 (-1022) ≤ |q| ∧ |q| ≤ Double.pow2 1023

/-- The exact results of the operations of the edge factor, the two
differences and their quotient, lie in the range of the normal `double`s, with
room for their roundings; the numerator may also be zero. -/
def EdgeFactorNormal (isoLevel a b : ℚ) : Prop :=
  Double.Normal (b - a) ∧
  (isoLevel = a ∨
    (Double.Normal (isoLevel - a) ∧
      Double.pow2 (-1021) ≤ |(isoLevel - a) / (b - a)| ∧
      |(isoLevel - a) / (b - a)| ≤ Double.pow2 1022))

/-- The coordinates `render` passes to `addVertex` for the table entry `i` in
the cell `(x, y)`, in `double` arithmetic, with `interpolated` as it stands. -/
def Squares.vertexDouble (ms : Squares) (x y : Nat)
    (interpolated : List (Option ℚ × Option ℚ)) (i : Int) : Option ℚ × Option ℚ :=
  (Double.add
      (Double.mul
        (Double.add (some (squareVerticies.getD i.toNat (0, 0)).1) (Double.ofNat x))
        (Double.ofNat ms.PixelsPerPointX))
      (interpolated.getD i.toNat (none, none)).1,
   Double.add
      (Double.mul
        (Double.add (some (squareVerticies.getD i.toNat (0, 0)).2) (Double.ofNat y))
        (Double.ofNat ms.PixelsPerPointY))
      (interpolated.getD i.toNat (none, none)).2)

/-- The shape `interpolated` keeps throughout `render` in `double`
arithmetic: the components that are never assigned stay zero. -/
def InterpolatedShapeDouble (arr : List (Option ℚ × Option ℚ)) : Prop :=
  ∃ a b c d : Option ℚ,
    arr = [(some 0, a), (b, some 0), (some 0, c), (d, some 0),
           (some 0, some 0), (some 0, some 0), (some 0, some 0), (some 0, some 0)]

/-- The method `render(isoLevels)` in `double` arithmetic: the iso-level and
the coordinates of every `addVertex` call, in call order. -/
def Squares.renderDouble (ms : Squares) (isoLevels : List ℚ) :
    List (ℚ × Option ℚ × Option ℚ) :=
  (isoLevels.foldl (fun s isoLevel =>
    (List.range (sizePred ms.ResolutionY)).foldl (fun s y =>
      (List.range (sizePred ms.ResolutionX)).foldl (fun s x =>
        (s.1 ++ (ms.renderCellDouble isoLevel y x s.2).map (fun v => (isoLevel, v)),
         ms.interpolateDouble x y isoLevel s.2)) s) s)
    (([] : List (ℚ × Option ℚ × Option ℚ)), interpolatedInitDouble)).1

/-- The cell `(x, y)` at iso-level `isoLevel` stays within exact `double`
range: the pixel scales are at least 1, the pixel coordinates of the cell stay
below `2^53`, and on every edge whose corner samples lie on opposite sides of
the iso-level no operation of the edge factor leaves the normal range. -/
def Squares.CellNormal (ms : Squares) (x y : Nat) (isoLevel : ℚ) : Prop :=
  1 ≤ ms.PixelsPerPointX ∧ 1 ≤ ms.PixelsPerPointY ∧
  (x + 1) * ms.PixelsPerPointX < 2 ^ 53 ∧ (y + 1) * ms.PixelsPerPointY < 2 ^ 53 ∧
  (OppositeSides isoLevel (ms.getPoint x y) (ms.getPoint x (y+1)) →
    EdgeFactorNormal isoLevel (ms.getPoint x y) (ms.getPoint x (y+1))) ∧
  (OppositeSides isoLevel (ms.getPoint x y) (ms.getPoint (x+1) y) →
    EdgeFactorNormal isoLevel (ms.getPoint x y) (ms.getPoint (x+1) y)) ∧
  (OppositeSides isoLevel (ms.getPoint (x+1) y) (ms.getPoint (x+1) (y+1)) →
    EdgeFactorNormal isoLevel (ms.getPoint (x+1) y) (ms.getPoint (x+1) (y+1))) ∧
  (OppositeSides isoLevel (ms.getPoint x (y+1)) (ms.getPoint (x+1) (y+1)) →
    EdgeFactorNormal isoLevel (ms.getPoint x (y+1)) (ms.getPoint (x+1) (y+1)))

/-- A 2x2 grid with pixel scale 4 by 4 whose samples are the `double`s nearest
to 0.19 in the row `y = 0` and to 0.99 in the row `y = 1`. -/
def bandGrid : Squares :=
  Squares.new 2 2 4 4 (fun _ y =>
    if y = 0 then 3422735716801577/18014398509481984 else 4458563631096791/4503599627370496)

/-- The method `getPoint(x, y)` with the subscript checked: the index
`(y * ResolutionX) + x` is computed in `size_t`, and the result is `none` when
it is not below the size of `mAllPoints`. -/
def Squares.getPoint? (ms : Squares) (x y : Nat) : Option ℚ :=
  ms.mAllPoints[((y * ms.ResolutionX) + x) % SIZE_MOD]?

/-- The method `getSquareType(x, y, isoLevel)` with the subscripts of its four
`getPoint` calls checked. -/
def Squares.getSquareType? (ms : Squares) (x y : Nat) (isoLevel : ℚ) : Option Nat :=
  (ms.getPoint? x y).bind (fun p00 =>
  (ms.getPoint? (x+1) y).bind (fun p10 =>
  (ms.getPoint? (x+1) (y+1)).bind (fun p11 =>
  (ms.getPoint? x (y+1)).map (fun p01 =>
    let squareType : Nat := 0
    let squareType := if p00 > isoLevel then squareType ||| 0x1 else squareType
    let squareType := if p10 > isoLevel then squareType ||| 0x2 else squareType
    let squareType := if p11 > isoLevel then squareType ||| 0x4 else squareType
    let squareType := if p01 > isoLevel then squareType ||| 0x8 else squareType
    squareType))))

/-- The writes of `recalculate` on the buffer with the subscript checked:
`none` when an index, computed in `size_t`, is not below the size of the
buffer. -/
def recalculatePoints? (ResolutionX ResolutionY : Nat) (gen : Nat → Nat → ℚ)
    (pts : List ℚ) : Option (List ℚ) :=
  (List.range ResolutionY).foldlM (fun pts y =>
    (List.range ResolutionX).foldlM (fun pts x =>
      if ((y * ResolutionX) + x) % SIZE_MOD < pts.length then
        some (pts.set (((y * ResolutionX) + x) % SIZE_MOD) (gen x y))
      else none) pts) pts

/-- The method `recalculate()` with the subscripts checked. -/
def Squares.recalculate? (ms : Squares) : Option Squares :=
  (recalculatePoints? ms.ResolutionX ms.ResolutionY ms.mGenerator ms.mAllPoints).map
    (fun pts => { ms with mAllPoints := pts })

/-- The constructor with the subscripts of its `recalculate()` checked. -/
def Squares.new? (ResolutionX ResolutionY PixelsPerPointX PixelsPerPointY : Nat)
    (generator : Nat → Nat → ℚ) : Option Squares :=
  Squares.recalculate?
    { ResolutionX, ResolutionY, PixelsPerPointX, PixelsPerPointY,
      mAllPoints := List.replicate (ArraySize ResolutionX ResolutionY) 0,
      mGenerator := generator }

/-- The method `countVerticies(contour)` with the subscripts checked. -/
def Squares.countVerticies? (ms : Squares) (contour : ℚ) : Option Nat :=
  (List.range (sizePred ms.ResolutionY)).foldlM (fun vertexCount y =>
    (List.range (sizePred ms.ResolutionX)).foldlM (fun vertexCount x =>
      (ms.getSquareType? x y contour).map (fun squareType =>
        if squareType > 0 ∧ squareType < 15 then
          vertexCount + (if squareType = 5 ∨ squareType = 10 then 4 else 2)
        else vertexCount)) vertexCount) 0

/-- Assignment to `std::get<0>(arr[i])` with the subscript checked. -/
def setGet0? (arr : List (ℚ × ℚ)) (i : Nat) (v : ℚ) : Option (List (ℚ × ℚ)) :=
  arr[i]?.map (fun p => arr.set i (v, p.2))

/-- Assignment to `std::get<1>(arr[i])` with the subscript checked. -/
def setGet1? (arr : List (ℚ × ℚ)) (i : Nat) (v : ℚ) : Option (List (ℚ × ℚ)) :=
  arr[i]?.map (fun p => arr.set i (p.1, v))

/-- The four assignments to `interpolated` made for the cell `(x, y)`, with
the subscripts of `mAllPoints` and of `interpolated` checked. -/
def Squares.interpolate? (ms : Squares) (x y : Nat) (isoLevel : ℚ)
    (interpolated : List (ℚ × ℚ)) : Option (List (ℚ × ℚ)) :=
  (ms.getPoint? x y).bind (fun p00 =>
  (ms.getPoint? (x+1) y).bind (fun p10 =>
  (ms.getPoint? (x+1) (y+1)).bind (fun p11 =>
  (ms.getPoint? x (y+1)).bind (fun p01 =>
  (setGet1? interpolated 0
    (ms.PixelsPerPointY * |(isoLevel - p00) / (p01 - p00)|)).bind (fun interpolated =>
  (setGet0? interpolated 1
    (ms.PixelsPerPointX * |(isoLevel - p00) / (p10 - p00)|)).bind (fun interpolated =>
  (setGet1? interpolated 2
    (ms.PixelsPerPointY * |(isoLevel - p10) / (p11 - p10)|)).bind (fun interpolated =>
  setGet0? interpolated 3
    (ms.PixelsPerPointX * |(isoLevel - p01) / (p11 - p01)|))))))))

/-- The loop over one table row with the subscripts of `squareVerticies` and
`interpolated` checked: an entry `i` other than `-1` is converted to `size_t`,
so that a negative one is out of range. -/
def Squares.emitRow? (ms : Squares) (x y : Nat) (isoLevel : ℚ) :
    List Int → RenderState → Option RenderState
  | [], s => some s
  | i :: rest, s =>
    if i = -1 then some s
    else if i < 0 then none
    else
      (squareVerticies[i.toNat]?).bind (fun sv =>
      (s.interpolated[i.toNat]?).bind (fun ip =>
        let interTuple : ℚ × ℚ :=
          (((sv.1 + (x : ℚ)) * ms.PixelsPerPointX) + ip.1,
           ((sv.2 + (y : ℚ)) * ms.PixelsPerPointY) + ip.2)
        ms.emitRow? x y isoLevel rest
          { s with
              calls := s.calls ++ [SinkCall.addVertex isoLevel interTuple.1 interTuple.2],
              currentVertex := s.currentVertex + 1 }))

/-- The body of the innermost loop of `render` for the cell `(x, y)`, with
every subscript checked. -/
def Squares.renderCell? (ms : Squares) (isoLevel : ℚ) (y x : Nat) (s : RenderState) :
    Option RenderState :=
  (ms.getSquareType? x y isoLevel).bind (fun squareType =>
  (ms.interpolate? x y isoLevel s.interpolated).bind (fun interpolated =>
  (squareIndicies[squareType]?).bind (fun row =>
    ms.emitRow? x y isoLevel row { s with interpolated := interpolated })))

/-- The method `render(isoLevels)` with every subscript checked: `none` when
an access to `mAllPoints`, `squareIndicies`, `squareVerticies` or
`interpolated` is out of bounds. -/
def Squares.render? (ms : Squares) (isoLevels : List ℚ) : Option (List SinkCall × Nat) :=
  let s : RenderState :=
    { calls := [SinkCall.resetVertices 0], currentVertex := 0,
      interpolated := interpolatedInit }
  (isoLevels.foldlM (fun s isoLevel =>
    (List.range (sizePred ms.ResolutionY)).foldlM (fun s y =>
      (List.range (sizePred ms.ResolutionX)).foldlM (fun s x =>
        ms.renderCell? isoLevel y x s) s) s) s).map (fun s => (s.calls, s.currentVertex))

/-! ## Shared lemmas -/

/-- The row loop appends one call per entry before the first `-1` and leaves
`interpolated` alone. -/
theorem emitRow_eq (ms : Squares) (x y : Nat) (L : ℚ) (row : List Int) (s : RenderState) :
    ms.emitRow x y L row s =
      { calls := s.calls ++
          (row.takeWhile (fun i => i != -1)).map (ms.vertexCall x y L s.interpolated),
        currentVertex := s.currentVertex + (row.takeWhile (fun i => i != -1)).length,
        interpolated := s.interpolated } := by
  induction row generalizing s with
  | nil => simp [Squares.emitRow]
  | cons i rest ih =>
    by_cases hi : i = -1
    · simp [Squares.emitRow, hi]
    · rw [Squares.emitRow, if_neg hi, ih]
      have hne : (i != -1) = true := by simpa using hi
      simp [List.takeWhile_cons, hne, Squares.vertexCall, Nat.add_assoc, Nat.add_comm 1]

/-- The initial `interpolated` has the invariant shape. -/
theorem interpolatedInit_shape : InterpolatedShape interpolatedInit :=
  ⟨1/2, 1/2, 1/2, 1/2, rfl⟩

/-- On an array of the invariant shape the four assignments leave exactly the
four scaled edge offsets, whatever the assigned components held before. -/
theorem interpolate_eq (ms : Squares) (x y : Nat) (L : ℚ) (arr : List (ℚ × ℚ))
    (h : InterpolatedShape arr) :
    ms.interpolate x y L arr =
      [(0, ms.PixelsPerPointY *
            |(L - ms.getPoint x y) / (ms.getPoint x (y+1) - ms.getPoint x y)|),
       (ms.PixelsPerPointX *
            |(L - ms.getPoint x y) / (ms.getPoint (x+1) y - ms.getPoint x y)|, 0),
       (0, ms.PixelsPerPointY *
            |(L - ms.getPoint (x+1) y) / (ms.getPoint (x+1) (y+1) - ms.getPoint (x+1) y)|),
       (ms.PixelsPerPointX *
            |(L - ms.getPoint x (y+1)) / (ms.getPoint (x+1) (y+1) - ms.getPoint x (y+1))|, 0),
       (0, 0), (0, 0), (0, 0), (0, 0)] := by
  obtain ⟨a, b, c, d, rfl⟩ := h
  simp [Squares.interpolate, setGet0, setGet1]

/-- The assignments of one cell do not depend on the cells handled before. -/
theorem interpolate_of_shape (ms : Squares) (x y : Nat) (L : ℚ) (arr : List (ℚ × ℚ))
    (h : InterpolatedShape arr) :
    ms.interpolate x y L arr = ms.interpolate x y L interpolatedInit := by
  rw [interpolate_eq ms x y L arr h, interpolate_eq ms x y L _ interpolatedInit_shape]

/-- The four assignments keep the invariant shape. -/
theorem interpolate_shape (ms : Squares) (x y : Nat) (L : ℚ) (arr : List (ℚ × ℚ))
    (h : InterpolatedShape arr) : InterpolatedShape (ms.interpolate x y L arr) :=
  ⟨_, _, _, _, interpolate_eq ms x y L arr h⟩

/-- The loop body for one cell appends the calls of that cell. -/
theorem renderCell_eq (ms : Squares) (L : ℚ) (y x : Nat) (s : RenderState)
    (h : InterpolatedShape s.interpolated) :
    ms.renderCell L y x s =
      { calls := s.calls ++ ms.cellCalls L y x,
        currentVertex := s.currentVertex + (ms.cellCalls L y x).length,
        interpolated := ms.interpolate x y L interpolatedInit } := by
  simp only [Squares.renderCell, Squares.cellCalls, emitRow_eq,
    interpolate_of_shape ms x y L _ h]
  simp

/-- A loop whose body appends `out a` to the call list appends their
concatenation. -/
theorem foldl_calls {α : Type} (step : RenderState → α → RenderState)
    (out : α → List SinkCall)
    (hstep : ∀ s a, InterpolatedShape s.interpolated →
      (step s a).calls = s.calls ++ out a ∧
      (step s a).currentVertex = s.currentVertex + (out a).length ∧
      InterpolatedShape (step s a).interpolated)
    (l : List α) (s : RenderState) (hs : InterpolatedShape s.interpolated) :
    (l.foldl step s).calls = s.calls ++ l.flatMap out ∧
    (l.foldl step s).currentVertex = s.currentVertex + (l.flatMap out).length ∧
    InterpolatedShape (l.foldl step s).interpolated := by
  induction l generalizing s with
  | nil => simp [hs]
  | cons a l ih =>
    obtain ⟨h1, h2, h3⟩ := hstep s a hs
    obtain ⟨i1, i2, i3⟩ := ih (step s a) h3
    refine ⟨?_, ?_, i3⟩
    · simp [List.foldl_cons, i1, h1, List.flatMap_cons]
    · simp [List.foldl_cons, i2, h2, List.flatMap_cons, Nat.add_assoc]

/-- The calls and the return value of `render`: the reset, then the passes of
the iso-levels in order. -/
theorem render_eq (ms : Squares) (isoLevels : List ℚ) :
    ms.render isoLevels =
      (SinkCall.resetVertices 0 :: isoLevels.flatMap ms.levelCalls,
       (isoLevels.flatMap ms.levelCalls).length) := by
  have hcell : ∀ (L : ℚ) (y : Nat) (s : RenderState) (x : Nat),
      InterpolatedShape s.interpolated →
      (ms.renderCell L y x s).calls = s.calls ++ ms.cellCalls L y x ∧
      (ms.renderCell L y x s).currentVertex = s.currentVertex + (ms.cellCalls L y x).length ∧
      InterpolatedShape (ms.renderCell L y x s).interpolated := by
    intro L y s x hs
    rw [renderCell_eq ms L y x s hs]
    exact ⟨rfl, rfl, interpolate_shape ms x y L _ interpolatedInit_shape⟩
  have hrow := fun (L : ℚ) (s : RenderState) (y : Nat) =>
    foldl_calls (fun s x => ms.renderCell L y x s) (fun x => ms.cellCalls L y x)
      (fun s x => hcell L y s x) (List.range (sizePred ms.ResolutionX)) s
  have hlevel := fun (s : RenderState) (L : ℚ) =>
    foldl_calls _ _ (hrow L) (List.range (sizePred ms.ResolutionY)) s
  have hall := foldl_calls _ _ hlevel isoLevels
    { calls := [SinkCall.resetVertices 0], currentVertex := 0,
      interpolated := interpolatedInit } interpolatedInit_shape
  obtain ⟨h1, h2, -⟩ := hall
  simp only [Squares.render]
  rw [Prod.mk.injEq]
  constructor
  · rw [h1]; rfl
  · rw [h2]; exact Nat.zero_add _

/-- The inner loop of `recalculate` for row `y`, run for `n` columns. -/
theorem rowWrites_spec (Rx : Nat) (gen : Nat → Nat → ℚ) (y : Nat) (pts : List ℚ) (n : Nat) :
    ((List.range n).foldl (fun pts x => pts.set ((y * Rx) + x) (gen x y)) pts).length
        = pts.length ∧
    ∀ i, ((List.range n).foldl (fun pts x => pts.set ((y * Rx) + x) (gen x y)) pts)[i]? =
      if y * Rx ≤ i ∧ i < y * Rx + n ∧ i < pts.length then some (gen (i - y * Rx) y)
      else pts[i]? := by
  induction n with
  | zero =>
    refine ⟨by simp, fun i => ?_⟩
    have hc : ¬ (y * Rx ≤ i ∧ i < y * Rx + 0 ∧ i < pts.length) := by omega
    rw [if_neg hc]; simp
  | succ n ih =>
    obtain ⟨hlen, hget⟩ := ih
    rw [List.range_succ, List.foldl_append]
    simp only [List.foldl_cons, List.foldl_nil, List.length_set]
    refine ⟨hlen, fun i => ?_⟩
    rw [List.getElem?_set, hlen, hget i]
    by_cases hi : y * Rx + n = i
    · subst hi
      by_cases hl : y * Rx + n < pts.length
      · simp [hl]
      · have : pts[y * Rx + n]? = none := List.getElem?_eq_none (by omega)
        simp [hl, this]
    · simp only [if_neg hi]
      by_cases hc : y * Rx ≤ i ∧ i < y * Rx + n ∧ i < pts.length
      · have hc2 : y * Rx ≤ i ∧ i < y * Rx + (n + 1) ∧ i < pts.length := by omega
        rw [if_pos hc, if_pos hc2]
      · have hc2 : ¬ (y * Rx ≤ i ∧ i < y * Rx + (n + 1) ∧ i < pts.length) := by omega
        rw [if_neg hc, if_neg hc2]

/-- The buffer after `recalculate` has run over `m` rows. -/
theorem recalculatePoints_spec (Rx : Nat) (gen : Nat → Nat → ℚ) (pts : List ℚ) (m : Nat) :
    (recalculatePoints Rx m gen pts).length = pts.length ∧
    ∀ i, (recalculatePoints Rx m gen pts)[i]? =
      if i < m * Rx ∧ i < pts.length then some (gen (i % Rx) (i / Rx)) else pts[i]? := by
  induction m with
  | zero => simp [recalculatePoints]
  | succ m ih =>
    obtain ⟨hlen, hget⟩ := ih
    unfold recalculatePoints at hlen hget ⊢
    rw [List.range_succ, List.foldl_append]
    simp only [List.foldl_cons, List.foldl_nil]
    obtain ⟨rlen, rget⟩ := rowWrites_spec Rx gen m
      ((List.range m).foldl (fun pts y =>
        (List.range Rx).foldl (fun pts x => pts.set ((y * Rx) + x) (gen x y)) pts) pts) Rx
    refine ⟨rlen.trans hlen, fun i => ?_⟩
    rw [rget i, hlen, hget i]
    by_cases hc : m * Rx ≤ i ∧ i < m * Rx + Rx ∧ i < pts.length
    · have hpos : 0 < Rx := by omega
      have hdiv : i / Rx = m := by
        apply Nat.div_eq_of_lt_le
        · exact hc.1
        · rw [Nat.succ_mul]; exact hc.2.1
      have hmod : i % Rx = i - m * Rx := by
        have := Nat.div_add_mod i Rx
        rw [hdiv, Nat.mul_comm] at this
        omega
      have hc2 : i < (m + 1) * Rx ∧ i < pts.length := by
        rw [Nat.succ_mul]; omega
      rw [if_pos hc, if_pos hc2, hdiv, hmod]
    · rw [if_neg hc]
      have e : (m + 1) * Rx = m * Rx + Rx := Nat.succ_mul m Rx
      by_cases h1 : i < m * Rx ∧ i < pts.length
      · have hc2 : i < (m + 1) * Rx ∧ i < pts.length := by omega
        rw [if_pos h1, if_pos hc2]
      · have hc2 : ¬ (i < (m + 1) * Rx ∧ i < pts.length) := by omega
        rw [if_neg h1, if_neg hc2]

/-- After `recalculate` a buffer of full length holds the generator's sample
of `(x, y)` at index `y * ResolutionX + x`. -/
theorem recalculatePoints_getPoint (Rx Ry : Nat) (gen : Nat → Nat → ℚ) (pts : List ℚ)
    (hlen : pts.length = Rx * Ry) (x y : Nat) (hx : x < Rx) (hy : y < Ry) :
    (recalculatePoints Rx Ry gen pts)[(y * Rx) + x]? = some (gen x y) := by
  have hidx : y * Rx + x < Ry * Rx := by
    calc y * Rx + x < y * Rx + Rx := by omega
      _ = (y + 1) * Rx := (Nat.succ_mul y Rx).symm
      _ ≤ Ry * Rx := Nat.mul_le_mul_right Rx hy
  have hidx2 : y * Rx + x < pts.length := by rw [hlen, Nat.mul_comm Rx Ry]; exact hidx
  rw [(recalculatePoints_spec Rx gen pts Ry).2, if_pos ⟨hidx, hidx2⟩]
  have h1 : (y * Rx + x) % Rx = x := by
    rw [Nat.mul_comm, Nat.mul_add_mod]; exact Nat.mod_eq_of_lt hx
  have h2 : (y * Rx + x) / Rx = y := by
    rw [Nat.mul_comm, Nat.mul_add_div (by omega), Nat.div_eq_of_lt hx]; rfl
  rw [h1, h2]

/-- The lane of the `i`-th frame of a window. -/
theorem consumedLanes_eq (N : Nat) (n fc : Nat) (hfc : fc < SIZE_MOD) :
    consumedLanes N n fc = (List.range n).map (fun i => ((fc + i) % SIZE_MOD) % N) := by
  induction n generalizing fc with
  | zero => rfl
  | succ n ih =>
    have hlt : (fc + 1) % SIZE_MOD < SIZE_MOD := Nat.mod_lt _ (by decide)
    rw [consumedLanes, List.range_succ_eq_map, List.map_cons, List.map_map]
    simp only [selectLane]
    rw [ih _ hlt]
    simp only [Nat.add_zero, Nat.mod_eq_of_lt hfc]
    congr 1
    apply List.map_congr_left
    intro i _
    simp only [Function.comp, Nat.succ_eq_add_one]
    rw [Nat.mod_add_mod, Nat.add_assoc, Nat.add_comm 1 i]

/-- A window of `N` frames in which the wrap of the counter does not show
modulo `N` selects every lane once. -/
theorem consumedLanes_perm (N fc : Nat) (hfc : fc < SIZE_MOD)
    (h : ∀ i, i < N → ((fc + i) % SIZE_MOD) % N = (fc + i) % N) :
    (consumedLanes N N fc).Perm (List.range N) := by
  rw [consumedLanes_eq N N fc hfc]
  apply List.Subperm.perm_of_length_le
  · apply List.subperm_of_subset
    · apply List.Nodup.map_on _ (List.nodup_range N)
      intro i hi j hj hij
      rw [List.mem_range] at hi hj
      rw [h i hi, h j hj] at hij
      have : i ≡ j [MOD N] := Nat.ModEq.add_left_cancel' fc hij
      rw [Nat.ModEq, Nat.mod_eq_of_lt hi, Nat.mod_eq_of_lt hj] at this
      exact this
    · intro a ha
      rw [List.mem_map] at ha
      obtain ⟨i, hi, rfl⟩ := ha
      rw [List.mem_range] at hi ⊢
      exact Nat.mod_lt _ (by omega)
  · simp

/-- The calls of one cell: one per reference of the row of its code. -/
theorem cellCalls_eq (ms : Squares) (L : ℚ) (y x : Nat) :
    ms.cellCalls L y x =
      (vertexRefs (ms.getSquareType x y L)).map
        (ms.vertexCall x y L (ms.interpolate x y L interpolatedInit)) := by
  simp [Squares.cellCalls, Squares.renderCell, emitRow_eq, vertexRefs]

/-- The constant `ArraySize` is the product when the product fits a `size_t`. -/
theorem ArraySize_eq (Rx Ry : Nat) (h : Rx * Ry < SIZE_MOD) : ArraySize Rx Ry = Rx * Ry :=
  Nat.mod_eq_of_lt h

/-- A constructed extractor returns the generator's samples. -/
theorem new_getPoint (Rx Ry Px Py : Nat) (gen : Nat → Nat → ℚ) (x y : Nat)
    (hsz : Rx * Ry < SIZE_MOD) (hx : x < Rx) (hy : y < Ry) :
    (Squares.new Rx Ry Px Py gen).getPoint x y = gen x y := by
  have h := recalculatePoints_getPoint Rx Ry gen (List.replicate (ArraySize Rx Ry) 0)
    (by simp [ArraySize_eq Rx Ry hsz]) x y hx hy
  simp only [Squares.getPoint, Squares.new, Squares.recalculate, List.getD_eq_getElem?_getD, h]
  rfl

/-- Every call of a cell is an `addVertex` with the iso-level of the pass. -/
theorem cellCalls_addVertex (ms : Squares) (L : ℚ) (y x : Nat) :
    ∀ c ∈ ms.cellCalls L y x, ∃ vx vy : ℚ, c = SinkCall.addVertex L vx vy := by
  intro c hc
  rw [cellCalls_eq, List.mem_map] at hc
  obtain ⟨i, -, rfl⟩ := hc
  exact ⟨_, _, rfl⟩

/-- Every call of a pass is an `addVertex` with the iso-level of the pass. -/
theorem levelCalls_addVertex (ms : Squares) (L : ℚ) :
    ∀ c ∈ ms.levelCalls L, ∃ vx vy : ℚ, c = SinkCall.addVertex L vx vy := by
  intro c hc
  simp only [Squares.levelCalls, List.mem_flatMap] at hc
  obtain ⟨y, -, x, -, hc⟩ := hc
  exact cellCalls_addVertex ms L y x c hc

/-- A list of `addVertex` calls is the image of a list of vertices. -/
theorem exists_vertices (cs : List SinkCall)
    (h : ∀ c ∈ cs, ∃ i vx vy : ℚ, c = SinkCall.addVertex i vx vy) :
    ∃ vertices : List (ℚ × ℚ × ℚ),
      cs = vertices.map (fun v => SinkCall.addVertex v.1 v.2.1 v.2.2) := by
  induction cs with
  | nil => exact ⟨[], rfl⟩
  | cons c cs ih =>
    obtain ⟨i, vx, vy, rfl⟩ := h c (List.mem_cons_self _ _)
    obtain ⟨vs, rfl⟩ := ih (fun c hc => h c (List.mem_cons_of_mem _ hc))
    exact ⟨(i, vx, vy) :: vs, rfl⟩

/-- The contribution of index `k` follows those of the indices below `k`. -/
theorem flatMap_range_split {β : Type} (f : Nat → List β) (n k : Nat) (hk : k < n) :
    ∃ rest : List β,
      (List.range n).flatMap f = (List.range k).flatMap f ++ f k ++ rest := by
  obtain ⟨m, rfl⟩ : ∃ m, n = (k + 1) + m := ⟨n - (k + 1), by omega⟩
  refine ⟨(List.map (fun i => (k + 1) + i) (List.range m)).flatMap f, ?_⟩
  rw [List.range_add, List.flatMap_append, List.range_succ, List.flatMap_append]
  simp

/-- The calls of the cell `(x, y)` follow the reset, the rows below `y` and the
cells of row `y` left of `x`. -/
theorem render_cell_position (ms : Squares) (L : ℚ) (y x : Nat)
    (hy : y < sizePred ms.ResolutionY) (hx : x < sizePred ms.ResolutionX) :
    ∃ after : List SinkCall,
      (ms.render [L]).1 =
        SinkCall.resetVertices 0 ::
          ((List.range y).flatMap (fun y' =>
              (List.range (sizePred ms.ResolutionX)).flatMap (fun x' => ms.cellCalls L y' x'))
            ++ (List.range x).flatMap (fun x' => ms.cellCalls L y x'))
          ++ ms.cellCalls L y x ++ after := by
  obtain ⟨r1, h1⟩ := flatMap_range_split (fun y' =>
    (List.range (sizePred ms.ResolutionX)).flatMap (fun x' => ms.cellCalls L y' x'))
    (sizePred ms.ResolutionY) y hy
  obtain ⟨r2, h2⟩ := flatMap_range_split (fun x' => ms.cellCalls L y x')
    (sizePred ms.ResolutionX) x hx
  refine ⟨r2 ++ r1, ?_⟩
  rw [render_eq]
  simp only [List.flatMap_cons, List.flatMap_nil, List.append_nil, Squares.levelCalls]
  rw [h1]
  simp only [h2, List.cons_append, List.append_assoc]

/-- The absolute value of the quotient is the quotient of the absolute values. -/
theorem edgeFactor_eq (L a b : ℚ) : edgeFactor L a b = |L - a| / |b - a| := by
  rw [edgeFactor, abs_div]

/-- The factor of an edge whose samples enclose the iso-level is in `[0, 1]`. -/
theorem edgeFactor_mem_unit (L a b : ℚ) (hab : a ≠ b)
    (h : (a ≤ L ∧ L ≤ b) ∨ (b ≤ L ∧ L ≤ a)) :
    0 ≤ edgeFactor L a b ∧ edgeFactor L a b ≤ 1 := by
  have hpos : 0 < |b - a| := abs_pos.mpr (sub_ne_zero.mpr (Ne.symm hab))
  rw [edgeFactor_eq]
  refine ⟨div_nonneg (abs_nonneg _) (abs_nonneg _), (div_le_one hpos).mpr ?_⟩
  rcases h with ⟨h1, h2⟩ | ⟨h1, h2⟩
  · rw [abs_of_nonneg (by linarith), abs_of_nonneg (by linarith)]; linarith
  · rw [abs_of_nonpos (by linarith), abs_of_nonpos (by linarith)]; linarith

/-- The code of a cell, bit by bit. -/
theorem getSquareType_testBit (ms : Squares) (x y : Nat) (L : ℚ) :
    ms.getSquareType x y L < 16 ∧
    ((ms.getSquareType x y L).testBit 0 = true ↔ ms.getPoint x y > L) ∧
    ((ms.getSquareType x y L).testBit 1 = true ↔ ms.getPoint (x+1) y > L) ∧
    ((ms.getSquareType x y L).testBit 2 = true ↔ ms.getPoint (x+1) (y+1) > L) ∧
    ((ms.getSquareType x y L).testBit 3 = true ↔ ms.getPoint x (y+1) > L) := by
  unfold Squares.getSquareType
  by_cases h0 : ms.getPoint x y > L <;> by_cases h1 : ms.getPoint (x+1) y > L <;>
  by_cases h2 : ms.getPoint (x+1) (y+1) > L <;> by_cases h3 : ms.getPoint x (y+1) > L <;>
  simp only [h0, h1, h2, h3, if_true, if_false] <;> decide

/-- Every reference in the row of a cell's code is an edge whose corner samples
lie on opposite sides of the iso-level, or a corner whose sample is above it. -/
theorem vertexRefs_cases (ms : Squares) (x y : Nat) (L : ℚ) (i : Int)
    (hi : i ∈ vertexRefs (ms.getSquareType x y L)) :
    (i = 0 ∧ OppositeSides L (ms.getPoint x y) (ms.getPoint x (y+1))) ∨
    (i = 1 ∧ OppositeSides L (ms.getPoint x y) (ms.getPoint (x+1) y)) ∨
    (i = 2 ∧ OppositeSides L (ms.getPoint (x+1) y) (ms.getPoint (x+1) (y+1))) ∨
    (i = 3 ∧ OppositeSides L (ms.getPoint x (y+1)) (ms.getPoint (x+1) (y+1))) ∨
    (i = 4 ∧ ms.getPoint x y > L) ∨
    (i = 5 ∧ ms.getPoint (x+1) y > L) ∨
    (i = 6 ∧ ms.getPoint (x+1) (y+1) > L) ∨
    (i = 7 ∧ ms.getPoint x (y+1) > L) := by
  obtain ⟨hlt, b0, b1, b2, b3⟩ := getSquareType_testBit ms x y L
  generalize ms.getSquareType x y L = c at hi hlt b0 b1 b2 b3
  generalize ms.getPoint x y = p00 at b0 ⊢
  generalize ms.getPoint (x+1) y = p10 at b1 ⊢
  generalize ms.getPoint (x+1) (y+1) = p11 at b2 ⊢
  generalize ms.getPoint x (y+1) = p01 at b3 ⊢
  interval_cases c <;>
    simp [Nat.testBit, Nat.shiftRight] at b0 b1 b2 b3 <;>
    simp [vertexRefs, squareIndicies] at hi <;>
    (try rcases hi with rfl | rfl | rfl | rfl | rfl | rfl | rfl | rfl | rfl) <;>
    simp [OppositeSides, *, le_of_lt]

/-- Opposite sides of the iso-level are distinct samples. -/
theorem OppositeSides.ne {L a b : ℚ} (h : OppositeSides L a b) : a ≠ b := by
  rcases h with ⟨h1, h2⟩ | ⟨h1, h2⟩
  · intro e; rw [e] at h1; exact absurd h1 (not_lt.mpr h2)
  · intro e; rw [e] at h1; exact absurd h2 (not_lt.mpr h1)

/-- The iso-level lies between samples on opposite sides of it. -/
theorem OppositeSides.between {L a b : ℚ} (h : OppositeSides L a b) :
    (a ≤ L ∧ L ≤ b) ∨ (b ≤ L ∧ L ≤ a) := by
  rcases h with ⟨h1, h2⟩ | ⟨h1, h2⟩
  · exact Or.inr ⟨h2, le_of_lt h1⟩
  · exact Or.inl ⟨h1, le_of_lt h2⟩

/-- At the edge factor the linear interpolation of the samples is the iso-level. -/
theorem edgeFactor_interpolates (L a b : ℚ) (h : OppositeSides L a b) :
    a + edgeFactor L a b * (b - a) = L := by
  have hne : b - a ≠ 0 := sub_ne_zero.mpr (Ne.symm h.ne)
  unfold edgeFactor
  rcases h with ⟨h1, h2⟩ | ⟨h1, h2⟩
  · have hq : 0 ≤ (L - a) / (b - a) :=
      div_nonneg_of_nonpos (by linarith) (by linarith)
    rw [abs_of_nonneg hq, div_mul_cancel₀ _ hne]; ring
  · have hq : 0 ≤ (L - a) / (b - a) := div_nonneg (by linarith) (by linarith)
    rw [abs_of_nonneg hq, div_mul_cancel₀ _ hne]; ring

/-- The code of a cell as the OR of its four corner bits. -/
theorem getSquareType_eq (ms : Squares) (x y : Nat) (L : ℚ) :
    ms.getSquareType x y L =
      (if ms.getPoint x y > L then 1 else 0) ||| (if ms.getPoint (x+1) y > L then 2 else 0)
        ||| (if ms.getPoint (x+1) (y+1) > L then 4 else 0)
        ||| (if ms.getPoint x (y+1) > L then 8 else 0) := by
  unfold Squares.getSquareType
  by_cases h0 : ms.getPoint x y > L <;> by_cases h1 : ms.getPoint (x+1) y > L <;>
  by_cases h2 : ms.getPoint (x+1) (y+1) > L <;> by_cases h3 : ms.getPoint x (y+1) > L <;>
  simp only [h0, h1, h2, h3, if_true, if_false] <;> decide

/-- OR-ing in the bit `k` sets that bit and changes no other. -/
theorem testBit_or_two_pow (c c' k : Nat) (h : c' = c ||| 2 ^ k) (j : Nat) :
    c'.testBit j = (c.testBit j || decide (j = k)) := by
  rw [h, Nat.testBit_or, Nat.testBit_two_pow]
  congr 1
  exact Bool.decide_congr eq_comm

/-- A property of the state and the events so far that holds at the launch
and is kept by every step holds after every run. -/
theorem Pipeline.run_induction (P : Pipeline → List PipelineEvent → Prop) (p : Pipeline)
    (h0 : P p [])
    (hstep : ∀ q events s, P q events → P (q.step s).1 (events ++ (q.step s).2.toList))
    (schedule : List PipelineStep) :
    P (p.run schedule).1 (p.run schedule).2 := by
  induction schedule using List.reverseRecOn with
  | nil => exact h0
  | append_singleton schedule s ih =>
    have e : p.run (schedule ++ [s]) =
        (((p.run schedule).1.step s).1,
          (p.run schedule).2 ++ ((p.run schedule).1.step s).2.toList) := by
      simp [Pipeline.run, List.foldl_append]
    rw [e]
    exact hstep _ _ s ih

/-- The launch state satisfies the handshake invariant. -/
theorem Pipeline.coherent_launch (N : Nat) (D : ℚ)
    (readEarly : Nat → Bool) : (Pipeline.launch N D readEarly).Coherent := by
  refine ⟨by simp [Pipeline.launch], by simp [Pipeline.launch], ?_, ?_, ?_, ?_⟩
  · intro i w _ h
    simp only [Pipeline.launch] at h
    rcases h with h | h <;>
      · rw [List.getElem?_replicate] at h
        split at h <;> simp at h
  · intro l w _ h
    simp [Pipeline.launch] at h
  · intro l h
    simp [Pipeline.launch] at h
  · intro i
    simp only [Pipeline.launch]
    rw [List.getElem?_replicate, List.getElem?_replicate]
    split <;> simp

/-- The kinds of step: nothing happens, or one of the three moves of a worker,
or one of the four moves of the consumer. -/
theorem Pipeline.step_cases (p : Pipeline) (s : PipelineStep) :
    p.step s = (p, none) ∨
    (∃ i w, p.workerThreads[i]? = some w ∧ p.workerAt[i]? = some WorkerAt.loopTop ∧
      w.invalidated = true ∧
      p.step s = ({ p with workerAt := p.workerAt.set i WorkerAt.lock }, none)) ∨
    (∃ i w, p.workerThreads[i]? = some w ∧ p.workerAt[i]? = some WorkerAt.lock ∧
      p.threadSync[i]? = some false ∧
      p.step s =
        ({ p with
            threadSync := p.threadSync.set i true,
            workerAt := p.workerAt.set i WorkerAt.pass },
         none)) ∨
    (∃ i w, p.workerThreads[i]? = some w ∧ p.workerAt[i]? = some WorkerAt.pass ∧
      p.step s =
        ({ p with
            workerThreads := p.workerThreads.set i
              { w with
                  outputZ := some w.mOffsetZ,
                  mOffsetZ := PerlinHeightmapGenerator.step w.mOffsetZ
                    (Double.mul (some p.DepthIncrementAmountPerFrame) (Double.ofNat p.ThreadCount)),
                  invalidated := false },
            threadSync := p.threadSync.set i false,
            workerAt := p.workerAt.set i WorkerAt.loopTop },
         some (PipelineEvent.recompute i w.mOffsetZ))) ∨
    (p.consumerAt = ConsumerAt.frameStart ∧
      p.step s =
        ({ p with
            consumerAt := ConsumerAt.waiting (p.frameCount % p.ThreadCount),
            frameCount := (p.frameCount + 1) % SIZE_MOD },
         none)) ∨
    (∃ l w, p.consumerAt = ConsumerAt.waiting l ∧ p.workerThreads[l]? = some w ∧
      w.invalidated = false ∧
      p.step s = ({ p with consumerAt := ConsumerAt.lock l }, none)) ∨
    (∃ l, p.consumerAt = ConsumerAt.lock l ∧ p.threadSync[l]? = some false ∧
      p.step s =
        ({ p with
            threadSync := p.threadSync.set l true,
            consumerAt := ConsumerAt.drawing l },
         none)) ∨
    (∃ l w, p.consumerAt = ConsumerAt.drawing l ∧ p.workerThreads[l]? = some w ∧
      p.step s =
        ({ p with
            workerThreads := p.workerThreads.set l { w with invalidated := true },
            threadSync := p.threadSync.set l false,
            consumerAt := ConsumerAt.frameStart },
         some (PipelineEvent.draw l w.outputZ))) := by
  cases s with
  | worker i =>
    cases hw : p.workerThreads[i]? with
    | none => left; simp [Pipeline.step, Pipeline.workerStep, hw]
    | some w =>
      cases ha : p.workerAt[i]? with
      | none => left; simp [Pipeline.step, Pipeline.workerStep, hw, ha]
      | some a =>
        cases hl : p.threadSync[i]? with
        | none => left; cases a <;> simp [Pipeline.step, Pipeline.workerStep, hw, ha, hl]
        | some locked =>
          cases a with
          | loopTop =>
            by_cases hr : w.isRunning = true
            · by_cases hv : w.invalidated = true
              · refine Or.inr (Or.inl ⟨i, w, hw, ha, hv, ?_⟩)
                simp [Pipeline.step, Pipeline.workerStep, hw, ha, hl, hr, hv]
              · left
                simp only [Bool.not_eq_true] at hv
                simp [Pipeline.step, Pipeline.workerStep, hw, ha, hl, hr, hv]
            · left
              simp only [Bool.not_eq_true] at hr
              simp [Pipeline.step, Pipeline.workerStep, hw, ha, hl, hr]
          | lock =>
            cases locked with
            | true => left; simp [Pipeline.step, Pipeline.workerStep, hw, ha, hl]
            | false =>
              refine Or.inr (Or.inr (Or.inl ⟨i, w, hw, ha, hl, ?_⟩))
              simp [Pipeline.step, Pipeline.workerStep, hw, ha, hl]
          | pass =>
            refine Or.inr (Or.inr (Or.inr (Or.inl ⟨i, w, hw, ha, ?_⟩)))
            simp [Pipeline.step, Pipeline.workerStep, hw, ha, hl]
  | consumer =>
    cases hc : p.consumerAt with
    | frameStart =>
      refine Or.inr (Or.inr (Or.inr (Or.inr (Or.inl ⟨rfl, ?_⟩))))
      simp [Pipeline.step, Pipeline.consumerStep, hc, selectLane]
    | waiting l =>
      cases hw : p.workerThreads[l]? with
      | none => left; simp [Pipeline.step, Pipeline.consumerStep, hc, hw]
      | some w =>
        by_cases hv : w.invalidated = true
        · left; simp [Pipeline.step, Pipeline.consumerStep, hc, hw, hv]
        · simp only [Bool.not_eq_true] at hv
          refine Or.inr (Or.inr (Or.inr (Or.inr (Or.inr (Or.inl ⟨l, w, rfl, hw, hv, ?_⟩)))))
          simp [Pipeline.step, Pipeline.consumerStep, hc, hw, hv]
    | lock l =>
      cases hl : p.threadSync[l]? with
      | none => left; simp [Pipeline.step, Pipeline.consumerStep, hc, hl]
      | some locked =>
        cases locked with
        | true => left; simp [Pipeline.step, Pipeline.consumerStep, hc, hl]
        | false =>
          refine Or.inr (Or.inr (Or.inr (Or.inr (Or.inr (Or.inr (Or.inl ⟨l, rfl, hl, ?_⟩))))))
          simp [Pipeline.step, Pipeline.consumerStep, hc, hl]
    | drawing l =>
      cases hw : p.workerThreads[l]? with
      | none => left; simp [Pipeline.step, Pipeline.consumerStep, hc, hw]
      | some w =>
        refine Or.inr (Or.inr (Or.inr (Or.inr (Or.inr (Or.inr (Or.inr ⟨l, w, rfl, hw, ?_⟩))))))
        simp [Pipeline.step, Pipeline.consumerStep, hc, hw]

/-- Reading back the index just written. -/
theorem getElem?_set_self' {α : Type} (l : List α) (i : Nat) (a b : α) (h : l[i]? = some b) :
    (l.set i a)[i]? = some a := by
  rw [List.getElem?_set, if_pos rfl, if_pos (List.getElem?_eq_some_iff.mp h).1]

/-- A write leaves the other indices alone. -/
theorem getElem?_set_ne' {α : Type} (l : List α) (i j : Nat) (a : α) (h : i ≠ j) :
    (l.set i a)[j]? = l[j]? := by
  rw [List.getElem?_set, if_neg h]

/-- While a worker is in its pass the consumer is not drawing its lane. -/
theorem Pipeline.Coherent.exclusive {p : Pipeline} (hc : p.Coherent) (i : Nat)
    (hp : p.workerAt[i]? = some WorkerAt.pass) : p.consumerAt ≠ ConsumerAt.drawing i := by
  obtain ⟨hlen, -, h2, h3, -, -⟩ := hc
  intro hd
  have hi : i < p.workerThreads.length := by
    rw [← hlen]; exact (List.getElem?_eq_some_iff.mp hp).1
  have hw : p.workerThreads[i]? = some p.workerThreads[i] := List.getElem?_eq_getElem hi
  have t := h2 i _ hw (Or.inr hp)
  have f := h3 i _ hw (Or.inr hd)
  rw [t] at f
  exact absurd f (by simp)

/-- Every step keeps the handshake invariant. -/
theorem Pipeline.coherent_step (p : Pipeline) (s : PipelineStep) (hc : p.Coherent) :
    (p.step s).1.Coherent := by
  have hex := hc.exclusive
  obtain ⟨hlen, hlen', h2, h3, h4, h5⟩ := hc
  rcases Pipeline.step_cases p s with h | ⟨i, w, hw, ha, hv, h⟩ | ⟨i, w, hw, ha, hl, h⟩ |
    ⟨i, w, hw, ha, h⟩ | ⟨hs, h⟩ | ⟨l, w, hs, hw, hv, h⟩ | ⟨l, hs, hl, h⟩ | ⟨l, w, hs, hw, h⟩
  · rw [h]; exact ⟨hlen, hlen', h2, h3, h4, h5⟩
  · rw [h]
    refine ⟨by simpa using hlen, hlen', ?_, h3, h4, ?_⟩
    · intro j w' hw' hj
      by_cases hij : i = j
      · subst hij
        rw [hw] at hw'
        simp only [Option.some.injEq] at hw'
        rw [← hw']; exact hv
      · simp only [getElem?_set_ne' _ _ _ _ hij] at hj
        exact h2 j w' hw' hj
    · intro j
      by_cases hij : i = j
      · subst hij
        simp only [getElem?_set_self' _ _ _ _ ha]
        rw [h5 i, ha]
        simp
      · simp only [getElem?_set_ne' _ _ _ _ hij]
        exact h5 j
  · rw [h]
    refine ⟨by simpa using hlen, by simpa using hlen', ?_, h3, h4, ?_⟩
    · intro j w' hw' hj
      by_cases hij : i = j
      · subst hij
        exact h2 i w' hw' (Or.inl ha)
      · simp only [getElem?_set_ne' _ _ _ _ hij] at hj
        exact h2 j w' hw' hj
    · intro j
      by_cases hij : i = j
      · subst hij
        simp only [getElem?_set_self' _ _ _ _ ha, getElem?_set_self' _ _ _ _ hl]
        simp
      · simp only [getElem?_set_ne' _ _ _ _ hij]
        exact h5 j
  · rw [h]
    refine ⟨by simpa using hlen, by simpa using hlen', ?_, ?_, by simpa using h4, ?_⟩
    · intro j w' hw' hj
      by_cases hij : i = j
      · subst hij
        simp only [getElem?_set_self' _ _ _ _ ha] at hj
        simp at hj
      · simp only [getElem?_set_ne' _ _ _ _ hij] at hj hw'
        exact h2 j w' hw' hj
    · intro j w' hw' hj
      by_cases hij : i = j
      · subst hij
        simp only [getElem?_set_self' _ _ _ _ hw] at hw'
        simp only [Option.some.injEq] at hw'
        rw [← hw']
      · simp only [getElem?_set_ne' _ _ _ _ hij] at hw'
        exact h3 j w' hw' hj
    · intro j
      by_cases hij : i = j
      · subst hij
        have hlk : ∃ b, p.threadSync[i]? = some b := by
          have : i < p.threadSync.length := by
            rw [hlen', ← hlen]; exact (List.getElem?_eq_some_iff.mp ha).1
          exact ⟨_, List.getElem?_eq_getElem this⟩
        obtain ⟨b, hb⟩ := hlk
        simp only [getElem?_set_self' _ _ _ _ ha, getElem?_set_self' _ _ _ _ hb]
        have := hex i ha
        simp [this]
      · simp only [getElem?_set_ne' _ _ _ _ hij]
        exact h5 j
  · rw [h]
    refine ⟨hlen, hlen', h2, ?_, ?_, ?_⟩
    · intro j w' _ hj; simp at hj
    · intro j hj; simp at hj
    · intro j
      rw [h5 j, hs]; simp
  · rw [h]
    refine ⟨hlen, hlen', h2, ?_, ?_, ?_⟩
    · intro j w' hw' hj
      simp only [ConsumerAt.lock.injEq, reduceCtorEq, or_false] at hj
      subst hj
      rw [hw] at hw'
      simp only [Option.some.injEq] at hw'
      rw [← hw']; exact hv
    · intro j hj; simp at hj
    · intro j
      rw [h5 j, hs]; simp
  · rw [h]
    have hll : l < p.workerThreads.length := by
      rw [← hlen']; exact (List.getElem?_eq_some_iff.mp hl).1
    refine ⟨hlen, by simpa using hlen', h2, ?_, ?_, ?_⟩
    · intro j w' hw' hj
      simp only [reduceCtorEq, ConsumerAt.drawing.injEq, false_or] at hj
      subst hj
      exact h3 l w' hw' (Or.inl hs)
    · intro j hj
      simp only [ConsumerAt.drawing.injEq] at hj
      subst hj; exact hll
    · intro j
      by_cases hij : l = j
      · subst hij
        simp only [getElem?_set_self' _ _ _ _ hl]
        simp
      · simp only [getElem?_set_ne' _ _ _ _ hij]
        rw [h5 j, hs]
        simp [hij]
  · rw [h]
    refine ⟨by simpa using hlen, by simpa using hlen', ?_, ?_, ?_, ?_⟩
    · intro j w' hw' hj
      by_cases hij : l = j
      · subst hij
        simp only [getElem?_set_self' _ _ _ _ hw] at hw'
        simp only [Option.some.injEq] at hw'
        rw [← hw']
      · simp only [getElem?_set_ne' _ _ _ _ hij] at hw'
        exact h2 j w' hw' hj
    · intro j w' _ hj; simp at hj
    · intro j hj; simp at hj
    · intro j
      by_cases hij : l = j
      · subst hij
        have hlk : ∃ b, p.threadSync[l]? = some b := by
          have : l < p.threadSync.length := by
            rw [hlen']; exact (List.getElem?_eq_some_iff.mp hw).1
          exact ⟨_, List.getElem?_eq_getElem this⟩
        obtain ⟨b, hb⟩ := hlk
        simp only [getElem?_set_self' _ _ _ _ hb]
        have hnp : p.workerAt[l]? ≠ some WorkerAt.pass := fun hp => hex l hp hs
        simp [hnp]
      · simp only [getElem?_set_ne' _ _ _ _ hij]
        rw [h5 j, hs]
        simp [hij]

/-- What a step does to the data of the lanes and to the frame counter, in a
state that satisfies the handshake invariant: nothing; or a pass on a lane
whose flag is STALE; or the selection of a lane; or the draw of the selected
lane, whose flag is READY. -/
theorem Pipeline.step_view (p : Pipeline) (s : PipelineStep) (hc : p.Coherent) :
    ((p.step s).1.ThreadCount = p.ThreadCount ∧
      (p.step s).1.DepthIncrementAmountPerFrame = p.DepthIncrementAmountPerFrame) ∧
    (((p.step s).2 = none ∧ (p.step s).1.workerThreads = p.workerThreads ∧
        (p.step s).1.frameCount = p.frameCount ∧
        (p.step s).1.consumerAt.lane = p.consumerAt.lane) ∨
     (∃ i w, p.workerThreads[i]? = some w ∧ w.invalidated = true ∧
        (p.step s).2 = some (PipelineEvent.recompute i w.mOffsetZ) ∧
        (p.step s).1.workerThreads = p.workerThreads.set i
          { w with
              outputZ := some w.mOffsetZ,
              mOffsetZ := PerlinHeightmapGenerator.step w.mOffsetZ
                (Double.mul (some p.DepthIncrementAmountPerFrame) (Double.ofNat p.ThreadCount)),
              invalidated := false } ∧
        (p.step s).1.frameCount = p.frameCount ∧
        (p.step s).1.consumerAt.lane = p.consumerAt.lane) ∨
     (p.consumerAt.lane = none ∧ (p.step s).2 = none ∧
        (p.step s).1.workerThreads = p.workerThreads ∧
        (p.step s).1.frameCount = (p.frameCount + 1) % SIZE_MOD ∧
        (p.step s).1.consumerAt.lane = some (p.frameCount % p.ThreadCount)) ∨
     (∃ l w, p.consumerAt.lane = some l ∧ p.workerThreads[l]? = some w ∧
        w.invalidated = false ∧
        (p.step s).2 = some (PipelineEvent.draw l w.outputZ) ∧
        (p.step s).1.workerThreads = p.workerThreads.set l { w with invalidated := true } ∧
        (p.step s).1.frameCount = p.frameCount ∧
        (p.step s).1.consumerAt.lane = none)) := by
  obtain ⟨-, -, h2, h3, -, -⟩ := hc
  rcases Pipeline.step_cases p s with h | ⟨i, w, hw, ha, hv, h⟩ | ⟨i, w, hw, ha, hl, h⟩ |
    ⟨i, w, hw, ha, h⟩ | ⟨hs, h⟩ | ⟨l, w, hs, hw, hv, h⟩ | ⟨l, hs, hl, h⟩ | ⟨l, w, hs, hw, h⟩
  · rw [h]; exact ⟨⟨rfl, rfl⟩, Or.inl ⟨rfl, rfl, rfl, rfl⟩⟩
  · rw [h]; exact ⟨⟨rfl, rfl⟩, Or.inl ⟨rfl, rfl, rfl, rfl⟩⟩
  · rw [h]; exact ⟨⟨rfl, rfl⟩, Or.inl ⟨rfl, rfl, rfl, rfl⟩⟩
  · rw [h]
    exact ⟨⟨rfl, rfl⟩, Or.inr (Or.inl ⟨i, w, hw, h2 i w hw (Or.inr ha), rfl, rfl, rfl, rfl⟩)⟩
  · rw [h]
    exact ⟨⟨rfl, rfl⟩, Or.inr (Or.inr (Or.inl ⟨by rw [hs]; rfl, rfl, rfl, rfl, rfl⟩))⟩
  · rw [h]; exact ⟨⟨rfl, rfl⟩, Or.inl ⟨rfl, rfl, rfl, by rw [hs]; rfl⟩⟩
  · rw [h]; exact ⟨⟨rfl, rfl⟩, Or.inl ⟨rfl, rfl, rfl, by rw [hs]; rfl⟩⟩
  · rw [h]
    exact ⟨⟨rfl, rfl⟩, Or.inr (Or.inr (Or.inr
      ⟨l, w, by rw [hs]; rfl, hw, h3 l w hw (Or.inr hs), rfl, rfl, rfl, rfl⟩))⟩

/-- Induction over a run from the launch, with the handshake invariant at hand
in every step. -/
theorem Pipeline.launch_induction (N : Nat) (D : ℚ)
    (readEarly : Nat → Bool) (P : Pipeline → List PipelineEvent → Prop)
    (h0 : P (Pipeline.launch N D readEarly) [])
    (hstep : ∀ q events s, q.Coherent → P q events →
      P (q.step s).1 (events ++ (q.step s).2.toList))
    (schedule : List PipelineStep) :
    ((Pipeline.launch N D readEarly).run schedule).1.Coherent ∧
    P ((Pipeline.launch N D readEarly).run schedule).1 ((Pipeline.launch N D readEarly).run schedule).2 :=
  Pipeline.run_induction (fun p events => p.Coherent ∧ P p events) (Pipeline.launch N D readEarly)
    ⟨Pipeline.coherent_launch N D readEarly, h0⟩
    (fun q events s ⟨hc, hP⟩ => ⟨Pipeline.coherent_step q s hc, hstep q events s hc hP⟩)
    schedule

/-- The lane `i` as the launch creates it. -/
theorem Pipeline.launch_getElem? (N : Nat) (D : ℚ) (readEarly : Nat → Bool) (i : Nat) (w : WorkerThread)
    (hw : (Pipeline.launch N D readEarly).workerThreads[i]? = some w) :
    i < N ∧ w = { threadId := i, invalidated := true, isRunning := true,
                  mOffsetZ := laneOffsetZ N D (if readEarly i then 0 else i) 0,
                  outputZ := none } := by
  simp only [Pipeline.launch, List.getElem?_map] at hw
  cases hr : (List.range N)[i]? with
  | none => rw [hr] at hw; simp at hw
  | some k =>
    rw [hr] at hw
    obtain ⟨h1, h2⟩ := List.getElem?_eq_some_iff.mp hr
    rw [List.getElem_range] at h2
    rw [List.length_range] at h1
    simp only [Option.map_some', Option.some.injEq] at hw
    subst hw
    subst h2
    exact ⟨h1, rfl⟩

/-- The alternation, one event longer. -/
theorem alternation_succ (n : Nat) :
    alternation (n + 1) = alternation n ++ [decide (n % 2 = 0)] := by
  simp [alternation, List.range_succ]

/-- The handshake of one lane: its events alternate, starting with a pass, and
its flag is STALE exactly after an even number of them. -/
theorem Pipeline.handshake_invariant (N : Nat) (D : ℚ)
    (readEarly : Nat → Bool) (schedule : List PipelineStep) (i : Nat) :
    laneEvents i ((Pipeline.launch N D readEarly).run schedule).2 =
      alternation (laneEvents i ((Pipeline.launch N D readEarly).run schedule).2).length ∧
    ∀ w, ((Pipeline.launch N D readEarly).run schedule).1.workerThreads[i]? = some w →
      (w.invalidated = true ↔
        (laneEvents i ((Pipeline.launch N D readEarly).run schedule).2).length % 2 = 0) := by
  have key := Pipeline.launch_induction N D readEarly (fun p events =>
    laneEvents i events = alternation (laneEvents i events).length ∧
    ∀ w, p.workerThreads[i]? = some w →
      (w.invalidated = true ↔ (laneEvents i events).length % 2 = 0)) ?_ ?_ schedule
  · exact key.2
  · refine ⟨rfl, fun w hw => ?_⟩
    obtain ⟨-, rfl⟩ := Pipeline.launch_getElem? N D readEarly i w hw
    simp [laneEvents]
  · intro q events s hc ⟨halt, hflag⟩
    rcases (Pipeline.step_view q s hc).2 with ⟨hev, hwts, -, -⟩ |
      ⟨j, w, hw, hv, hev, hwts, -, -⟩ | ⟨-, hev, hwts, -, -⟩ |
      ⟨l, w, -, hw, hv, hev, hwts, -, -⟩
    · simp only [hev, hwts, Option.toList_none, List.append_nil]
      exact ⟨halt, hflag⟩
    · simp only [hev, hwts, Option.toList_some]
      by_cases hji : j = i
      · subst hji
        have heven := (hflag w hw).mp hv
        have hl : laneEvents j (events ++ [PipelineEvent.recompute j w.mOffsetZ]) =
            laneEvents j events ++ [true] := by
          simp [laneEvents, List.filterMap_append]
        simp only [hl, List.length_append, List.length_singleton, alternation_succ, heven,
          decide_True]
        refine ⟨by rw [← halt], fun w' hw' => ?_⟩
        rw [getElem?_set_self' _ _ _ _ hw] at hw'
        simp only [Option.some.injEq] at hw'
        subst hw'
        simp only [Bool.false_eq_true, false_iff]
        omega
      · have hl : laneEvents i (events ++ [PipelineEvent.recompute j w.mOffsetZ]) =
            laneEvents i events := by
          simp [laneEvents, List.filterMap_append, hji]
        simp only [hl, getElem?_set_ne' _ _ _ _ hji]
        exact ⟨halt, hflag⟩
    · simp only [hev, hwts, Option.toList_none, List.append_nil]
      exact ⟨halt, hflag⟩
    · simp only [hev, hwts, Option.toList_some]
      by_cases hli : l = i
      · subst hli
        have hodd : (laneEvents l events).length % 2 ≠ 0 := by
          intro he
          have := (hflag w hw).mpr he
          rw [hv] at this
          exact absurd this (by simp)
        have hl : laneEvents l (events ++ [PipelineEvent.draw l w.outputZ]) =
            laneEvents l events ++ [false] := by
          simp [laneEvents, List.filterMap_append]
        simp only [hl, List.length_append, List.length_singleton, alternation_succ, hodd,
          decide_False]
        refine ⟨by rw [← halt], fun w' hw' => ?_⟩
        rw [getElem?_set_self' _ _ _ _ hw] at hw'
        simp only [Option.some.injEq] at hw'
        subst hw'
        simp only [true_iff]
        omega
      · have hl : laneEvents i (events ++ [PipelineEvent.draw l w.outputZ]) =
            laneEvents i events := by
          simp [laneEvents, List.filterMap_append, hli]
        simp only [hl, getElem?_set_ne' _ _ _ _ hli]
        exact ⟨halt, hflag⟩

/-- The generator of one lane: after `k` passes it stands at the coordinate
`laneOffsetZ` gives for `k` passes and the `threadId` the lane read, and the
`k`-th pass sampled at that coordinate. -/
theorem Pipeline.recompute_invariant (N : Nat) (D : ℚ)
    (readEarly : Nat → Bool) (schedule : List PipelineStep)
    (i : Nat) :
    recomputesOf i ((Pipeline.launch N D readEarly).run schedule).2 =
      (List.range (recomputesOf i ((Pipeline.launch N D readEarly).run schedule).2).length).map
        (fun k : ℕ => laneOffsetZ N D (if readEarly i then 0 else i) k) ∧
    ∀ w, ((Pipeline.launch N D readEarly).run schedule).1.workerThreads[i]? = some w →
      w.mOffsetZ = laneOffsetZ N D (if readEarly i then 0 else i)
        (recomputesOf i ((Pipeline.launch N D readEarly).run schedule).2).length := by
  have key := Pipeline.launch_induction N D readEarly (fun p events =>
    (p.ThreadCount = N ∧ p.DepthIncrementAmountPerFrame = D) ∧
    recomputesOf i events =
      (List.range (recomputesOf i events).length).map
        (fun k : ℕ => laneOffsetZ N D (if readEarly i then 0 else i) k) ∧
    ∀ w, p.workerThreads[i]? = some w →
      w.mOffsetZ = laneOffsetZ N D (if readEarly i then 0 else i)
        (recomputesOf i events).length) ?_ ?_ schedule
  · exact key.2.2
  · refine ⟨⟨rfl, rfl⟩, rfl, fun w hw => ?_⟩
    obtain ⟨-, rfl⟩ := Pipeline.launch_getElem? N D readEarly i w hw
    rfl
  · intro q events s hc ⟨⟨hN, hD⟩, hlist, hz⟩
    obtain ⟨⟨hN', hD'⟩, hview⟩ := Pipeline.step_view q s hc
    refine ⟨⟨hN'.trans hN, hD'.trans hD⟩, ?_⟩
    rcases hview with ⟨hev, hwts, -, -⟩ | ⟨j, w, hw, hv, hev, hwts, -, -⟩ |
      ⟨-, hev, hwts, -, -⟩ | ⟨l, w, -, hw, hv, hev, hwts, -, -⟩
    · simp only [hev, hwts, Option.toList_none, List.append_nil]
      exact ⟨hlist, hz⟩
    · simp only [hev, hwts, Option.toList_some]
      by_cases hji : j = i
      · subst hji
        have hzw := hz w hw
        have hl : recomputesOf j (events ++ [PipelineEvent.recompute j w.mOffsetZ]) =
            recomputesOf j events ++ [w.mOffsetZ] := by
          simp [recomputesOf, List.filterMap_append]
        simp only [hl, List.length_append, List.length_singleton,
          List.range_succ, List.map_append, List.map_cons, List.map_nil]
        refine ⟨by rw [← hlist, hzw], fun w' hw' => ?_⟩
        rw [getElem?_set_self' _ _ _ _ hw] at hw'
        simp only [Option.some.injEq] at hw'
        subst hw'
        simp only [hzw, hN, hD]
        rfl
      · have hl : recomputesOf i (events ++ [PipelineEvent.recompute j w.mOffsetZ]) =
            recomputesOf i events := by
          simp [recomputesOf, List.filterMap_append, hji]
        simp only [hl, getElem?_set_ne' _ _ _ _ hji]
        exact ⟨hlist, hz⟩
    · simp only [hev, hwts, Option.toList_none, List.append_nil]
      exact ⟨hlist, hz⟩
    · have hl' : recomputesOf i (events ++ [PipelineEvent.draw l w.outputZ]) =
          recomputesOf i events := by
        simp [recomputesOf, List.filterMap_append]
      simp only [hev, hwts, Option.toList_some, hl']
      refine ⟨hlist, fun w' hw' => ?_⟩
      by_cases hli : l = i
      · subst hli
        rw [getElem?_set_self' _ _ _ _ hw] at hw'
        simp only [Option.some.injEq] at hw'
        subst hw'
        exact hz w hw
      · rw [getElem?_set_ne' _ _ _ _ hli] at hw'
        exact hz w' hw'

/-- Within a window of `N` consecutive numbers a residue occurs once. -/
theorem eq_of_mod_eq_of_window (N d nf : Nat) (h1 : d ≤ nf) (h2 : nf < d + N)
    (h3 : nf % N = d % N) : nf = d := by
  obtain ⟨k, rfl⟩ : ∃ k, nf = d + k := ⟨nf - d, by omega⟩
  have hk : k < N := by omega
  have hmod : d + k ≡ d + 0 [MOD N] := h3
  have := Nat.ModEq.add_left_cancel' d hmod
  rw [Nat.ModEq, Nat.mod_eq_of_lt hk, Nat.zero_mod] at this
  omega

/-- The order of the displayed frames: while the frame counter has not
wrapped, the `f`-th frame drawn comes from lane `f % N` and was sampled by
the pass `f / N` of that lane. -/
theorem Pipeline.draw_invariant (N : Nat) (D : ℚ) (readEarly : Nat → Bool) (schedule : List PipelineStep)
    (hd : (drawsOf ((Pipeline.launch N D readEarly).run schedule).2).length ≤ SIZE_MOD) :
    drawsOf ((Pipeline.launch N D readEarly).run schedule).2 =
      (List.range (drawsOf ((Pipeline.launch N D readEarly).run schedule).2).length).map
        (fun f : ℕ => (f % N,
          some (laneOffsetZ N D (if readEarly (f % N) then 0 else f % N) (f / N)))) := by
  have key := Pipeline.launch_induction N D readEarly (fun p events =>
    (p.ThreadCount = N ∧ p.DepthIncrementAmountPerFrame = D) ∧
    ((drawsOf events).length ≤ SIZE_MOD →
      drawsOf events = (List.range (drawsOf events).length).map
        (fun f : ℕ => (f % N,
          some (laneOffsetZ N D (if readEarly (f % N) then 0 else f % N) (f / N)))) ∧
      (∀ l, p.consumerAt.lane = some l → (drawsOf events).length < SIZE_MOD →
        l = (drawsOf events).length % N ∧
        ((drawsOf events).length + 1 < SIZE_MOD →
          p.frameCount = (drawsOf events).length + 1)) ∧
      (p.consumerAt.lane = none → (drawsOf events).length < SIZE_MOD →
        p.frameCount = (drawsOf events).length) ∧
      ∀ (i : ℕ) (w : WorkerThread), p.workerThreads[i]? = some w →
        ∃ nf : ℕ, (drawsOf events).length ≤ nf ∧ nf < (drawsOf events).length + N ∧
          nf % N = i ∧
          (w.invalidated = true →
            w.mOffsetZ = laneOffsetZ N D (if readEarly i then 0 else i) (nf / N)) ∧
          (w.invalidated = false →
            w.outputZ = some (laneOffsetZ N D (if readEarly i then 0 else i) (nf / N)) ∧
            w.mOffsetZ = laneOffsetZ N D (if readEarly i then 0 else i) (nf / N + 1))))
    ?_ ?_ schedule
  · exact (key.2.2 hd).1
  · refine ⟨⟨rfl, rfl⟩, fun _ => ⟨rfl, ?_, fun _ _ => rfl, ?_⟩⟩
    · intro l hl
      simp [Pipeline.launch, ConsumerAt.lane] at hl
    · intro i w hw
      obtain ⟨hi, rfl⟩ := Pipeline.launch_getElem? N D readEarly i w hw
      refine ⟨i, by simp [drawsOf], by simpa [drawsOf] using hi, Nat.mod_eq_of_lt hi, ?_, ?_⟩
      · intro _; simp only [Nat.div_eq_of_lt hi]
      · intro h; exact absurd h (by simp)
  · intro q events s hc ⟨⟨hN, hD⟩, hinv⟩
    obtain ⟨⟨hN', hD'⟩, hview⟩ := Pipeline.step_view q s hc
    refine ⟨⟨hN'.trans hN, hD'.trans hD⟩, ?_⟩
    rcases hview with ⟨hev, hwts, hfc, hlane⟩ | ⟨j, w, hw, hv, hev, hwts, hfc, hlane⟩ |
      ⟨hnone, hev, hwts, hfc, hlane⟩ | ⟨l, w, hl, hw, hv, hev, hwts, hfc, hlane⟩
    · simp only [hev, hwts, hfc, hlane, Option.toList_none, List.append_nil]
      exact hinv
    · have hdr : drawsOf (events ++ [PipelineEvent.recompute j w.mOffsetZ]) = drawsOf events := by
        simp [drawsOf, List.filterMap_append]
      simp only [hev, hwts, hfc, hlane, Option.toList_some, hdr]
      intro hle
      obtain ⟨hdraws, hsome, hnone', hlanes⟩ := hinv hle
      refine ⟨hdraws, hsome, hnone', fun i w' hw' => ?_⟩
      by_cases hji : j = i
      · subst hji
        rw [getElem?_set_self' _ _ _ _ hw] at hw'
        simp only [Option.some.injEq] at hw'
        subst hw'
        obtain ⟨nf, a1, a2, a3, a4, -⟩ := hlanes j w hw
        refine ⟨nf, a1, a2, a3, fun h => absurd h (by simp), fun _ => ?_⟩
        simp only [a4 hv, hN, hD, true_and]
        rfl
      · rw [getElem?_set_ne' _ _ _ _ hji] at hw'
        exact hlanes i w' hw'
    · simp only [hev, hwts, hfc, hlane, Option.toList_none, List.append_nil]
      intro hle
      obtain ⟨hdraws, -, hnone', hlanes⟩ := hinv hle
      refine ⟨hdraws, ?_, fun hcontra => absurd hcontra (by simp), hlanes⟩
      intro l hl hlt
      simp only [Option.some.injEq] at hl
      have hfc' := hnone' hnone hlt
      refine ⟨by rw [← hl, hfc', hN], fun hlt' => ?_⟩
      simp only [hfc']
      exact Nat.mod_eq_of_lt hlt'
    · have hdr : drawsOf (events ++ [PipelineEvent.draw l w.outputZ]) =
          drawsOf events ++ [(l, w.outputZ)] := by
        simp [drawsOf, List.filterMap_append]
      simp only [hev, hwts, hfc, hlane, Option.toList_some, hdr, List.length_append,
        List.length_singleton]
      intro hle
      have hlt : (drawsOf events).length < SIZE_MOD := by omega
      obtain ⟨hdraws, hsome, -, hlanes⟩ := hinv (by omega)
      obtain ⟨hlane', hfc'⟩ := hsome l hl hlt
      obtain ⟨nf, a1, a2, a3, -, a5⟩ := hlanes l w hw
      have hnf : nf = (drawsOf events).length :=
        eq_of_mod_eq_of_window N _ nf a1 a2 (by rw [a3, hlane'])
      obtain ⟨hout, hz⟩ := a5 hv
      rw [hnf] at hout hz
      have hNpos : 0 < N := by omega
      refine ⟨?_, fun l' hl' => absurd hl' (by simp), fun _ hlt' => hfc' hlt', ?_⟩
      · rw [List.range_succ, List.map_append, ← hdraws, hout, hlane']
        rfl
      · intro i w' hw'
        by_cases hli : l = i
        · subst hli
          rw [getElem?_set_self' _ _ _ _ hw] at hw'
          simp only [Option.some.injEq] at hw'
          subst hw'
          refine ⟨(drawsOf events).length + N, by omega, by omega, ?_, fun _ => ?_,
            fun h => absurd h (by simp)⟩
          · rw [Nat.add_mod_right, ← hlane']
          · simp only [hz, Nat.add_div_right _ hNpos]
        · rw [getElem?_set_ne' _ _ _ _ hli] at hw'
          obtain ⟨nf', b1, b2, b3, b4, b5⟩ := hlanes i w' hw'
          have hne : nf' ≠ (drawsOf events).length := by
            intro e
            apply hli
            rw [hlane', ← e, b3]
          exact ⟨nf', by omega, by omega, b3, b4, b5⟩

/-- A step that runs a pass is taken by a worker inside its pass, and leaves
the lane READY. -/
theorem Pipeline.recompute_step (p : Pipeline) (s : PipelineStep) (i : Nat) (z : Option ℚ)
    (he : (p.step s).2 = some (PipelineEvent.recompute i z)) :
    p.workerAt[i]? = some WorkerAt.pass ∧
    ∃ w w', p.workerThreads[i]? = some w ∧ z = w.mOffsetZ ∧
      (p.step s).1.workerThreads[i]? = some w' ∧ w'.invalidated = false := by
  rcases Pipeline.step_cases p s with h | ⟨j, w, hw, ha, hv, h⟩ | ⟨j, w, hw, ha, hl, h⟩ |
    ⟨j, w, hw, ha, h⟩ | ⟨hs, h⟩ | ⟨l, w, hs, hw, hv, h⟩ | ⟨l, hs, hl, h⟩ | ⟨l, w, hs, hw, h⟩
  all_goals rw [h] at he ⊢
  all_goals simp only [Option.some.injEq, PipelineEvent.recompute.injEq, reduceCtorEq] at he
  obtain ⟨rfl, rfl⟩ := he
  exact ⟨ha, w, _, hw, rfl, getElem?_set_self' _ _ _ _ hw, rfl⟩

/-- A step that draws is taken by the consumer inside its draw, and leaves the
lane STALE. -/
theorem Pipeline.draw_step (p : Pipeline) (s : PipelineStep) (l : Nat) (z : Option (Option ℚ))
    (he : (p.step s).2 = some (PipelineEvent.draw l z)) :
    p.consumerAt = ConsumerAt.drawing l ∧
    ∃ w w', p.workerThreads[l]? = some w ∧ z = w.outputZ ∧
      (p.step s).1.workerThreads[l]? = some w' ∧ w'.invalidated = true := by
  rcases Pipeline.step_cases p s with h | ⟨j, w, hw, ha, hv, h⟩ | ⟨j, w, hw, ha, hl, h⟩ |
    ⟨j, w, hw, ha, h⟩ | ⟨hs, h⟩ | ⟨l', w, hs, hw, hv, h⟩ | ⟨l', hs, hl, h⟩ | ⟨l', w, hs, hw, h⟩
  all_goals rw [h] at he ⊢
  all_goals simp only [Option.some.injEq, PipelineEvent.draw.injEq, reduceCtorEq] at he
  obtain ⟨rfl, rfl⟩ := he
  exact ⟨hs, w, _, hw, rfl, getElem?_set_self' _ _ _ _ hw, rfl⟩

/-- Every state a run reaches from the launch satisfies the handshake
invariant. -/
theorem Pipeline.coherent_run (N : Nat) (D : ℚ) (readEarly : Nat → Bool) (schedule : List PipelineStep) :
    ((Pipeline.launch N D readEarly).run schedule).1.Coherent :=
  (Pipeline.launch_induction N D readEarly (fun _ _ => True) trivial (fun _ _ _ _ _ => trivial)
    schedule).1

/-- The four assignments to `interpolated` keep its length. -/
theorem interpolate_length (ms : Squares) (x y : Nat) (L : ℚ) (arr : List (ℚ × ℚ)) :
    (ms.interpolate x y L arr).length = arr.length := by
  simp [Squares.interpolate, setGet0, setGet1]

/-- The entries of every row before its `-1` are vertex references 0 to 7,
and the `-1` stands right after them, inside the row. -/
theorem squareIndicies_rows (c : Nat) (hc : c < 16) :
    (squareIndicies.getD c []).length = 10 ∧
    (vertexRefs c).length < 10 ∧
    (squareIndicies.getD c []).getD (vertexRefs c).length 0 = -1 ∧
    ∀ i ∈ vertexRefs c, 0 ≤ i ∧ i ≤ 7 := by
  interval_cases c <;> decide

/-- Whatever the cell state, the direction computed by `update()` is one of 0
to 3. -/
theorem LangstonsAnt.update_direction (a : LangstonsAnt) :
    a.update.all (fun s => decide (s.mAnt.2.2 < 4)) = true := by
  have hr : ∀ (c : Prop) [Decidable c] (r : Nat),
      (if c then (if (r + 1) % UINT8_MOD > 3 then 0 else (r + 1) % UINT8_MOD)
        else (if (r + UINT8_MOD - 1) % UINT8_MOD > 3 then 3
          else (r + UINT8_MOD - 1) % UINT8_MOD)) < 4 := by
    intro c _ r
    split <;> split <;> omega
  unfold LangstonsAnt.update
  simp only
  cases hf : a.flipCellState (a.mAnt.1, a.mAnt.2.1) with
  | none => rfl
  | some b =>
    cases hg : b.getCellState (a.mAnt.1, a.mAnt.2.1) with
    | none => simp [hg]
    | some state =>
      have key := hr (state > 0) a.mAnt.2.2
      simp only [Option.some_bind, hg, Option.map_some', Option.all_some, decide_eq_true_eq]
      generalize (if state > 0 then
            if (a.mAnt.2.2 + 1) % UINT8_MOD > 3 then 0 else (a.mAnt.2.2 + 1) % UINT8_MOD
          else if (a.mAnt.2.2 + UINT8_MOD - 1) % UINT8_MOD > 3 then 3
            else (a.mAnt.2.2 + UINT8_MOD - 1) % UINT8_MOD) = r at key
      split
      · exact key
      · exact key
      · exact key
      · exact key
      · exact key

/-- Halving with enough fuel computes the binary logarithm. -/
theorem Double.log2Fuel_eq (fuel n : Nat) (h : n ≤ fuel) :
    Double.log2Fuel fuel n = Nat.log2 n := by
  induction fuel generalizing n with
  | zero =>
    have : n = 0 := by omega
    subst this
    rw [Double.log2Fuel, Nat.log2]
    simp
  | succ fuel ih =>
    rw [Double.log2Fuel, Nat.log2]
    split
    · rw [ih (n / 2) (by omega)]
    · rfl

/-- The function `log2` is the binary logarithm. -/
theorem Double.log2_eq (n : Nat) : Double.log2 n = Nat.log2 n :=
  Double.log2Fuel_eq n n (le_refl n)

/-- The function `pow2` is the power of two. -/
theorem Double.pow2_eq (e : ℤ) : Double.pow2 e = (2 : ℚ) ^ e := by
  unfold Double.pow2
  split
  · rename_i h
    obtain ⟨n, rfl⟩ := Int.eq_ofNat_of_zero_le h
    simp
  · rename_i h
    have h' : e < 0 := by omega
    obtain ⟨n, hn⟩ := Int.exists_eq_neg_ofNat (le_of_lt h')
    subst hn
    simp

/-- A power of two is positive. -/
theorem Double.pow2_pos (e : ℤ) : 0 < Double.pow2 e := by
  rw [Double.pow2_eq]; positivity

/-- The binary exponent brackets the magnitude. -/
theorem Double.exponent_spec (q : ℚ) (hq : q ≠ 0) :
    Double.pow2 (Double.exponent q) ≤ |q| ∧ |q| < Double.pow2 (Double.exponent q + 1) := by
  have hn : q.num.natAbs ≠ 0 := by simpa using hq
  have hd : q.den ≠ 0 := q.den_nz
  have habs : |q| = (q.num.natAbs : ℚ) / (q.den : ℚ) := by
    conv_lhs => rw [← Rat.num_div_den q]
    rw [abs_div, Nat.abs_cast, Nat.cast_natAbs, Int.cast_abs]
  have h1 : ((2 ^ q.num.natAbs.log2 : ℕ) : ℚ) ≤ q.num.natAbs := by
    exact_mod_cast Nat.log2_self_le hn
  have h2 : ((q.num.natAbs : ℕ) : ℚ) < ((2 ^ (q.num.natAbs.log2 + 1) : ℕ) : ℚ) := by
    exact_mod_cast Nat.lt_log2_self
  have h3 : ((2 ^ q.den.log2 : ℕ) : ℚ) ≤ q.den := by
    exact_mod_cast Nat.log2_self_le hd
  have h4 : ((q.den : ℕ) : ℚ) < ((2 ^ (q.den.log2 + 1) : ℕ) : ℚ) := by
    exact_mod_cast Nat.lt_log2_self
  have hdpos : (0 : ℚ) < q.den := by exact_mod_cast Nat.pos_of_ne_zero hd
  push_cast at h1 h2 h3 h4
  set a := q.num.natAbs.log2 with ha
  set b := q.den.log2 with hb
  have hk : ∀ j : ℤ, (2 : ℚ) ^ ((a : ℤ) - (b : ℤ) + j) = 2 ^ a / 2 ^ b * 2 ^ j := by
    intro j
    rw [zpow_add₀ (by norm_num), zpow_sub₀ (by norm_num), zpow_natCast, zpow_natCast]
  have hlow : (2 : ℚ) ^ ((a : ℤ) - (b : ℤ) - 1) ≤ |q| := by
    have := hk (-1)
    rw [show (a : ℤ) - b + -1 = a - b - 1 by ring] at this
    rw [this, habs, div_mul_eq_mul_div, div_le_div_iff₀ (by positivity) hdpos]
    have : (2 : ℚ) ^ (-1 : ℤ) = 1 / 2 := by norm_num
    rw [this]
    have h4' : (q.den : ℚ) ≤ 2 ^ b * 2 := by rw [← pow_succ]; exact le_of_lt h4
    nlinarith [pow_pos (show (0:ℚ) < 2 by norm_num) a, pow_pos (show (0:ℚ) < 2 by norm_num) b]
  have hhigh : |q| < (2 : ℚ) ^ ((a : ℤ) - (b : ℤ) + 1) := by
    rw [hk 1, habs, div_mul_eq_mul_div, div_lt_div_iff₀ hdpos (by positivity)]
    have h2' : (q.num.natAbs : ℚ) < 2 ^ a * 2 := by rw [← pow_succ]; exact h2
    have : (2 : ℚ) ^ (1 : ℤ) = 2 := by norm_num
    rw [this]
    nlinarith [pow_pos (show (0:ℚ) < 2 by norm_num) a, pow_pos (show (0:ℚ) < 2 by norm_num) b]
  unfold Double.exponent
  simp only [Double.log2_eq, ← ha, ← hb]
  split
  · rename_i hlt
    rw [Double.pow2_eq] at hlt
    rw [Double.pow2_eq, Double.pow2_eq]
    refine ⟨hlow, ?_⟩
    rw [show (a : ℤ) - b - 1 + 1 = a - b by ring]
    exact hlt
  · rename_i hge
    rw [Double.pow2_eq] at hge
    rw [Double.pow2_eq, Double.pow2_eq]
    exact ⟨not_lt.mp hge, hhigh⟩

/-- The nearest integer is at most one half away. -/
theorem Double.roundHalfEven_near (r : ℚ) : |(Double.roundHalfEven r : ℚ) - r| ≤ 1 / 2 := by
  have h1 := Int.floor_le r
  have h2 := Int.lt_floor_add_one r
  unfold Double.roundHalfEven
  split_ifs <;> push_cast <;> rw [abs_le] <;> constructor <;> linarith

/-- A rounding that does not fall into the subnormal range has a relative
error of at most `2^-53`. -/
theorem Double.round_rel (q r : ℚ) (h : Double.round q = some r)
    (hn : Double.pow2 (-1022) ≤ |q|) :
    |r - q| ≤ Double.pow2 (-53) * |q| := by
  have hq : q ≠ 0 := by
    intro h0
    rw [h0, abs_zero] at hn
    exact absurd hn (not_le.mpr (Double.pow2_pos _))
  obtain ⟨hlo, hhi⟩ := Double.exponent_spec q hq
  have he : -1022 ≤ Double.exponent q := by
    by_contra hc
    have hc' : Double.exponent q + 1 ≤ -1022 := by omega
    have : Double.pow2 (Double.exponent q + 1) ≤ Double.pow2 (-1022) := by
      rw [Double.pow2_eq, Double.pow2_eq]
      exact zpow_le_zpow_right₀ (by norm_num) hc'
    linarith
  have hp : max (Double.exponent q - 52) (-1074) = Double.exponent q - 52 := by
    apply max_eq_left; omega
  unfold Double.round at h
  rw [if_neg hq] at h
  simp only [hp] at h
  split at h
  · simp only [Option.some.injEq] at h
    subst h
    have hpp := Double.pow2_pos (Double.exponent q - 52)
    have hnear := Double.roundHalfEven_near (q / Double.pow2 (Double.exponent q - 52))
    have heq : (Double.roundHalfEven (q / Double.pow2 (Double.exponent q - 52)) : ℚ) *
        Double.pow2 (Double.exponent q - 52) - q =
        ((Double.roundHalfEven (q / Double.pow2 (Double.exponent q - 52)) : ℚ) -
          q / Double.pow2 (Double.exponent q - 52)) * Double.pow2 (Double.exponent q - 52) := by
      field_simp
    rw [heq, abs_mul, abs_of_pos hpp]
    have hsplit : Double.pow2 (Double.exponent q - 52) =
        2 * (Double.pow2 (-53) * Double.pow2 (Double.exponent q)) := by
      rw [Double.pow2_eq, Double.pow2_eq, Double.pow2_eq,
        show Double.exponent q - 52 = 1 + (-53 + Double.exponent q) by ring,
        zpow_add₀ (by norm_num), zpow_add₀ (by norm_num)]
      norm_num
    have h53 := Double.pow2_pos (-53)
    calc |(Double.roundHalfEven (q / Double.pow2 (Double.exponent q - 52)) : ℚ) -
          q / Double.pow2 (Double.exponent q - 52)| * Double.pow2 (Double.exponent q - 52)
        ≤ 1 / 2 * Double.pow2 (Double.exponent q - 52) :=
          mul_le_mul_of_nonneg_right hnear (le_of_lt hpp)
      _ = Double.pow2 (-53) * Double.pow2 (Double.exponent q) := by rw [hsplit]; ring
      _ ≤ Double.pow2 (-53) * |q| := mul_le_mul_of_nonneg_left hlo (le_of_lt h53)
  · simp at h

/-- The quotient of two operands that carry relative errors of at most `u`:
its magnitude and its distance from the exact quotient. -/
theorem quotient_bounds (u N D n d : ℚ) (hu0 : 0 ≤ u) (hu : u ≤ 1 / 8) (hD : D ≠ 0)
    (h1 : |n - N| ≤ u * |N|) (h2 : |d - D| ≤ u * |D|) :
    d ≠ 0 ∧ (1 - u) * |N / D| ≤ (1 + u) * |n / d| ∧
    (1 - u) * |n / d| ≤ (1 + u) * |N / D| ∧
    |n / d - N / D| * (1 - u) ≤ 2 * u * |N / D| := by
  have hB : 0 < |D| := abs_pos.mpr hD
  have hA : 0 ≤ |N| := abs_nonneg N
  have h1u : 0 ≤ 1 - u := by linarith
  have hdlow : (1 - u) * |D| ≤ |d| := by
    have := abs_sub_abs_le_abs_sub D d
    rw [abs_sub_comm D d] at this
    linarith
  have hdpos : 0 < |d| := by nlinarith
  have hd : d ≠ 0 := abs_pos.mp hdpos
  have hnlow : (1 - u) * |N| ≤ |n| := by
    have := abs_sub_abs_le_abs_sub N n
    rw [abs_sub_comm N n] at this
    linarith
  have hnhigh : |n| ≤ (1 + u) * |N| := by
    have := abs_sub_abs_le_abs_sub n N
    linarith
  have hdhigh : |d| ≤ (1 + u) * |D| := by
    have := abs_sub_abs_le_abs_sub d D
    linarith
  set f := |N / D| with hf
  have hfdef : f * |D| = |N| := by
    rw [hf, abs_div, div_mul_cancel₀ _ (ne_of_gt hB)]
  have hf0 : 0 ≤ f := abs_nonneg _
  set E := |n / d - N / D| with hE
  have hE0 : 0 ≤ E := abs_nonneg _
  have hEq : E * (|d| * |D|) = |(n - N) * D - N * (d - D)| := by
    rw [hE, ← abs_mul, ← abs_mul]
    congr 1
    field_simp
    ring
  have hnum : |(n - N) * D - N * (d - D)| ≤ 2 * u * (|N| * |D|) := by
    calc |(n - N) * D - N * (d - D)| ≤ |(n - N) * D| + |N * (d - D)| := abs_sub _ _
      _ = |n - N| * |D| + |N| * |d - D| := by rw [abs_mul, abs_mul]
      _ ≤ u * |N| * |D| + |N| * (u * |D|) := by
          have := mul_le_mul_of_nonneg_right h1 (le_of_lt hB)
          have := mul_le_mul_of_nonneg_left h2 hA
          linarith
      _ = 2 * u * (|N| * |D|) := by ring
  have hE1 : E * |d| ≤ 2 * u * |N| := by
    have h := hEq ▸ hnum
    have h' : (E * |d|) * |D| ≤ (2 * u * |N|) * |D| := by linarith
    exact le_of_mul_le_mul_right h' hB
  have hE2 : E * (1 - u) ≤ 2 * u * f := by
    have : E * ((1 - u) * |D|) ≤ 2 * u * f * |D| := by
      calc E * ((1 - u) * |D|) ≤ E * |d| := mul_le_mul_of_nonneg_left hdlow hE0
        _ ≤ 2 * u * |N| := hE1
        _ = 2 * u * f * |D| := by rw [← hfdef]; ring
    have h' : (E * (1 - u)) * |D| ≤ (2 * u * f) * |D| := by linarith
    exact le_of_mul_le_mul_right h' hB
  have hxlow : (1 - u) * f ≤ (1 + u) * |n / d| := by
    rw [abs_div, mul_div_assoc', le_div_iff₀ hdpos]
    have e1 : (1 - u) * f * |d| ≤ (1 - u) * f * ((1 + u) * |D|) :=
      mul_le_mul_of_nonneg_left hdhigh (mul_nonneg h1u hf0)
    have e2 : (1 + u) * ((1 - u) * |N|) ≤ (1 + u) * |n| :=
      mul_le_mul_of_nonneg_left hnlow (by linarith)
    have e3 : (1 - u) * f * ((1 + u) * |D|) = (1 + u) * ((1 - u) * |N|) := by
      rw [← hfdef]; ring
    linarith
  have hxhigh : (1 - u) * |n / d| ≤ (1 + u) * f := by
    rw [abs_div, mul_div_assoc', div_le_iff₀ hdpos]
    have e1 : (1 + u) * f * ((1 - u) * |D|) ≤ (1 + u) * f * |d| :=
      mul_le_mul_of_nonneg_left hdlow (mul_nonneg (by linarith) hf0)
    have e2 : (1 - u) * |n| ≤ (1 - u) * ((1 + u) * |N|) :=
      mul_le_mul_of_nonneg_left hnhigh h1u
    have e3 : (1 + u) * f * ((1 - u) * |D|) = (1 - u) * ((1 + u) * |N|) := by
      rw [← hfdef]; ring
    linarith
  exact ⟨hd, hxlow, hxhigh, hE2⟩

/-- The error of a rounded quotient of rounded operands: with relative
rounding errors of at most `u` in numerator, denominator and quotient, the
magnitude of the result is within `4 * u` of that of the exact quotient. -/
theorem abs_quotient_error (u N D n d t : ℚ) (hu0 : 0 ≤ u) (hu : u ≤ 1 / 8) (hD : D ≠ 0)
    (h1 : |n - N| ≤ u * |N|) (h2 : |d - D| ≤ u * |D|) (h3 : |t - n / d| ≤ u * |n / d|) :
    |abs t - abs (N / D)| ≤ 4 * u * |N / D| := by
  obtain ⟨_, _, _, hE2⟩ := quotient_bounds u N D n d hu0 hu hD h1 h2
  have h1u : 0 ≤ 1 - u := by linarith
  set f := |N / D| with hf
  have hf0 : 0 ≤ f := abs_nonneg _
  set E := |n / d - N / D| with hE
  have hE0 : 0 ≤ E := abs_nonneg _
  have hx : |n / d| ≤ f + E := by
    have := abs_sub_abs_le_abs_sub (n / d) (N / D)
    linarith
  have ht : |abs t - f| ≤ |t - N / D| := abs_abs_sub_abs_le_abs_sub t (N / D)
  have ht2 : |t - N / D| ≤ |t - n / d| + E := by
    have := abs_sub_le t (n / d) (N / D)
    linarith
  have hfin : (1 - u) * |abs t - f| ≤ (1 - u) * (4 * u * f) := by
    have a1 : |abs t - f| ≤ u * (f + E) + E := by
      have := mul_le_mul_of_nonneg_left hx hu0
      linarith
    have a2 : (1 - u) * |abs t - f| ≤ (1 - u) * (u * f) + (1 + u) * (E * (1 - u)) := by
      have := mul_le_mul_of_nonneg_left a1 h1u
      nlinarith
    have a3 : (1 + u) * (E * (1 - u)) ≤ (1 + u) * (2 * u * f) :=
      mul_le_mul_of_nonneg_left hE2 (by linarith)
    have a4 : 0 ≤ u * f := mul_nonneg hu0 hf0
    nlinarith
  exact le_of_mul_le_mul_left hfin (by linarith)

/-- Zero is a `double`. -/
theorem Double.round_zero : Double.round 0 = some 0 := by
  simp [Double.round]

/-- A value scaled to a unit `2^p`, rounded to an integer and scaled back is
at most half a unit away. -/
theorem Double.scaled_near (q : ℚ) (p : ℤ) :
    |(Double.roundHalfEven (q / Double.pow2 p) : ℚ) * Double.pow2 p - q| ≤
      Double.pow2 p / 2 := by
  have hpp := Double.pow2_pos p
  have hnear := Double.roundHalfEven_near (q / Double.pow2 p)
  have heq : (Double.roundHalfEven (q / Double.pow2 p) : ℚ) * Double.pow2 p - q =
      ((Double.roundHalfEven (q / Double.pow2 p) : ℚ) - q / Double.pow2 p) * Double.pow2 p := by
    field_simp
  rw [heq, abs_mul, abs_of_pos hpp]
  have := mul_le_mul_of_nonneg_right hnear (le_of_lt hpp)
  linarith

/-- Powers of two grow with the exponent. -/
theorem Double.pow2_mono {e e' : ℤ} (h : e ≤ e') : Double.pow2 e ≤ Double.pow2 e' := by
  rw [Double.pow2_eq, Double.pow2_eq]
  exact zpow_le_zpow_right₀ (by norm_num) h

/-- A power of two below another has the smaller exponent. -/
theorem Double.pow2_lt_imp {e e' : ℤ} (h : Double.pow2 e < Double.pow2 e') : e < e' := by
  by_contra hc
  exact absurd (Double.pow2_mono (not_lt.mp hc)) (not_le.mpr h)

/-- A result of magnitude at most `2^1023` rounds to a finite `double`. -/
theorem Double.round_isSome (q : ℚ) (h : |q| ≤ Double.pow2 1023) :
    ∃ r, Double.round q = some r := by
  by_cases hq : q = 0
  · exact ⟨0, by simp [Double.round, hq]⟩
  · obtain ⟨hlo, _⟩ := Double.exponent_spec q hq
    have he : Double.exponent q < 1024 := by
      apply Double.pow2_lt_imp
      calc Double.pow2 (Double.exponent q) ≤ |q| := hlo
        _ ≤ Double.pow2 1023 := h
        _ < Double.pow2 1024 := by rw [Double.pow2_eq, Double.pow2_eq]; norm_num
    have hp : max (Double.exponent q - 52) (-1074) ≤ 971 := by omega
    have hnear := Double.scaled_near q (max (Double.exponent q - 52) (-1074))
    have hpm := Double.pow2_mono hp
    have habs : |(Double.roundHalfEven (q / Double.pow2 (max (Double.exponent q - 52) (-1074))) : ℚ)
        * Double.pow2 (max (Double.exponent q - 52) (-1074))| < Double.pow2 1024 := by
      have h1 := abs_sub_abs_le_abs_sub
        ((Double.roundHalfEven (q / Double.pow2 (max (Double.exponent q - 52) (-1074))) : ℚ)
          * Double.pow2 (max (Double.exponent q - 52) (-1074))) q
      have e1 : Double.pow2 1024 = 2 * Double.pow2 1023 := by
        rw [Double.pow2_eq, Double.pow2_eq]; norm_num
      have e2 : Double.pow2 971 < Double.pow2 1023 := by
        rw [Double.pow2_eq, Double.pow2_eq]; norm_num
      have := Double.pow2_pos 971
      linarith
    refine ⟨(Double.roundHalfEven (q / Double.pow2 (max (Double.exponent q - 52) (-1074))) : ℚ)
        * Double.pow2 (max (Double.exponent q - 52) (-1074)), ?_⟩
    unfold Double.round
    rw [if_neg hq]
    simp only [if_pos habs]

/-- The rounding of a result in the normal range: it is finite and has a
relative error of at most `2^-53`. -/
theorem Double.round_normal (q : ℚ) (h : Double.Normal q) :
    ∃ r, Double.round q = some r ∧ |r - q| ≤ Double.pow2 (-53) * |q| := by
  obtain ⟨r, hr⟩ := Double.round_isSome q h.2
  exact ⟨r, hr, Double.round_rel q r hr h.1⟩

/-- The edge factor in `double` arithmetic is finite and within the relative
error `2^-51` of the exact quotient, when no operation leaves the normal
range. -/
theorem edgeFactorDouble_near (L a b : ℚ) (h : EdgeFactorNormal L a b) :
    ∃ t, edgeFactorDouble L a b = some t ∧
      |t - edgeFactor L a b| ≤ Double.pow2 (-51) * edgeFactor L a b := by
  obtain ⟨hD, hcase⟩ := h
  have hu0 : (0 : ℚ) ≤ Double.pow2 (-53) := le_of_lt (Double.pow2_pos _)
  have hu : Double.pow2 (-53) ≤ 1 / 8 := by rw [Double.pow2_eq]; norm_num
  have h51 : Double.pow2 (-51) = 4 * Double.pow2 (-53) := by
    rw [Double.pow2_eq, Double.pow2_eq]; norm_num
  have hDne : b - a ≠ 0 := by
    intro h0
    have := hD.1
    rw [h0, abs_zero] at this
    exact absurd this (not_le.mpr (Double.pow2_pos _))
  obtain ⟨d, hd, ed⟩ := Double.round_normal (b - a) hD
  have hdne : d ≠ 0 := by
    have hB : 0 < |b - a| := abs_pos.mpr hDne
    have := abs_sub_abs_le_abs_sub (b - a) d
    rw [abs_sub_comm (b - a) d] at this
    have hdpos : 0 < |d| := by nlinarith
    exact abs_pos.mp hdpos
  rcases hcase with rfl | ⟨hN, hlo, hhi⟩
  · refine ⟨0, ?_, ?_⟩
    · simp [edgeFactorDouble, Double.abs, Double.div, Double.sub, Double.round_zero, hd, hdne]
    · simp [edgeFactor]
  · obtain ⟨n, hn, en⟩ := Double.round_normal (L - a) hN
    obtain ⟨_, hqlo, hqhi, _⟩ := quotient_bounds (Double.pow2 (-53)) (L - a) (b - a) n d
      hu0 hu hDne en ed
    have hq : Double.Normal (n / d) := by
      have e1 : Double.pow2 (-1021) = 2 * Double.pow2 (-1022) := by
        rw [Double.pow2_eq, Double.pow2_eq]; norm_num
      have e2 : Double.pow2 1023 = 2 * Double.pow2 1022 := by
        rw [Double.pow2_eq, Double.pow2_eq]; norm_num
      have hf0 : 0 ≤ |(L - a) / (b - a)| := abs_nonneg _
      have hx0 : 0 ≤ |n / d| := abs_nonneg _
      constructor
      · nlinarith
      · nlinarith
    obtain ⟨t, ht, et⟩ := Double.round_normal (n / d) hq
    have hfin := abs_quotient_error (Double.pow2 (-53)) (L - a) (b - a) n d t
      hu0 hu hDne en ed et
    refine ⟨|t|, ?_, ?_⟩
    · simp [edgeFactorDouble, Double.abs, Double.div, Double.sub, hn, hd, hdne, ht]
    · rw [h51]
      simpa [edgeFactor] using hfin

/-- An integer is its own nearest integer. -/
theorem Double.roundHalfEven_intCast (m : ℤ) : Double.roundHalfEven (m : ℚ) = m := by
  unfold Double.roundHalfEven
  simp

/-- A value that is an integer multiple of its rounding unit, and of
magnitude below `2^1024`, is a `double`. -/
theorem Double.round_exact (q : ℚ) (m : ℤ)
    (hm : q / Double.pow2 (max (Double.exponent q - 52) (-1074)) = m)
    (hlt : |q| < Double.pow2 1024) : Double.round q = some q := by
  by_cases hq : q = 0
  · rw [hq]; exact Double.round_zero
  · have hpp := Double.pow2_pos (max (Double.exponent q - 52) (-1074))
    have hr : (Double.roundHalfEven (q / Double.pow2 (max (Double.exponent q - 52) (-1074))) : ℚ)
        * Double.pow2 (max (Double.exponent q - 52) (-1074)) = q := by
      rw [hm, Double.roundHalfEven_intCast, ← hm]
      field_simp
    unfold Double.round
    rw [if_neg hq]
    simp only [hr, if_pos hlt]

/-- A natural number below `2^53` converts to `double` exactly. -/
theorem Double.ofNat_exact (n : Nat) (h : n < 2 ^ 53) : Double.ofNat n = some (n : ℚ) := by
  unfold Double.ofNat
  by_cases hn : n = 0
  · subst hn; simpa using Double.round_zero
  · have hq : (n : ℚ) ≠ 0 := by exact_mod_cast hn
    obtain ⟨hlo, hhi⟩ := Double.exponent_spec (n : ℚ) hq
    have habs : |(n : ℚ)| = n := abs_of_nonneg (by positivity)
    rw [habs] at hlo hhi
    have hn53 : (n : ℚ) < Double.pow2 53 := by
      rw [Double.pow2_eq]; exact_mod_cast h
    have he : Double.exponent (n : ℚ) < 53 :=
      Double.pow2_lt_imp (lt_of_le_of_lt hlo hn53)
    have he0 : 0 ≤ Double.exponent (n : ℚ) := by
      have h1 : Double.pow2 0 < Double.pow2 (Double.exponent (n : ℚ) + 1) := by
        have : Double.pow2 0 ≤ (n : ℚ) := by
          rw [Double.pow2_eq]; simp; exact_mod_cast Nat.one_le_iff_ne_zero.mpr hn
        linarith
      have := Double.pow2_lt_imp h1
      omega
    have hp : max (Double.exponent (n : ℚ) - 52) (-1074) = Double.exponent (n : ℚ) - 52 := by
      apply max_eq_left; omega
    obtain ⟨k, hk⟩ : ∃ k : ℕ, Double.exponent (n : ℚ) - 52 = -(k : ℤ) :=
      ⟨(52 - Double.exponent (n : ℚ)).toNat, by omega⟩
    apply Double.round_exact (n : ℚ) ((n * 2 ^ k : ℕ) : ℤ)
    · rw [hp, hk, Double.pow2_eq, zpow_neg, zpow_natCast]
      push_cast
      field_simp
    · rw [habs]
      calc (n : ℚ) < Double.pow2 53 := hn53
        _ ≤ Double.pow2 1024 := Double.pow2_mono (by norm_num)

/-- A natural number below `2^53` is a `double`. -/
theorem Double.round_natCast (n : Nat) (h : n < 2 ^ 53) : Double.round (n : ℚ) = some (n : ℚ) :=
  Double.ofNat_exact n h

/-- The coordinate of a vertex across its edge, and both coordinates of a
corner vertex, are computed exactly on a grid whose pixel coordinates stay
below `2^53`: the offset `s` is 0 or 1 and the added entry of `interpolated`
is zero. -/
theorem grid_coordinate_exact (s k P : Nat) (hs : s ≤ 1) (hk : k + 1 < 2 ^ 53)
    (hkP : (k + 1) * P < 2 ^ 53) :
    Double.add (Double.mul (Double.add (some (s : ℚ)) (Double.ofNat k)) (Double.ofNat P))
      (some 0) = some (((s : ℚ) + k) * P) := by
  have hP : P < 2 ^ 53 := by
    rcases Nat.eq_zero_or_pos P with h0 | h0
    · omega
    · calc P ≤ (k + 1) * P := Nat.le_mul_of_pos_left P (by omega)
        _ < 2 ^ 53 := hkP
  have hsk : ((s + k : ℕ) : ℚ) = (s : ℚ) + k := by push_cast; ring
  have hskP : (s + k) * P < 2 ^ 53 :=
    lt_of_le_of_lt (Nat.mul_le_mul_right P (by omega)) hkP
  have e1 : Double.round ((s : ℚ) + k) = some ((s : ℚ) + k) := by
    rw [← hsk]; exact Double.round_natCast _ (by omega)
  have e2 : Double.round (((s : ℚ) + k) * P) = some (((s : ℚ) + k) * P) := by
    have : (((s + k) * P : ℕ) : ℚ) = ((s : ℚ) + k) * P := by push_cast; ring
    rw [← this]; exact Double.round_natCast _ hskP
  simp [Double.add, Double.mul, Double.ofNat_exact k (by omega), Double.ofNat_exact P hP, e1, e2]

/-- The coordinate of an edge vertex along its edge, in `double` arithmetic:
it is finite and within `2^-50 * (k + 1) * P` of the exact coordinate
`(k + t) * P`, `t` being the exact edge factor. -/
theorem edge_coordinate_near (k P : Nat) (L a b : ℚ) (hP : 1 ≤ P) (hkP : (k + 1) * P < 2 ^ 53)
    (hopp : OppositeSides L a b) (hN : EdgeFactorNormal L a b) :
    ∃ v, Double.add (Double.mul (Double.add (some 0) (Double.ofNat k)) (Double.ofNat P))
        (Double.mul (Double.ofNat P) (edgeFactorDouble L a b)) = some v ∧
      |v - ((k : ℚ) + edgeFactor L a b) * P| ≤ Double.pow2 (-50) * (((k : ℚ) + 1) * P) := by
  have hk : k + 1 < 2 ^ 53 :=
    lt_of_le_of_lt (Nat.le_mul_of_pos_right (k + 1) hP) hkP
  have hP53 : P < 2 ^ 53 :=
    lt_of_le_of_lt (Nat.le_mul_of_pos_left P (by omega)) hkP
  have hbase := grid_coordinate_exact 0 k P (by omega) hk hkP
  have hbase' : Double.mul (Double.add (some 0) (Double.ofNat k)) (Double.ofNat P) =
      some ((k : ℚ) * P) := by
    have e1 : Double.round ((k : ℚ)) = some (k : ℚ) := Double.round_natCast k (by omega)
    have e2 : Double.round ((k : ℚ) * P) = some ((k : ℚ) * P) := by
      have : (((k * P : ℕ)) : ℚ) = (k : ℚ) * P := by push_cast; ring
      rw [← this]
      exact Double.round_natCast _
        (lt_of_le_of_lt (Nat.mul_le_mul_right P (by omega)) hkP)
    simp [Double.add, Double.mul, Double.ofNat_exact k (by omega), Double.ofNat_exact P hP53,
      e1, e2]
  obtain ⟨t, ht, et⟩ := edgeFactorDouble_near L a b hN
  obtain ⟨hT0, hT1⟩ := edgeFactor_mem_unit L a b hopp.ne hopp.between
  set T := edgeFactor L a b with hT
  have hu0 : (0 : ℚ) < Double.pow2 (-53) := Double.pow2_pos _
  have h51 : Double.pow2 (-51) = 4 * Double.pow2 (-53) := by
    rw [Double.pow2_eq, Double.pow2_eq]; norm_num
  have h50 : Double.pow2 (-50) = 8 * Double.pow2 (-53) := by
    rw [Double.pow2_eq, Double.pow2_eq]; norm_num
  have hu : Double.pow2 (-53) ≤ 1 / 64 := by rw [Double.pow2_eq]; norm_num
  set u := Double.pow2 (-53) with hudef
  rw [h51] at et
  have hPq : (1 : ℚ) ≤ P := by exact_mod_cast hP
  have hPhi : (P : ℚ) ≤ 2 ^ 53 := by exact_mod_cast le_of_lt hP53
  have hkq : (0 : ℚ) ≤ k := Nat.cast_nonneg k
  have hkPq : ((k : ℚ) + 1) * P ≤ 2 ^ 53 := by exact_mod_cast le_of_lt hkP
  obtain ⟨etl, eth⟩ := abs_le.mp et
  rw [hbase', ht, Double.ofNat_exact P hP53]
  by_cases hL : L = a
  · -- the factor is zero: every operation is exact
    have hTz : T = 0 := by rw [hT, hL]; simp [edgeFactor]
    have htz : t = 0 := by
      rw [hTz] at etl eth; linarith only [etl, eth]
    subst htz
    refine ⟨(k : ℚ) * P, ?_, ?_⟩
    · have e2 : Double.round ((k : ℚ) * P) = some ((k : ℚ) * P) := by
        have : (((k * P : ℕ)) : ℚ) = (k : ℚ) * P := by push_cast; ring
        rw [← this]
        exact Double.round_natCast _
          (lt_of_le_of_lt (Nat.mul_le_mul_right P (by omega)) hkP)
      simp [Double.add, Double.mul, Double.round_zero, e2]
    · rw [hTz]
      have : (k : ℚ) * P - ((k : ℚ) + 0) * P = 0 := by ring
      rw [this, abs_zero]
      exact mul_nonneg (le_of_lt (Double.pow2_pos _)) (mul_nonneg (by linarith) (by linarith))
  · obtain ⟨_, hcase⟩ := hN
    rcases hcase with h | ⟨_, hlo, _⟩
    · exact absurd h hL
    have hTlo : Double.pow2 (-1021) ≤ T := by simpa [hT, edgeFactor] using hlo
    have e21 : Double.pow2 (-1021) = 2 * Double.pow2 (-1022) := by
      rw [Double.pow2_eq, Double.pow2_eq]; norm_num
    have hbig : (2 : ℚ) ^ 56 ≤ Double.pow2 1023 := by
      rw [Double.pow2_eq]; norm_num
    have h1022 := Double.pow2_pos (-1022)
    have huT : u * T ≤ (1 / 64) * T := mul_le_mul_of_nonneg_right hu hT0
    have ht0 : 0 ≤ t := by linarith only [etl, huT, hT0]
    have htT : t ≤ 2 * T := by linarith only [eth, huT, hT0]
    have htlo : Double.pow2 (-1022) ≤ (3 / 4) * t := by
      linarith only [etl, huT, hTlo, e21, h1022]
    -- the product with the pixel scale
    have hP0 : (0 : ℚ) ≤ P := by linarith
    have hPt0 : 0 ≤ (P : ℚ) * t := mul_nonneg hP0 ht0
    have hPtlo : t ≤ (P : ℚ) * t := by
      have := mul_le_mul_of_nonneg_right hPq ht0
      linarith only [this]
    have ht2 : t ≤ 2 := by linarith only [htT, hT1]
    have hPthi : (P : ℚ) * t ≤ 2 ^ 53 * 2 := mul_le_mul hPhi ht2 ht0 (by positivity)
    have hw : Double.Normal ((P : ℚ) * t) := by
      constructor
      · rw [abs_of_nonneg hPt0]; linarith only [htlo, hPtlo, ht0]
      · rw [abs_of_nonneg hPt0]; linarith only [hPthi, hbig]
    obtain ⟨w, hwr, ew⟩ := Double.round_normal _ hw
    rw [abs_of_nonneg hPt0, ← hudef] at ew
    obtain ⟨ewl, ewh⟩ := abs_le.mp ew
    have huPt : u * ((P : ℚ) * t) ≤ (1 / 64) * ((P : ℚ) * t) :=
      mul_le_mul_of_nonneg_right hu hPt0
    have hw0 : (3 / 4) * ((P : ℚ) * t) ≤ w := by linarith only [ewl, huPt, hPt0]
    have hwhi : w ≤ 2 * ((P : ℚ) * t) := by linarith only [ewh, huPt, hPt0]
    -- the sum with the exact part
    have hkP0 : 0 ≤ (k : ℚ) * P := mul_nonneg hkq hP0
    have hkPhi : (k : ℚ) * P ≤ 2 ^ 53 := by
      have : ((k : ℚ) + 1) * P = (k : ℚ) * P + P := by ring
      linarith only [this, hkPq, hP0]
    have hS0 : 0 ≤ (k : ℚ) * P + w := by linarith only [hkP0, hw0, hPt0]
    have hS : Double.Normal ((k : ℚ) * P + w) := by
      constructor
      · rw [abs_of_nonneg hS0]; linarith only [htlo, hPtlo, hw0, hkP0, ht0]
      · rw [abs_of_nonneg hS0]; linarith only [hkPhi, hwhi, hPthi, hbig]
    obtain ⟨v, hv, ev⟩ := Double.round_normal _ hS
    rw [abs_of_nonneg hS0, ← hudef] at ev
    refine ⟨v, ?_, ?_⟩
    · simp [Double.add, Double.mul, hwr, hv]
    · rw [h50]
      have hPT : 0 ≤ (P : ℚ) * T := mul_nonneg hP0 hT0
      have hPT1 : (P : ℚ) * T ≤ P := by
        have := mul_le_mul_of_nonneg_left hT1 hP0
        linarith only [this]
      have hPtT : |(P : ℚ) * t - P * T| ≤ 4 * u * (P * T) := by
        rw [← mul_sub, abs_mul, abs_of_nonneg hP0]
        have := mul_le_mul_of_nonneg_left et hP0
        linarith only [this]
      obtain ⟨hPtTl, hPtTh⟩ := abs_le.mp hPtT
      have huPT : 0 ≤ u * (P * T) := mul_nonneg (le_of_lt hu0) hPT
      have huPT' : u * ((P : ℚ) * T) ≤ u * P := mul_le_mul_of_nonneg_left hPT1 (le_of_lt hu0)
      have huP : 0 ≤ u * (P : ℚ) := mul_nonneg (le_of_lt hu0) hP0
      have hukP : 0 ≤ u * ((k : ℚ) * P) := mul_nonneg (le_of_lt hu0) hkP0
      have huPT64 : u * ((P : ℚ) * T) ≤ (1 / 64) * (P * T) :=
        mul_le_mul_of_nonneg_right hu hPT
      have hPt3 : (P : ℚ) * t ≤ (5 / 4) * (P * T) := by
        linarith only [hPtTh, huPT64, hPT]
      have hw3 : w ≤ (5 / 4) * ((P : ℚ) * t) := by linarith only [ewh, huPt, hPt0]
      have huPt2 : u * ((P : ℚ) * t) ≤ (5 / 4) * (u * (P * T)) := by
        have := mul_le_mul_of_nonneg_left hPt3 (le_of_lt hu0)
        linarith only [this]
      have huw : u * w ≤ (5 / 4) * (u * ((P : ℚ) * t)) := by
        have := mul_le_mul_of_nonneg_left hw3 (le_of_lt hu0)
        linarith only [this]
      obtain ⟨hvl, hvh⟩ := abs_le.mp ev
      have hexp : ((k : ℚ) + T) * P = (k : ℚ) * P + P * T := by ring
      have hexp2 : 8 * u * (((k : ℚ) + 1) * P) = 8 * (u * ((k : ℚ) * P)) + 8 * (u * P) := by ring
      have hexp3 : u * ((k : ℚ) * P + w) = u * ((k : ℚ) * P) + u * w := by ring
      rw [abs_le, hexp, hexp2]
      rw [hexp3] at hvl hvh
      constructor
      · linarith only [hvl, ewl, hPtTl, huw, huPt2, huPT', huPT, huP, hukP]
      · linarith only [hvh, ewh, hPtTh, huw, huPt2, huPT', huPT, huP, hukP]

/-- The initial `interpolated` has the invariant shape. -/
theorem interpolatedInitDouble_shape : InterpolatedShapeDouble interpolatedInitDouble :=
  ⟨some (1/2), some (1/2), some (1/2), some (1/2), rfl⟩

/-- On an array of the invariant shape the four assignments leave the four
scaled edge factors, whatever the assigned components held before. -/
theorem interpolateDouble_eq (ms : Squares) (x y : Nat) (L : ℚ)
    (arr : List (Option ℚ × Option ℚ)) (h : InterpolatedShapeDouble arr) :
    ms.interpolateDouble x y L arr =
      [(some 0, Double.mul (Double.ofNat ms.PixelsPerPointY)
          (edgeFactorDouble L (ms.getPoint x y) (ms.getPoint x (y+1)))),
       (Double.mul (Double.ofNat ms.PixelsPerPointX)
          (edgeFactorDouble L (ms.getPoint x y) (ms.getPoint (x+1) y)), some 0),
       (some 0, Double.mul (Double.ofNat ms.PixelsPerPointY)
          (edgeFactorDouble L (ms.getPoint (x+1) y) (ms.getPoint (x+1) (y+1)))),
       (Double.mul (Double.ofNat ms.PixelsPerPointX)
          (edgeFactorDouble L (ms.getPoint x (y+1)) (ms.getPoint (x+1) (y+1))), some 0),
       (some 0, some 0), (some 0, some 0), (some 0, some 0), (some 0, some 0)] := by
  obtain ⟨a, b, c, d, rfl⟩ := h
  simp [Squares.interpolateDouble, setGet0Double, setGet1Double, edgeFactorDouble]

/-- The four assignments keep the invariant shape. -/
theorem interpolateDouble_shape (ms : Squares) (x y : Nat) (L : ℚ)
    (arr : List (Option ℚ × Option ℚ)) (h : InterpolatedShapeDouble arr) :
    InterpolatedShapeDouble (ms.interpolateDouble x y L arr) :=
  ⟨_, _, _, _, interpolateDouble_eq ms x y L arr h⟩

/-- The row loop makes one call per entry before the first `-1`. -/
theorem emitRowDouble_eq (ms : Squares) (x y : Nat) (arr : List (Option ℚ × Option ℚ))
    (row : List Int) :
    ms.emitRowDouble x y arr row =
      (row.takeWhile (fun i => i != -1)).map (ms.vertexDouble x y arr) := by
  induction row with
  | nil => simp [Squares.emitRowDouble]
  | cons i rest ih =>
    by_cases hi : i = -1
    · simp [Squares.emitRowDouble, hi]
    · rw [Squares.emitRowDouble, if_neg hi, ih]
      have hne : (i != -1) = true := by simpa using hi
      simp [List.takeWhile_cons, hne, Squares.vertexDouble]

/-- The loop body for one cell makes one call per reference of the row of
the cell's code, with the offsets assigned for the cell; it does not depend on
the cells handled before. -/
theorem renderCellDouble_eq (ms : Squares) (L : ℚ) (y x : Nat)
    (arr : List (Option ℚ × Option ℚ)) (h : InterpolatedShapeDouble arr) :
    ms.renderCellDouble L y x arr =
      (vertexRefs (ms.getSquareType x y L)).map
        (ms.vertexDouble x y (ms.interpolateDouble x y L interpolatedInitDouble)) := by
  rw [Squares.renderCellDouble, emitRowDouble_eq, interpolateDouble_eq ms x y L arr h,
    ← interpolateDouble_eq ms x y L _ interpolatedInitDouble_shape]
  rfl

/-- A loop whose body appends `out a` to the calls appends their concatenation. -/
theorem foldl_callsDouble {α : Type}
    (step : List (ℚ × Option ℚ × Option ℚ) × List (Option ℚ × Option ℚ) → α →
      List (ℚ × Option ℚ × Option ℚ) × List (Option ℚ × Option ℚ))
    (out : α → List (ℚ × Option ℚ × Option ℚ))
    (hstep : ∀ s a, InterpolatedShapeDouble s.2 →
      (step s a).1 = s.1 ++ out a ∧ InterpolatedShapeDouble (step s a).2)
    (l : List α) (s : List (ℚ × Option ℚ × Option ℚ) × List (Option ℚ × Option ℚ))
    (hs : InterpolatedShapeDouble s.2) :
    (l.foldl step s).1 = s.1 ++ l.flatMap out ∧ InterpolatedShapeDouble (l.foldl step s).2 := by
  induction l generalizing s with
  | nil => simp [hs]
  | cons a l ih =>
    obtain ⟨h1, h2⟩ := hstep s a hs
    obtain ⟨i1, i2⟩ := ih (step s a) h2
    exact ⟨by simp [List.foldl_cons, i1, h1, List.flatMap_cons], i2⟩

/-- The calls of `render` in `double` arithmetic: for every iso-level and
cell, in loop order, those of the loop body. -/
theorem renderDouble_eq (ms : Squares) (isoLevels : List ℚ) :
    ms.renderDouble isoLevels =
      isoLevels.flatMap (fun L =>
        (List.range (sizePred ms.ResolutionY)).flatMap (fun y =>
          (List.range (sizePred ms.ResolutionX)).flatMap (fun x =>
            (ms.renderCellDouble L y x interpolatedInitDouble).map (fun v => (L, v))))) := by
  have hcell : ∀ (L : ℚ) (y : Nat)
      (s : List (ℚ × Option ℚ × Option ℚ) × List (Option ℚ × Option ℚ)) (x : Nat),
      InterpolatedShapeDouble s.2 →
      (s.1 ++ (ms.renderCellDouble L y x s.2).map (fun v => (L, v)),
        ms.interpolateDouble x y L s.2).1 =
        s.1 ++ (ms.renderCellDouble L y x interpolatedInitDouble).map (fun v => (L, v)) ∧
      InterpolatedShapeDouble
        (s.1 ++ (ms.renderCellDouble L y x s.2).map (fun v => (L, v)),
          ms.interpolateDouble x y L s.2).2 := by
    intro L y s x hs
    refine ⟨?_, interpolateDouble_shape ms x y L _ hs⟩
    show s.1 ++ _ = s.1 ++ _
    rw [renderCellDouble_eq ms L y x s.2 hs,
      renderCellDouble_eq ms L y x _ interpolatedInitDouble_shape]
  have hrow := fun (L : ℚ)
      (s : List (ℚ × Option ℚ × Option ℚ) × List (Option ℚ × Option ℚ)) (y : Nat) =>
    foldl_callsDouble
      (fun s x => (s.1 ++ (ms.renderCellDouble L y x s.2).map (fun v => (L, v)),
        ms.interpolateDouble x y L s.2))
      (fun x => (ms.renderCellDouble L y x interpolatedInitDouble).map (fun v => (L, v)))
      (fun s x => hcell L y s x) (List.range (sizePred ms.ResolutionX)) s
  have hlevel := fun (s : List (ℚ × Option ℚ × Option ℚ) × List (Option ℚ × Option ℚ))
      (L : ℚ) =>
    foldl_callsDouble _ _ (hrow L) (List.range (sizePred ms.ResolutionY)) s
  have hall := foldl_callsDouble _ _ hlevel isoLevels
    (([] : List (ℚ × Option ℚ × Option ℚ)), interpolatedInitDouble)
    interpolatedInitDouble_shape
  simp only [Squares.renderDouble]
  rw [hall.1]
  rfl

/-- The vertex of every reference of the row of a cell's code, in `double`
arithmetic: a corner is exact; an edge vertex lies exactly on the line of its
edge and, along the edge, within `2^-50` times the far pixel coordinate of the
cell of the exact position. -/
theorem vertexDouble_refs (ms : Squares) (x y : Nat) (L : ℚ) (i : Int)
    (hn : ms.CellNormal x y L) (hi : i ∈ vertexRefs (ms.getSquareType x y L)) :
    ∃ vx vy : ℚ,
      ms.vertexDouble x y (ms.interpolateDouble x y L interpolatedInitDouble) i =
        (some vx, some vy) ∧
      (i = 0 → vx = (x : ℚ) * ms.PixelsPerPointX ∧
        |vy - ((y : ℚ) + edgeFactor L (ms.getPoint x y) (ms.getPoint x (y+1)))
            * ms.PixelsPerPointY| ≤
          Double.pow2 (-50) * (((y : ℚ) + 1) * ms.PixelsPerPointY)) ∧
      (i = 1 → vy = (y : ℚ) * ms.PixelsPerPointY ∧
        |vx - ((x : ℚ) + edgeFactor L (ms.getPoint x y) (ms.getPoint (x+1) y))
            * ms.PixelsPerPointX| ≤
          Double.pow2 (-50) * (((x : ℚ) + 1) * ms.PixelsPerPointX)) ∧
      (i = 2 → vx = ((x : ℚ) + 1) * ms.PixelsPerPointX ∧
        |vy - ((y : ℚ) + edgeFactor L (ms.getPoint (x+1) y) (ms.getPoint (x+1) (y+1)))
            * ms.PixelsPerPointY| ≤
          Double.pow2 (-50) * (((y : ℚ) + 1) * ms.PixelsPerPointY)) ∧
      (i = 3 → vy = ((y : ℚ) + 1) * ms.PixelsPerPointY ∧
        |vx - ((x : ℚ) + edgeFactor L (ms.getPoint x (y+1)) (ms.getPoint (x+1) (y+1)))
            * ms.PixelsPerPointX| ≤
          Double.pow2 (-50) * (((x : ℚ) + 1) * ms.PixelsPerPointX)) ∧
      (i = 4 → vx = (x : ℚ) * ms.PixelsPerPointX ∧ vy = (y : ℚ) * ms.PixelsPerPointY) ∧
      (i = 5 → vx = ((x : ℚ) + 1) * ms.PixelsPerPointX ∧ vy = (y : ℚ) * ms.PixelsPerPointY) ∧
      (i = 6 → vx = ((x : ℚ) + 1) * ms.PixelsPerPointX ∧
        vy = ((y : ℚ) + 1) * ms.PixelsPerPointY) ∧
      (i = 7 → vx = (x : ℚ) * ms.PixelsPerPointX ∧
        vy = ((y : ℚ) + 1) * ms.PixelsPerPointY) := by
  obtain ⟨hPx, hPy, hxP, hyP, n0, n1, n2, n3⟩ := hn
  have hx1 : x + 1 < 2 ^ 53 := lt_of_le_of_lt (Nat.le_mul_of_pos_right (x + 1) hPx) hxP
  have hy1 : y + 1 < 2 ^ 53 := lt_of_le_of_lt (Nat.le_mul_of_pos_right (y + 1) hPy) hyP
  have X0 := grid_coordinate_exact 0 x ms.PixelsPerPointX (by omega) hx1 hxP
  have X1 := grid_coordinate_exact 1 x ms.PixelsPerPointX (by omega) hx1 hxP
  have Y0 := grid_coordinate_exact 0 y ms.PixelsPerPointY (by omega) hy1 hyP
  have Y1 := grid_coordinate_exact 1 y ms.PixelsPerPointY (by omega) hy1 hyP
  simp only [Nat.cast_zero, Nat.cast_one, zero_add] at X0 X1 Y0 Y1
  rw [interpolateDouble_eq ms x y L _ interpolatedInitDouble_shape]
  rcases vertexRefs_cases ms x y L i hi with
    ⟨rfl, h⟩ | ⟨rfl, h⟩ | ⟨rfl, h⟩ | ⟨rfl, h⟩ | ⟨rfl, _⟩ | ⟨rfl, _⟩ | ⟨rfl, _⟩ | ⟨rfl, _⟩
  · obtain ⟨v, hv, ev⟩ := edge_coordinate_near y ms.PixelsPerPointY L _ _ hPy hyP h (n0 h)
    refine ⟨(x : ℚ) * ms.PixelsPerPointX, v, ?_, ?_⟩
    · simp [Squares.vertexDouble, squareVerticies, X0, hv]
    · simp [ev]
  · obtain ⟨v, hv, ev⟩ := edge_coordinate_near x ms.PixelsPerPointX L _ _ hPx hxP h (n1 h)
    refine ⟨v, (y : ℚ) * ms.PixelsPerPointY, ?_, ?_⟩
    · simp [Squares.vertexDouble, squareVerticies, Y0, hv]
    · simp [ev]
  · obtain ⟨v, hv, ev⟩ := edge_coordinate_near y ms.PixelsPerPointY L _ _ hPy hyP h (n2 h)
    refine ⟨((x : ℚ) + 1) * ms.PixelsPerPointX, v, ?_, ?_⟩
    · simp [Squares.vertexDouble, squareVerticies, X1, hv, add_comm]
    · simp [ev]
  · obtain ⟨v, hv, ev⟩ := edge_coordinate_near x ms.PixelsPerPointX L _ _ hPx hxP h (n3 h)
    refine ⟨v, ((y : ℚ) + 1) * ms.PixelsPerPointY, ?_, ?_⟩
    · simp [Squares.vertexDouble, squareVerticies, Y1, hv, add_comm]
    · simp [ev]
  · exact ⟨(x : ℚ) * ms.PixelsPerPointX, (y : ℚ) * ms.PixelsPerPointY,
      by simp [Squares.vertexDouble, squareVerticies, X0, Y0], by simp⟩
  · exact ⟨((x : ℚ) + 1) * ms.PixelsPerPointX, (y : ℚ) * ms.PixelsPerPointY,
      by simp [Squares.vertexDouble, squareVerticies, X1, Y0, add_comm], by simp⟩
  · exact ⟨((x : ℚ) + 1) * ms.PixelsPerPointX, ((y : ℚ) + 1) * ms.PixelsPerPointY,
      by simp [Squares.vertexDouble, squareVerticies, X1, Y1, add_comm], by simp⟩
  · exact ⟨(x : ℚ) * ms.PixelsPerPointX, ((y : ℚ) + 1) * ms.PixelsPerPointY,
      by simp [Squares.vertexDouble, squareVerticies, X0, Y1, add_comm], by simp⟩

/-- The point at the `double` edge factor interpolates the samples to the
iso-level up to the relative error `2^-51` of the numerator. -/
theorem edgeFactorDouble_interpolates (L a b : ℚ) (h : OppositeSides L a b)
    (hn : EdgeFactorNormal L a b) :
    ∃ t, edgeFactorDouble L a b = some t ∧
      |a + t * (b - a) - L| ≤ Double.pow2 (-51) * |L - a| := by
  obtain ⟨t, ht, et⟩ := edgeFactorDouble_near L a b hn
  refine ⟨t, ht, ?_⟩
  have hex := edgeFactor_interpolates L a b h
  have hne : b - a ≠ 0 := sub_ne_zero.mpr (Ne.symm h.ne)
  have hpos : 0 < |b - a| := abs_pos.mpr hne
  have heq : a + t * (b - a) - L = (t - edgeFactor L a b) * (b - a) := by
    have : L = a + edgeFactor L a b * (b - a) := hex.symm
    conv_lhs => rw [this]
    ring
  rw [heq, abs_mul]
  have hT : edgeFactor L a b * |b - a| = |L - a| := by
    rw [edgeFactor_eq, div_mul_cancel₀ _ (ne_of_gt hpos)]
  calc |t - edgeFactor L a b| * |b - a|
      ≤ Double.pow2 (-51) * edgeFactor L a b * |b - a| :=
        mul_le_mul_of_nonneg_right et (le_of_lt hpos)
    _ = Double.pow2 (-51) * |L - a| := by rw [mul_assoc, hT]

/-- A checked loop whose every step succeeds with the result of the unchecked
step, under an invariant the steps keep, succeeds with the result of the
unchecked loop. -/
theorem foldlM_eq_some {α β : Type} (f : β → α → β) (g : β → α → Option β) (P : β → Prop)
    (l : List α) (b : β) (hb : P b)
    (h : ∀ b a, a ∈ l → P b → g b a = some (f b a) ∧ P (f b a)) :
    l.foldlM g b = some (l.foldl f b) ∧ P (l.foldl f b) := by
  induction l generalizing b with
  | nil => exact ⟨rfl, hb⟩
  | cons a l ih =>
    obtain ⟨h1, h2⟩ := h b a (List.mem_cons_self a l) hb
    have := ih (f b a) h2 (fun b' a' ha' hb' => h b' a' (List.mem_cons_of_mem a ha') hb')
    simp only [List.foldlM_cons, List.foldl_cons, h1, Option.bind_eq_bind, Option.some_bind]
    exact this

/-- The index of a point of the grid does not wrap and is below the number of
samples, when that number fits a `size_t`. -/
theorem index_lt (Rx Ry x y : Nat) (hsz : Rx * Ry < SIZE_MOD) (hx : x < Rx) (hy : y < Ry) :
    ((y * Rx) + x) % SIZE_MOD = (y * Rx) + x ∧ (y * Rx) + x < Rx * Ry := by
  have h : y * Rx + x < Rx * Ry := by
    calc y * Rx + x < y * Rx + Rx := by omega
      _ = (y + 1) * Rx := (Nat.succ_mul y Rx).symm
      _ ≤ Ry * Rx := Nat.mul_le_mul_right Rx hy
      _ = Rx * Ry := Nat.mul_comm _ _
  exact ⟨Nat.mod_eq_of_lt (lt_trans h hsz), h⟩

/-- A read of a point of the grid is in bounds. -/
theorem getPoint?_eq (ms : Squares) (x y : Nat)
    (hlen : ms.mAllPoints.length = ms.ResolutionX * ms.ResolutionY)
    (hsz : ms.ResolutionX * ms.ResolutionY < SIZE_MOD)
    (hx : x < ms.ResolutionX) (hy : y < ms.ResolutionY) :
    ms.getPoint? x y = some (ms.getPoint x y) := by
  obtain ⟨h1, h2⟩ := index_lt ms.ResolutionX ms.ResolutionY x y hsz hx hy
  have h3 : y * ms.ResolutionX + x < ms.mAllPoints.length := by rw [hlen]; exact h2
  simp only [Squares.getPoint?, Squares.getPoint, h1, List.getD_eq_getElem?_getD,
    List.getElem?_eq_getElem h3, Option.getD_some]

/-- The reads of the classification of a cell of the grid are in bounds. -/
theorem getSquareType?_eq (ms : Squares) (x y : Nat) (L : ℚ)
    (hlen : ms.mAllPoints.length = ms.ResolutionX * ms.ResolutionY)
    (hsz : ms.ResolutionX * ms.ResolutionY < SIZE_MOD)
    (hx : x + 1 < ms.ResolutionX) (hy : y + 1 < ms.ResolutionY) :
    ms.getSquareType? x y L = some (ms.getSquareType x y L) := by
  simp only [Squares.getSquareType?, Squares.getSquareType,
    getPoint?_eq ms x y hlen hsz (by omega) (by omega),
    getPoint?_eq ms (x+1) y hlen hsz hx (by omega),
    getPoint?_eq ms (x+1) (y+1) hlen hsz hx hy,
    getPoint?_eq ms x (y+1) hlen hsz (by omega) hy,
    Option.some_bind, Option.map_some']

/-- The writes of `recalculate` are in bounds on a buffer of full length. -/
theorem recalculatePoints?_eq (Rx Ry : Nat) (gen : Nat → Nat → ℚ) (pts : List ℚ)
    (hlen : pts.length = Rx * Ry) (hsz : Rx * Ry < SIZE_MOD) :
    recalculatePoints? Rx Ry gen pts = some (recalculatePoints Rx Ry gen pts) := by
  have hinner : ∀ (pts : List ℚ) (y : Nat), y ∈ List.range Ry → pts.length = Rx * Ry →
      (List.range Rx).foldlM (fun pts x =>
        if ((y * Rx) + x) % SIZE_MOD < pts.length then
          some (pts.set (((y * Rx) + x) % SIZE_MOD) (gen x y))
        else none) pts =
      some ((List.range Rx).foldl (fun pts x => pts.set ((y * Rx) + x) (gen x y)) pts) ∧
      ((List.range Rx).foldl (fun pts x => pts.set ((y * Rx) + x) (gen x y)) pts).length =
        Rx * Ry := by
    intro pts y hy hl
    apply foldlM_eq_some _ _ (fun pts : List ℚ => pts.length = Rx * Ry) _ _ hl
    intro b x hx hb
    obtain ⟨h1, h2⟩ := index_lt Rx Ry x y hsz (List.mem_range.mp hx) (List.mem_range.mp hy)
    simp only [h1, hb, h2, if_true, List.length_set, and_self]
  exact (foldlM_eq_some _ _ (fun pts : List ℚ => pts.length = Rx * Ry) _ _ hlen
    (fun b y hy hb => hinner b y hy hb)).1

/-- On an empty buffer the first write of `recalculate` is out of bounds. -/
theorem recalculatePoints?_nil (Rx Ry : Nat) (gen : Nat → Nat → ℚ)
    (hx : 0 < Rx) (hy : 0 < Ry) : recalculatePoints? Rx Ry gen [] = none := by
  obtain ⟨n, rfl⟩ : ∃ n, Rx = n + 1 := ⟨Rx - 1, by omega⟩
  obtain ⟨k, rfl⟩ : ∃ k, Ry = k + 1 := ⟨Ry - 1, by omega⟩
  simp [recalculatePoints?, List.range_succ_eq_map, List.foldlM_cons]

/-- A checked assignment to a component of an entry of `interpolated` below
its length is the assignment. -/
theorem setGet?_eq (arr : List (ℚ × ℚ)) (i : Nat) (v : ℚ) (h : i < arr.length) :
    setGet0? arr i v = some (setGet0 arr i v) ∧ setGet1? arr i v = some (setGet1 arr i v) := by
  simp [setGet0?, setGet1?, setGet0, setGet1, List.getElem?_eq_getElem h]

/-- The assignments to `interpolated` keep its length. -/
theorem setGet_length (arr : List (ℚ × ℚ)) (i : Nat) (v : ℚ) :
    (setGet0 arr i v).length = arr.length ∧ (setGet1 arr i v).length = arr.length := by
  simp [setGet0, setGet1]

/-- The reads and writes of the four assignments to `interpolated` are in
bounds for a cell of the grid. -/
theorem interpolate?_eq (ms : Squares) (x y : Nat) (L : ℚ) (arr : List (ℚ × ℚ))
    (harr : arr.length = 8)
    (hlen : ms.mAllPoints.length = ms.ResolutionX * ms.ResolutionY)
    (hsz : ms.ResolutionX * ms.ResolutionY < SIZE_MOD)
    (hx : x + 1 < ms.ResolutionX) (hy : y + 1 < ms.ResolutionY) :
    ms.interpolate? x y L arr = some (ms.interpolate x y L arr) := by
  simp only [Squares.interpolate?, Squares.interpolate,
    getPoint?_eq ms x y hlen hsz (by omega) (by omega),
    getPoint?_eq ms (x+1) y hlen hsz hx (by omega),
    getPoint?_eq ms (x+1) (y+1) hlen hsz hx hy,
    getPoint?_eq ms x (y+1) hlen hsz (by omega) hy, Option.some_bind]
  rw [(setGet?_eq arr 0 _ (by omega)).2, Option.some_bind,
    (setGet?_eq _ 1 _ (by rw [(setGet_length _ _ _).2]; omega)).1, Option.some_bind,
    (setGet?_eq _ 2 _ (by rw [(setGet_length _ _ _).1, (setGet_length _ _ _).2]; omega)).2,
    Option.some_bind,
    (setGet?_eq _ 3 _ (by
      rw [(setGet_length _ _ _).2, (setGet_length _ _ _).1, (setGet_length _ _ _).2]; omega)).1]

/-- The subscripts of the row loop are in bounds when the entries of the row
before its `-1` are vertex references 0 to 7 and `interpolated` has its eight
entries. -/
theorem emitRow?_eq (ms : Squares) (x y : Nat) (L : ℚ) (row : List Int) (s : RenderState)
    (hrow : ∀ i ∈ row.takeWhile (fun i => i != -1), 0 ≤ i ∧ i ≤ 7)
    (hs : s.interpolated.length = 8) :
    ms.emitRow? x y L row s = some (ms.emitRow x y L row s) := by
  induction row generalizing s with
  | nil => simp [Squares.emitRow?, Squares.emitRow]
  | cons i rest ih =>
    by_cases hi : i = -1
    · simp [Squares.emitRow?, Squares.emitRow, hi]
    · have hne : (i != -1) = true := by simpa using hi
      have hmem : i ∈ (i :: rest).takeWhile (fun i => i != -1) := by
        simp [List.takeWhile_cons, hne]
      obtain ⟨h0, h7⟩ := hrow i hmem
      have hn : i.toNat < 8 := by omega
      have hsv : i.toNat < squareVerticies.length := hn
      have hip : i.toNat < s.interpolated.length := by rw [hs]; exact hn
      rw [Squares.emitRow?, Squares.emitRow, if_neg hi, if_neg hi, if_neg (not_lt.mpr h0),
        List.getElem?_eq_getElem hsv, List.getElem?_eq_getElem hip]
      simp only [Option.some_bind, List.getD_eq_getElem?_getD, List.getElem?_eq_getElem hsv,
        List.getElem?_eq_getElem hip, Option.getD_some]
      exact ih _ (fun j hj => hrow j (by
        simp only [List.takeWhile_cons, hne, if_true, List.mem_cons]
        exact Or.inr hj)) hs

/-- The subscripts of the body of the cell loop of `render` are in bounds for
a cell of the grid, and the body keeps the eight entries of `interpolated`. -/
theorem renderCell?_eq (ms : Squares) (L : ℚ) (y x : Nat) (s : RenderState)
    (hs : s.interpolated.length = 8)
    (hlen : ms.mAllPoints.length = ms.ResolutionX * ms.ResolutionY)
    (hsz : ms.ResolutionX * ms.ResolutionY < SIZE_MOD)
    (hx : x + 1 < ms.ResolutionX) (hy : y + 1 < ms.ResolutionY) :
    ms.renderCell? L y x s = some (ms.renderCell L y x s) ∧
    (ms.renderCell L y x s).interpolated.length = 8 := by
  have hc : ms.getSquareType x y L < squareIndicies.length :=
    (getSquareType_testBit ms x y L).1
  have hrows := (squareIndicies_rows (ms.getSquareType x y L) hc).2.2.2
  have hi : (ms.interpolate x y L s.interpolated).length = 8 := by
    rw [interpolate_length, hs]
  refine ⟨?_, ?_⟩
  · simp only [Squares.renderCell?, Squares.renderCell,
      getSquareType?_eq ms x y L hlen hsz hx hy,
      interpolate?_eq ms x y L s.interpolated hs hlen hsz hx hy, Option.some_bind,
      List.getElem?_eq_getElem hc, List.getD_eq_getElem?_getD, Option.getD_some]
    refine emitRow?_eq ms x y L _ _ (fun i hmem => hrows i ?_) hi
    simpa only [vertexRefs, List.getD_eq_getElem?_getD, List.getElem?_eq_getElem hc,
      Option.getD_some] using hmem
  · simp only [Squares.renderCell, emitRow_eq]
    exact hi

/-- With both resolutions at least 1 the cell loops visit cells of the grid
only. -/
theorem sizePred_range (n x : Nat) (hn : 1 ≤ n) (hx : x ∈ List.range (sizePred n)) :
    x + 1 < n := by
  have h := List.mem_range.mp hx
  unfold sizePred at h
  rw [if_neg (by omega)] at h
  omega

/-- With both resolutions at least 1 and a buffer of `ResolutionX *
ResolutionY` samples, a number below `2^64`, every subscript of
`countVerticies` is in bounds. -/
theorem countVerticies?_eq (ms : Squares) (contour : ℚ)
    (hx : 1 ≤ ms.ResolutionX) (hy : 1 ≤ ms.ResolutionY)
    (hlen : ms.mAllPoints.length = ms.ResolutionX * ms.ResolutionY)
    (hsz : ms.ResolutionX * ms.ResolutionY < SIZE_MOD) :
    ms.countVerticies? contour = some (ms.countVerticies contour) := by
  refine (foldlM_eq_some _ _ (fun _ => True) _ _ trivial (fun b y hym _ => ⟨?_, trivial⟩)).1
  refine (foldlM_eq_some _ _ (fun _ => True) _ _ trivial (fun b x hxm _ => ⟨?_, trivial⟩)).1
  rw [getSquareType?_eq ms x y contour hlen hsz (sizePred_range _ _ hx hxm)
    (sizePred_range _ _ hy hym)]
  rfl

/-- With both resolutions at least 1 and a buffer of `ResolutionX *
ResolutionY` samples, a number below `2^64`, every subscript of `render` is in
bounds. -/
theorem render?_eq (ms : Squares) (isoLevels : List ℚ)
    (hx : 1 ≤ ms.ResolutionX) (hy : 1 ≤ ms.ResolutionY)
    (hlen : ms.mAllPoints.length = ms.ResolutionX * ms.ResolutionY)
    (hsz : ms.ResolutionX * ms.ResolutionY < SIZE_MOD) :
    ms.render? isoLevels = some (ms.render isoLevels) := by
  have h := (foldlM_eq_some
    (fun s isoLevel =>
      (List.range (sizePred ms.ResolutionY)).foldl (fun s y =>
        (List.range (sizePred ms.ResolutionX)).foldl (fun s x =>
          ms.renderCell isoLevel y x s) s) s)
    (fun s isoLevel =>
      (List.range (sizePred ms.ResolutionY)).foldlM (fun s y =>
        (List.range (sizePred ms.ResolutionX)).foldlM (fun s x =>
          ms.renderCell? isoLevel y x s) s) s)
    (fun s : RenderState => s.interpolated.length = 8) isoLevels
    { calls := [SinkCall.resetVertices 0], currentVertex := 0,
      interpolated := interpolatedInit } rfl
    (fun s L _ hs =>
      foldlM_eq_some _ _ (fun s : RenderState => s.interpolated.length = 8) _ _ hs
        (fun s y hym hs =>
          foldlM_eq_some _ _ (fun s : RenderState => s.interpolated.length = 8) _ _ hs
            (fun s x hxm hs =>
              renderCell?_eq ms L y x s hs hlen hsz (sizePred_range _ _ hx hxm)
                (sizePred_range _ _ hy hym))))).1
  simp only [Squares.render?, Squares.render, h, Option.map_some']

/-- The unchecked writes of `recalculate` keep the length of the buffer. -/
theorem recalculatePoints_length (Rx Ry : Nat) (gen : Nat → Nat → ℚ) (pts : List ℚ) :
    (recalculatePoints Rx Ry gen pts).length = pts.length :=
  (recalculatePoints_spec Rx gen pts Ry).1

/-! ## The claims -/

/-- C1 (the code departs from the claim): on the 2x2 grid whose only sample
above the iso-level `1/2` is the one at `(0, 0)`, the single cell has code 1,
`countVerticies(1/2)` returns 2 and `render({1/2})` emits, and returns, 3
vertices: the count does not agree with the number of emitted vertices.  On
the `TestPattern` grid with iso-level 0.5 the two numbers are 26 and 81. -/
theorem countVerticies_render_mismatch :
    singleCornerGrid.mAllPoints = [1, 0, 0, 0] ∧
    singleCornerGrid.getSquareType 0 0 (1/2) = 1 ∧
    singleCornerGrid.countVerticies (1/2) = 2 ∧
    (singleCornerGrid.render [1/2]).2 = 3 ∧
    (singleCornerGrid.render [1/2]).1.length = 1 + 3 ∧
    (testGrid 4 4).countVerticies 0.5 = 26 ∧
    ((testGrid 4 4).render [0.5]).2 = 81 := by
  decide!

/-- C2 (as stated, refuted): on the 2x2 grid whose samples are all `1`, with
iso-level `0`, the single cell has code 15, the table row of code 15 lists six
vertex references, and `render` emits six vertices for the cell. -/
theorem code15_emits_six_vertices :
    uniformGrid.getSquareType 0 0 0 = 15 ∧
    (vertexRefs 15).length = 6 ∧
    (uniformGrid.cellCalls 0 0 0).length = 6 ∧
    (uniformGrid.render [0]).2 = 6 := by
  decide!

/-- C2 (amended): a cell whose code is 0 contributes no vertices to the output
of `render`, the row of code 0 being empty; a cell whose code is 15 contributes
the six vertices of the row `4, 7, 5, 5, 7, 6`, the corners of the two
triangles that cover the whole cell, at their pixel positions. -/
theorem trivial_cell_calls (ms : Squares) (x y : Nat) (L : ℚ) :
    vertexRefs 0 = [] ∧ vertexRefs 15 = [4, 7, 5, 5, 7, 6] ∧
    (ms.getSquareType x y L = 0 → ms.cellCalls L y x = []) ∧
    (ms.getSquareType x y L = 15 → ms.cellCalls L y x =
      [SinkCall.addVertex L (x * ms.PixelsPerPointX) (y * ms.PixelsPerPointY),
       SinkCall.addVertex L (x * ms.PixelsPerPointX) ((y + 1) * ms.PixelsPerPointY),
       SinkCall.addVertex L ((x + 1) * ms.PixelsPerPointX) (y * ms.PixelsPerPointY),
       SinkCall.addVertex L ((x + 1) * ms.PixelsPerPointX) (y * ms.PixelsPerPointY),
       SinkCall.addVertex L (x * ms.PixelsPerPointX) ((y + 1) * ms.PixelsPerPointY),
       SinkCall.addVertex L ((x + 1) * ms.PixelsPerPointX) ((y + 1) * ms.PixelsPerPointY)]) := by
  have h0 : vertexRefs 0 = [] := by decide
  have h15 : vertexRefs 15 = [4, 7, 5, 5, 7, 6] := by decide
  refine ⟨h0, h15, fun h => ?_, fun h => ?_⟩
  · rw [cellCalls_eq, h, h0]; rfl
  · rw [cellCalls_eq, h, h15, interpolate_eq _ _ _ _ _ interpolatedInit_shape]
    simp [Squares.vertexCall, squareVerticies, add_comm]

/-- C2 (amended), at concrete inputs: the cell of the all-ones 2x2 grid has
code 0 at iso-level 2 and emits nothing, and code 15 at iso-level 0 and emits
the six corner vertices. -/
theorem trivial_cell_calls_witness :
    (uniformGrid.getSquareType 0 0 2 = 0 ∧ uniformGrid.cellCalls 2 0 0 = []) ∧
    (uniformGrid.getSquareType 0 0 0 = 15 ∧ uniformGrid.cellCalls 0 0 0 =
      [SinkCall.addVertex 0 ((0 : ℕ) * uniformGrid.PixelsPerPointX) ((0 : ℕ) * uniformGrid.PixelsPerPointY),
       SinkCall.addVertex 0 ((0 : ℕ) * uniformGrid.PixelsPerPointX) (((0 : ℕ) + 1) * uniformGrid.PixelsPerPointY),
       SinkCall.addVertex 0 (((0 : ℕ) + 1) * uniformGrid.PixelsPerPointX) ((0 : ℕ) * uniformGrid.PixelsPerPointY),
       SinkCall.addVertex 0 (((0 : ℕ) + 1) * uniformGrid.PixelsPerPointX) ((0 : ℕ) * uniformGrid.PixelsPerPointY),
       SinkCall.addVertex 0 ((0 : ℕ) * uniformGrid.PixelsPerPointX) (((0 : ℕ) + 1) * uniformGrid.PixelsPerPointY),
       SinkCall.addVertex 0 (((0 : ℕ) + 1) * uniformGrid.PixelsPerPointX) (((0 : ℕ) + 1) * uniformGrid.PixelsPerPointY)]) :=
  ⟨⟨by decide!, (trivial_cell_calls uniformGrid 0 0 2).2.2.1 (by decide!)⟩,
   ⟨by decide!, (trivial_cell_calls uniformGrid 0 0 0).2.2.2 (by decide!)⟩⟩

/-- C3: for every grid, cell `(x, y)` and iso-level `L`, `getSquareType(x, y, L)`
is below 16; its bit 0 is set iff `getPoint(x, y) > L`, bit 1 iff
`getPoint(x+1, y) > L`, bit 2 iff `getPoint(x+1, y+1) > L`, bit 3 iff
`getPoint(x, y+1) > L`; the comparison is strict, so a sample equal to `L`
leaves its bit clear. -/
theorem getSquareType_bits (ms : Squares) (x y : Nat) (L : ℚ) :
    ms.getSquareType x y L < 16 ∧
    ((ms.getSquareType x y L).testBit 0 = true ↔ ms.getPoint x y > L) ∧
    ((ms.getSquareType x y L).testBit 1 = true ↔ ms.getPoint (x+1) y > L) ∧
    ((ms.getSquareType x y L).testBit 2 = true ↔ ms.getPoint (x+1) (y+1) > L) ∧
    ((ms.getSquareType x y L).testBit 3 = true ↔ ms.getPoint x (y+1) > L) ∧
    (ms.getPoint x y = L → (ms.getSquareType x y L).testBit 0 = false) ∧
    (ms.getPoint (x+1) y = L → (ms.getSquareType x y L).testBit 1 = false) ∧
    (ms.getPoint (x+1) (y+1) = L → (ms.getSquareType x y L).testBit 2 = false) ∧
    (ms.getPoint x (y+1) = L → (ms.getSquareType x y L).testBit 3 = false) := by
  have key : ms.getSquareType x y L < 16 ∧
      ((ms.getSquareType x y L).testBit 0 = true ↔ ms.getPoint x y > L) ∧
      ((ms.getSquareType x y L).testBit 1 = true ↔ ms.getPoint (x+1) y > L) ∧
      ((ms.getSquareType x y L).testBit 2 = true ↔ ms.getPoint (x+1) (y+1) > L) ∧
      ((ms.getSquareType x y L).testBit 3 = true ↔ ms.getPoint x (y+1) > L) := by
    unfold Squares.getSquareType
    by_cases h0 : ms.getPoint x y > L <;> by_cases h1 : ms.getPoint (x+1) y > L <;>
    by_cases h2 : ms.getPoint (x+1) (y+1) > L <;> by_cases h3 : ms.getPoint x (y+1) > L <;>
    simp only [h0, h1, h2, h3, if_true, if_false] <;> decide
  obtain ⟨hlt, b0, b1, b2, b3⟩ := key
  refine ⟨hlt, b0, b1, b2, b3, fun h => ?_, fun h => ?_, fun h => ?_, fun h => ?_⟩
  · exact Bool.eq_false_iff.mpr (fun hb => absurd (b0.mp hb) (by rw [h]; exact lt_irrefl L))
  · exact Bool.eq_false_iff.mpr (fun hb => absurd (b1.mp hb) (by rw [h]; exact lt_irrefl L))
  · exact Bool.eq_false_iff.mpr (fun hb => absurd (b2.mp hb) (by rw [h]; exact lt_irrefl L))
  · exact Bool.eq_false_iff.mpr (fun hb => absurd (b3.mp hb) (by rw [h]; exact lt_irrefl L))

/-- C3, at a concrete input: in the cell of the 2x2 grid whose samples are all
`1`, with iso-level `1`, every sample equals the iso-level and every bit of
the code is clear. -/
theorem getSquareType_bits_witness :
    uniformGrid.getPoint 0 0 = 1 ∧ (uniformGrid.getSquareType 0 0 1).testBit 0 = false :=
  ⟨by decide!, (getSquareType_bits uniformGrid 0 0 1).2.2.2.2.2.1 (by decide!)⟩

/-- C4: on the 5x5 `TestPattern` grid after construction (which runs
`recalculate()`), for every pixel scale, the cell at `(1, 1)` has the corner
samples 0.3, 0.6, 0.9, 0.7 in bit order, `getSquareType(1, 1, 0.5)` is 14,
row 14 lists the references 5, 1, 6, 6, 1, 0, 0, 7, 6, and the calls `render`
makes for that cell are the nine vertices (2, 1), (1+2/3, 1), (2, 2), (2, 2),
(1+2/3, 1), (1, 1.5), (1, 1.5), (1, 2), (2, 2) in grid units, scaled by the
pixels-per-point factors, each with iso-level 0.5. -/
theorem testPattern_cell_1_1 (Px Py : Nat) :
    (testGrid Px Py).getPoint 1 1 = 0.3 ∧ (testGrid Px Py).getPoint 2 1 = 0.6 ∧
    (testGrid Px Py).getPoint 2 2 = 0.9 ∧ (testGrid Px Py).getPoint 1 2 = 0.7 ∧
    (testGrid Px Py).getSquareType 1 1 0.5 = 14 ∧
    vertexRefs 14 = [5, 1, 6, 6, 1, 0, 0, 7, 6] ∧
    (testGrid Px Py).cellCalls 0.5 1 1 =
      [SinkCall.addVertex 0.5 (2 * Px) (1 * Py),
       SinkCall.addVertex 0.5 ((1 + 2/3) * Px) (1 * Py),
       SinkCall.addVertex 0.5 (2 * Px) (2 * Py),
       SinkCall.addVertex 0.5 (2 * Px) (2 * Py),
       SinkCall.addVertex 0.5 ((1 + 2/3) * Px) (1 * Py),
       SinkCall.addVertex 0.5 (1 * Px) (1.5 * Py),
       SinkCall.addVertex 0.5 (1 * Px) (1.5 * Py),
       SinkCall.addVertex 0.5 (1 * Px) (2 * Py),
       SinkCall.addVertex 0.5 (2 * Px) (2 * Py)] ∧
    ∃ after : List SinkCall,
      ((testGrid Px Py).render [0.5]).1 =
        SinkCall.resetVertices 0 ::
          ((testGrid Px Py).cellCalls 0.5 0 0 ++ (testGrid Px Py).cellCalls 0.5 0 1 ++
           (testGrid Px Py).cellCalls 0.5 0 2 ++ (testGrid Px Py).cellCalls 0.5 0 3 ++
           (testGrid Px Py).cellCalls 0.5 1 0)
          ++ (testGrid Px Py).cellCalls 0.5 1 1 ++ after := by
  have hp : ∀ x y, x < 5 → y < 5 →
      (testGrid Px Py).getPoint x y = TestPattern.mTestPattern.getD (y * 5 + x) 0 :=
    fun x y hx hy => new_getPoint 5 5 Px Py TestPattern.getPoint x y (by decide) hx hy
  have h11 : (testGrid Px Py).getPoint 1 1 = 0.3 := by
    rw [hp _ _ (by decide) (by decide)]; norm_num [TestPattern.mTestPattern]
  have h21 : (testGrid Px Py).getPoint 2 1 = 0.6 := by
    rw [hp _ _ (by decide) (by decide)]; norm_num [TestPattern.mTestPattern]
  have h22 : (testGrid Px Py).getPoint 2 2 = 0.9 := by
    rw [hp _ _ (by decide) (by decide)]; norm_num [TestPattern.mTestPattern]
  have h12 : (testGrid Px Py).getPoint 1 2 = 0.7 := by
    rw [hp _ _ (by decide) (by decide)]; norm_num [TestPattern.mTestPattern]
  have hcode : (testGrid Px Py).getSquareType 1 1 0.5 = 14 := by
    simp only [Squares.getSquareType, h11, h21, h22, h12]
    norm_num
    decide
  have hrefs : vertexRefs 14 = [5, 1, 6, 6, 1, 0, 0, 7, 6] := by decide
  refine ⟨h11, h21, h22, h12, hcode, hrefs, ?_, ?_⟩
  · rw [cellCalls_eq, hcode, interpolate_eq _ _ _ _ _ interpolatedInit_shape]
    simp only [h11, h21, h22, h12]
    have hPx : (testGrid Px Py).PixelsPerPointX = Px := rfl
    have hPy : (testGrid Px Py).PixelsPerPointY = Py := rfl
    rw [hrefs]
    simp [Squares.vertexCall, squareVerticies, hPx, hPy]
    have e1 : |((0.5 : ℚ) - 0.3) / (0.6 - 0.3)| = 2 / 3 := by
      rw [abs_of_pos (by norm_num)]; norm_num
    have e2 : |((0.5 : ℚ) - 0.3) / (0.7 - 0.3)| = 1 / 2 := by
      rw [abs_of_pos (by norm_num)]; norm_num
    rw [e1, e2]
    norm_num
    constructor <;> ring
  · obtain ⟨after, h⟩ := render_cell_position (testGrid Px Py) 0.5 1 1
      (by decide : 1 < sizePred 5) (by decide : 1 < sizePred 5)
    refine ⟨after, ?_⟩
    rw [h]
    have hx : sizePred (testGrid Px Py).ResolutionX = 4 := rfl
    simp [hx, List.range_succ]

/-- C5: for every grid and list of iso-levels, the calls one `render` makes on
the sink are one `resetVertices(0)` followed by `addVertex` calls only, and the
value `render` returns is the number of those `addVertex` calls. -/
theorem render_sink_protocol (ms : Squares) (isoLevels : List ℚ) :
    ∃ vertices : List (ℚ × ℚ × ℚ),
      (ms.render isoLevels).1 =
        SinkCall.resetVertices 0 ::
          vertices.map (fun v => SinkCall.addVertex v.1 v.2.1 v.2.2) ∧
      (ms.render isoLevels).2 = vertices.length := by
  obtain ⟨vs, hvs⟩ := exists_vertices (isoLevels.flatMap ms.levelCalls) (by
    intro c hc
    rw [List.mem_flatMap] at hc
    obtain ⟨L, -, hc⟩ := hc
    exact ⟨L, levelCalls_addVertex ms L c hc⟩)
  refine ⟨vs, ?_, ?_⟩
  · rw [render_eq, hvs]
  · rw [render_eq, hvs, List.length_map]

/-- C6: for every grid and iso-level lists `A` and `B`, the vertex calls of
`render(A ++ B)` are those of `render(A)` followed by those of `render(B)`, and
the returned count is the sum of the two counts; the vertex calls of a render
are the concatenation, in list order, of the passes of its iso-levels; every
vertex of the pass of `L` carries the iso-level `L`; and one pass visits the
cells in row-major order, `y` outer and `x` inner. -/
theorem render_append (ms : Squares) (A B : List ℚ) :
    (ms.render (A ++ B)).1.tail = (ms.render A).1.tail ++ (ms.render B).1.tail ∧
    (ms.render (A ++ B)).2 = (ms.render A).2 + (ms.render B).2 ∧
    (ms.render A).1.tail = A.flatMap (fun L => (ms.render [L]).1.tail) ∧
    (∀ L : ℚ, ∀ c ∈ (ms.render [L]).1.tail, ∃ vx vy : ℚ, c = SinkCall.addVertex L vx vy) ∧
    (∀ L : ℚ, (ms.render [L]).1.tail =
      (List.range (sizePred ms.ResolutionY)).flatMap (fun y =>
        (List.range (sizePred ms.ResolutionX)).flatMap (fun x => ms.cellCalls L y x))) := by
  have hone : ∀ L : ℚ, (ms.render [L]).1.tail = ms.levelCalls L := by
    intro L; rw [render_eq]; simp
  refine ⟨?_, ?_, ?_, ?_, ?_⟩
  · simp only [render_eq, List.tail_cons, List.flatMap_append]
  · simp only [render_eq, List.flatMap_append, List.length_append]
  · simp only [hone]; rw [render_eq]; rfl
  · intro L c hc
    rw [hone] at hc
    exact levelCalls_addVertex ms L c hc
  · intro L; rw [hone]; rfl

/-- C7 (as stated, refuted): for `MarchingSquares<2^63, 2, 1, 1>` the
product of the resolutions is `2^64` and the constant `ArraySize` is 0: the
buffer the constructor creates is empty, the store of its `recalculate()` for
the point `(0, 0)`, at index `0 * ResolutionX + 0`, is out of bounds, and the
buffer has no sample: its length is not `ResolutionX * ResolutionY`, and
nothing is stored at index 0, `recalculate()` run once more included. -/
theorem buffer_length_wraps :
    (2 : Nat) ^ 63 * 2 = SIZE_MOD ∧ ArraySize (2 ^ 63) 2 = 0 ∧
    List.replicate (ArraySize (2 ^ 63) 2) (0 : ℚ) = [] ∧
    Squares.new? (2 ^ 63) 2 1 1 (fun _ _ => 1) = none ∧
    (Squares.new (2 ^ 63) 2 1 1 (fun _ _ => 1)).mAllPoints.length = 0 ∧
    (Squares.new (2 ^ 63) 2 1 1 (fun _ _ => 1)).mAllPoints.length ≠ 2 ^ 63 * 2 ∧
    (Squares.new (2 ^ 63) 2 1 1 (fun _ _ => 1)).mAllPoints[(0 * 2 ^ 63) + 0]? = none ∧
    (Squares.new (2 ^ 63) 2 1 1 (fun _ _ => 1)).recalculate.mAllPoints[(0 * 2 ^ 63) + 0]?
      = none := by
  have h0 : ArraySize (2 ^ 63) 2 = 0 := by decide
  have hl : (Squares.new (2 ^ 63) 2 1 1 (fun _ _ => 1)).mAllPoints.length = 0 := by
    simp only [Squares.new, Squares.recalculate, recalculatePoints_length, h0,
      List.replicate_zero, List.length_nil]
  have hl2 : (Squares.new (2 ^ 63) 2 1 1 (fun _ _ => 1)).recalculate.mAllPoints.length = 0 := by
    simp only [Squares.recalculate, recalculatePoints_length]
    exact hl
  refine ⟨by decide, h0, by rw [h0, List.replicate_zero], ?_, hl, ?_, ?_, ?_⟩
  · simp only [Squares.new?, Squares.recalculate?, h0, List.replicate_zero,
      recalculatePoints?_nil _ _ _ (show 0 < 2 ^ 63 by decide) (show 0 < 2 by decide),
      Option.map_none']
  · rw [hl]; decide
  · exact List.getElem?_eq_none (by rw [hl]; exact Nat.zero_le _)
  · exact List.getElem?_eq_none (by rw [hl2]; exact Nat.zero_le _)

/-- C7 (amended): whenever the product `ResolutionX * ResolutionY` is below
`2^64`, the constructor leaves a buffer of `ResolutionX * ResolutionY` samples;
and whenever the buffer has that length, after `recalculate()` it still has,
the template parameters and the bound generator are unchanged, and for every
`x < ResolutionX` and `y < ResolutionY` the sample stored at index
`y * ResolutionX + x`, which is what `getPoint(x, y)` returns, is the value the
generator returned for `getPoint(x, y)`. -/
theorem recalculate_stores_samples (ms : Squares)
    (hsz : ms.ResolutionX * ms.ResolutionY < SIZE_MOD)
    (hlen : ms.mAllPoints.length = ms.ResolutionX * ms.ResolutionY) :
    (Squares.new ms.ResolutionX ms.ResolutionY ms.PixelsPerPointX ms.PixelsPerPointY
        ms.mGenerator).mAllPoints.length = ms.ResolutionX * ms.ResolutionY ∧
    ms.recalculate.mAllPoints.length = ms.ResolutionX * ms.ResolutionY ∧
    ms.recalculate.ResolutionX = ms.ResolutionX ∧
    ms.recalculate.ResolutionY = ms.ResolutionY ∧
    ms.recalculate.mGenerator = ms.mGenerator ∧
    ∀ x y : Nat, x < ms.ResolutionX → y < ms.ResolutionY →
      ms.recalculate.mAllPoints[(y * ms.ResolutionX) + x]? = some (ms.mGenerator x y) ∧
      ms.recalculate.getPoint x y = ms.mGenerator x y := by
  refine ⟨?_, ?_, rfl, rfl, rfl, fun x y hx hy => ?_⟩
  · simp only [Squares.new, Squares.recalculate]
    rw [(recalculatePoints_spec _ _ _ _).1, List.length_replicate, ArraySize_eq _ _ hsz]
  · simp only [Squares.recalculate]
    rw [(recalculatePoints_spec _ _ _ _).1, hlen]
  · have h := recalculatePoints_getPoint ms.ResolutionX ms.ResolutionY ms.mGenerator
      ms.mAllPoints hlen x y hx hy
    refine ⟨h, ?_⟩
    simp only [Squares.getPoint, Squares.recalculate, List.getD_eq_getElem?_getD, h]
    rfl

/-- C7 (amended), at a concrete input: the 2x2 grid sampled from
`gen(x, y) = x`. -/
theorem recalculate_stores_samples_witness :
    (rampGrid.ResolutionX * rampGrid.ResolutionY < SIZE_MOD ∧
      rampGrid.mAllPoints.length = rampGrid.ResolutionX * rampGrid.ResolutionY) ∧
    rampGrid.recalculate.mAllPoints.length = rampGrid.ResolutionX * rampGrid.ResolutionY ∧
    rampGrid.recalculate.mAllPoints[(1 * rampGrid.ResolutionX) + 1]?
      = some (rampGrid.mGenerator 1 1) ∧
    rampGrid.recalculate.getPoint 1 1 = rampGrid.mGenerator 1 1 :=
  have h := recalculate_stores_samples rampGrid (by decide) (by decide)
  ⟨⟨by decide, by decide⟩, h.2.1, h.2.2.2.2.2 1 1 (by decide) (by decide)⟩

/-- C8: for every classification code `c` from 1 to 14 the number of vertex
references the table lists for `c` before the `-1` terminator is `3 * t` for
a number of triangles `t` between 1 and 4; for the saddle codes 5 and 10 it is
6, twice the 3 references listed for each single-triangle code 1, 2, 4, 8. -/
theorem vertexRefs_length (c : Nat) (h1 : 1 ≤ c) (h14 : c ≤ 14) :
    (∃ t : Nat, 1 ≤ t ∧ t ≤ 4 ∧ (vertexRefs c).length = 3 * t) ∧
    (vertexRefs 5).length = 6 ∧ (vertexRefs 10).length = 6 ∧
    (∀ s ∈ [1, 2, 4, 8], (vertexRefs s).length = 3 ∧
      (vertexRefs 5).length = 2 * (vertexRefs s).length ∧
      (vertexRefs 10).length = 2 * (vertexRefs s).length) := by
  refine ⟨?_, by decide, by decide, by decide⟩
  interval_cases c <;>
    first
    | exact ⟨1, by decide⟩
    | exact ⟨2, by decide⟩
    | exact ⟨3, by decide⟩

/-- C8, at a concrete input: code 7 lists nine references, three triangles. -/
theorem vertexRefs_length_witness :
    (1 ≤ 7 ∧ 7 ≤ 14) ∧ ∃ t : Nat, 1 ≤ t ∧ t ≤ 4 ∧ (vertexRefs 7).length = 3 * t :=
  ⟨by decide, (vertexRefs_length 7 (by decide) (by decide)).1⟩

/-- C10 (as stated, refuted): with the six lanes of the program and the frame
counter at its largest `size_t` value, six consecutive frames select the lanes
3, 0, 1, 2, 3, 4: lane 3 twice and lane 5 not at all. -/
theorem lanes_at_counter_wrap :
    consumedLanes 6 6 (SIZE_MOD - 1) = [3, 0, 1, 2, 3, 4] ∧
    ¬ (consumedLanes 6 6 (SIZE_MOD - 1)).Perm (List.range 6) := by
  decide

/-- C10 (amended): for every lane count `N` and every starting value of the
`size_t` frame counter such that the counter does not wrap within the window,
or such that `N` divides `2^64`, the lane indices selected by `N` consecutive
frames are a permutation of `0..N-1`: each lane index appears exactly once. -/
theorem consumedLanes_round_robin (N frameCount : Nat) (hfc : frameCount < SIZE_MOD)
    (h : frameCount + N ≤ SIZE_MOD ∨ N ∣ SIZE_MOD) :
    (consumedLanes N N frameCount).Perm (List.range N) ∧
    ∀ lane, lane < N → (consumedLanes N N frameCount).count lane = 1 := by
  have hperm : (consumedLanes N N frameCount).Perm (List.range N) := by
    apply consumedLanes_perm N frameCount hfc
    intro i hi
    rcases h with h | h
    · rw [Nat.mod_eq_of_lt (by omega : frameCount + i < SIZE_MOD)]
    · exact Nat.mod_mod_of_dvd _ h
  refine ⟨hperm, fun lane hlane => ?_⟩
  rw [hperm.count_eq]
  exact List.count_eq_one_of_mem (List.nodup_range N) (List.mem_range.mpr hlane)

/-- C10 (amended), at a concrete input: six lanes, the counter starting at 0. -/
theorem consumedLanes_round_robin_witness :
    (0 < SIZE_MOD ∧ (0 + 6 ≤ SIZE_MOD ∨ 6 ∣ SIZE_MOD)) ∧
    (consumedLanes 6 6 0).Perm (List.range 6) :=
  ⟨⟨by decide, Or.inl (by decide)⟩,
   (consumedLanes_round_robin 6 0 (by decide) (Or.inl (by decide))).1⟩

/-- C11 (as stated, refuted): three lanes with the step size `S`, the `double`
nearest to 0.0005, under the sample schedule, every lane having read its
assigned `threadId`: the four frames drawn come from the lanes 0, 1, 2, 0
and were sampled at `1`, `1.0005`, `1.001`, `1.0015` as `double`s, and the
frames 0 and 1 do not differ by `S`: the sum `1 + S` is rounded.  With the
step size `1/2048`, in a launch in which the thread of lane 1 read its
`threadId` before the launch loop assigned it, the passes of lane 1 sample at
`1` and `1 + 3S`, not at `1 + S` and `1 + 4S`, and the frames 0 and 1 are both
sampled at `1`.  And the consumer's counter wraps: after the frame number
`2^64 - 1` it selects lane 0, while `2^64 mod 6 = 4`. -/
theorem lanes_coordinates_rounded :
    Double.round 0.0005 = some (1152921504606847/2305843009213693952) ∧
    drawsOf ((Pipeline.launch 3 (1152921504606847/2305843009213693952)
        (fun _ => false)).run sampleSchedule).2 =
      [(0, some (some 1)), (1, some (some (4505851427184181/4503599627370496))),
       (2, some (some (2254051613498933/2251799813685248))),
       (0, some (some (140948594587861/140737488355328)))] ∧
    (4505851427184181/4503599627370496 : ℚ) - 1 ≠ 1152921504606847/2305843009213693952 ∧
    (4505851427184181/4503599627370496 : ℚ) ≠ 1 + 1 * (1152921504606847/2305843009213693952) ∧
    recomputesOf 1 ((Pipeline.launch 3 (1/2048) (fun i => decide (i = 1))).run
        sampleSchedule).2 = [some 1, some (1 + 3 * (1/2048))] ∧
    drawsOf ((Pipeline.launch 3 (1/2048) (fun i => decide (i = 1))).run sampleSchedule).2 =
      [(0, some (some 1)), (1, some (some 1)), (2, some (some (1 + 2 * (1/2048)))),
       (0, some (some (1 + 3 * (1/2048))))] ∧
    selectLane 6 (SIZE_MOD - 1) = (3, 0) ∧ (selectLane 6 0).1 = 0 ∧ SIZE_MOD % 6 = 4 := by
  decide!

/-- C11 (amended): in every run of the pipeline with `N` lanes and step size
`S`, from a launch in which every lane read its assigned `threadId` and under
every schedule, the `k`-th recompute pass of lane `i` samples its field at the
temporal coordinate `laneOffsetZ N S i k`: the `double` obtained from the
generator's initial 1.0 by adding `S * i` and then `k` times `S * N`, every
operation being one of `double` arithmetic; after `k` passes the lane's
generator stands at that coordinate; while the frame counter has not wrapped,
the `f`-th frame drawn comes from lane `f mod N` and was sampled by the pass
`f / N` of that lane; and the coordinate is `1 + (i + k*N)*S` whenever the
products `S * i` and `S * N` and the sums `1 + (i + j*N)*S` up to `j = k` are
`double`s, so that no operation rounds. -/
theorem lanes_temporal_coordinates (N : Nat) (S : ℚ) (readEarly : Nat → Bool)
    (schedule : List PipelineStep) (hread : ∀ i, readEarly i = false) :
    (∀ i : ℕ, recomputesOf i ((Pipeline.launch N S readEarly).run schedule).2 =
      (List.range (recomputesOf i ((Pipeline.launch N S readEarly).run schedule).2).length).map
        (fun k : ℕ => laneOffsetZ N S i k)) ∧
    (∀ (i : ℕ) (w : WorkerThread),
      ((Pipeline.launch N S readEarly).run schedule).1.workerThreads[i]? = some w →
      w.mOffsetZ = laneOffsetZ N S i
        (recomputesOf i ((Pipeline.launch N S readEarly).run schedule).2).length) ∧
    ((drawsOf ((Pipeline.launch N S readEarly).run schedule).2).length ≤ SIZE_MOD →
      drawsOf ((Pipeline.launch N S readEarly).run schedule).2 =
        (List.range (drawsOf ((Pipeline.launch N S readEarly).run schedule).2).length).map
          (fun f : ℕ => (f % N, some (laneOffsetZ N S (f % N) (f / N))))) ∧
    (∀ i : ℕ, laneOffsetZ N S i 0 =
      Double.add (some 1) (Double.mul (some S) (Double.ofNat i))) ∧
    (∀ i k : ℕ, laneOffsetZ N S i (k + 1) =
      Double.add (laneOffsetZ N S i k) (Double.mul (some S) (Double.ofNat N))) ∧
    (∀ i k : ℕ, i < 2 ^ 53 → N < 2 ^ 53 →
      Double.round (S * i) = some (S * i) → Double.round (S * N) = some (S * N) →
      (∀ j : ℕ, j ≤ k →
        Double.round (1 + ((i : ℚ) + (j : ℚ) * N) * S) = some (1 + ((i : ℚ) + (j : ℚ) * N) * S)) →
      laneOffsetZ N S i k = some (1 + ((i : ℚ) + (k : ℚ) * N) * S)) := by
  have hid : ∀ i, (if readEarly i = true then 0 else i) = i := by
    intro i; simp [hread i]
  have h0 : ∀ i : ℕ, laneOffsetZ N S i 0 =
      Double.add (some 1) (Double.mul (some S) (Double.ofNat i)) := by
    intro i
    simp only [laneOffsetZ, PerlinHeightmapGenerator.step, PerlinHeightmapGenerator.mOffsetZ]
    norm_num
  refine ⟨fun i => ?_, fun i w hw => ?_, fun hd => ?_, h0, fun i k => rfl, ?_⟩
  · have h := (Pipeline.recompute_invariant N S readEarly schedule i).1
    simpa only [hid] using h
  · have h := (Pipeline.recompute_invariant N S readEarly schedule i).2 w hw
    simpa only [hid] using h
  · have h := Pipeline.draw_invariant N S readEarly schedule hd
    simpa only [hid] using h
  · intro i k hi hN hSi hSN hsum
    induction k with
    | zero =>
      have hs := hsum 0 (le_refl 0)
      have e : (1 : ℚ) + ((i : ℚ) + ((0 : ℕ) : ℚ) * N) * S = 1 + S * i := by push_cast; ring
      rw [e] at hs
      rw [h0 i, e]
      simp [Double.add, Double.mul, Double.ofNat_exact i hi, hSi, hs]
    | succ k ih =>
      have hk := ih (fun j hj => hsum j (Nat.le_succ_of_le hj))
      have hs := hsum (k + 1) (le_refl _)
      have e : (1 : ℚ) + ((i : ℚ) + ((k + 1 : ℕ) : ℚ) * N) * S =
          1 + ((i : ℚ) + (k : ℚ) * N) * S + S * N := by push_cast; ring
      rw [e] at hs
      show Double.add (laneOffsetZ N S i k) (Double.mul (some S) (Double.ofNat N)) = _
      rw [hk, e]
      simp [Double.add, Double.mul, Double.ofNat_exact N hN, hSN, hs]

/-- C11 (amended), at a concrete input: three lanes, step size 1/2048, under
the sample schedule: the second pass of lane 1 samples at `1 + S + 3S`, and
the four frames drawn come from the lanes 0, 1, 2, 0 and are sampled at `1`,
`1 + S`, `1 + 2S`, `1 + 3S`, no operation rounding. -/
theorem lanes_temporal_coordinates_witness :
    ((∀ i : ℕ, (fun _ : ℕ => false) i = false) ∧
      (drawsOf ((Pipeline.launch 3 (1/2048) (fun _ => false)).run sampleSchedule).2).length
        ≤ SIZE_MOD) ∧
    recomputesOf 1 ((Pipeline.launch 3 (1/2048) (fun _ => false)).run sampleSchedule).2 =
      [some (1 + 1/2048), some (1 + (1/2048 + 3 * (1/2048)))] ∧
    drawsOf ((Pipeline.launch 3 (1/2048) (fun _ => false)).run sampleSchedule).2 =
      [(0, some (some 1)), (1, some (some (1 + 1/2048))),
       (2, some (some (1 + 2 * (1/2048)))), (0, some (some (1 + 3 * (1/2048))))] ∧
    drawsOf ((Pipeline.launch 3 (1/2048) (fun _ => false)).run sampleSchedule).2 =
      (List.range
        (drawsOf ((Pipeline.launch 3 (1/2048) (fun _ => false)).run sampleSchedule).2).length).map
        (fun f : ℕ => (f % 3, some (laneOffsetZ 3 (1/2048) (f % 3) (f / 3)))) ∧
    laneOffsetZ 3 (1/2048) 1 1 = some (1 + (((1 : ℕ) : ℚ) + ((1 : ℕ) : ℚ) * (3 : ℕ)) * (1/2048)) :=
  have hread : ∀ i : ℕ, (fun _ : ℕ => false) i = false := fun _ => rfl
  have hd : (drawsOf ((Pipeline.launch 3 (1/2048) (fun _ => false)).run
      sampleSchedule).2).length ≤ SIZE_MOD := by decide!
  have h := lanes_temporal_coordinates 3 (1/2048) (fun _ => false) sampleSchedule hread
  ⟨⟨hread, hd⟩, by decide!, by decide!, h.2.2.1 hd,
    h.2.2.2.2.2 1 1 (by decide) (by decide) (by decide!) (by decide!)
      (fun j hj => by interval_cases j <;> decide!)⟩

/-- C13: in every state the pipeline reaches from the launch, under every
interleaving of the threads, no lane has both its worker inside its pass and
the consumer inside the draw of that lane; the lane's mutex is locked exactly
when one of the two is inside; and the sink of the lane is accessed only from
inside: a step that runs a pass on the lane is taken with the worker in its
pass, the mutex locked and the consumer not drawing the lane, and a step that
draws the lane is taken with the consumer in its draw, the mutex locked and
the worker not in its pass. -/
theorem sink_access_exclusive (N : Nat) (S : ℚ)
    (readEarly : Nat → Bool) (schedule : List PipelineStep) (i : Nat) :
    ¬ (((Pipeline.launch N S readEarly).run schedule).1.workerAt[i]? = some WorkerAt.pass ∧
       ((Pipeline.launch N S readEarly).run schedule).1.consumerAt = ConsumerAt.drawing i) ∧
    (((Pipeline.launch N S readEarly).run schedule).1.threadSync[i]? = some true ↔
      (((Pipeline.launch N S readEarly).run schedule).1.workerAt[i]? = some WorkerAt.pass ∨
       ((Pipeline.launch N S readEarly).run schedule).1.consumerAt = ConsumerAt.drawing i)) ∧
    (∀ (s : PipelineStep) (z : Option ℚ),
      (((Pipeline.launch N S readEarly).run schedule).1.step s).2 = some (PipelineEvent.recompute i z) →
      ((Pipeline.launch N S readEarly).run schedule).1.workerAt[i]? = some WorkerAt.pass ∧
      ((Pipeline.launch N S readEarly).run schedule).1.threadSync[i]? = some true ∧
      ((Pipeline.launch N S readEarly).run schedule).1.consumerAt ≠ ConsumerAt.drawing i) ∧
    (∀ (s : PipelineStep) (z : Option (Option ℚ)),
      (((Pipeline.launch N S readEarly).run schedule).1.step s).2 = some (PipelineEvent.draw i z) →
      ((Pipeline.launch N S readEarly).run schedule).1.consumerAt = ConsumerAt.drawing i ∧
      ((Pipeline.launch N S readEarly).run schedule).1.threadSync[i]? = some true ∧
      ((Pipeline.launch N S readEarly).run schedule).1.workerAt[i]? ≠ some WorkerAt.pass) := by
  have hc := Pipeline.coherent_run N S readEarly schedule
  have hex := hc.exclusive i
  obtain ⟨-, -, -, -, -, h5⟩ := hc
  refine ⟨fun h => hex h.1 h.2, h5 i, fun s z he => ?_, fun s z he => ?_⟩
  · have ha := (Pipeline.recompute_step _ s i z he).1
    exact ⟨ha, (h5 i).mpr (Or.inl ha), hex ha⟩
  · have hd := (Pipeline.draw_step _ s i z he).1
    exact ⟨hd, (h5 i).mpr (Or.inr hd), fun ha => hex ha hd⟩

/-- C13, at a concrete input: three lanes after the sample schedule and one
more step of the worker of lane 2, which is then inside its pass: its next
step runs the pass, with the mutex locked and the consumer elsewhere. -/
theorem sink_access_exclusive_witness :
    (((Pipeline.launch 3 (1/2048) (fun _ => false)).run (sampleSchedule ++ [PipelineStep.worker 2])).1.step
        (PipelineStep.worker 2)).2 = some (PipelineEvent.recompute 2 (some (1 + 5/2048))) ∧
    ((Pipeline.launch 3 (1/2048) (fun _ => false)).run
        (sampleSchedule ++ [PipelineStep.worker 2])).1.workerAt[2]? = some WorkerAt.pass ∧
    ((Pipeline.launch 3 (1/2048) (fun _ => false)).run
        (sampleSchedule ++ [PipelineStep.worker 2])).1.threadSync[2]? = some true ∧
    ((Pipeline.launch 3 (1/2048) (fun _ => false)).run
        (sampleSchedule ++ [PipelineStep.worker 2])).1.consumerAt ≠ ConsumerAt.drawing 2 :=
  have he : (((Pipeline.launch 3 (1/2048) (fun _ => false)).run
      (sampleSchedule ++ [PipelineStep.worker 2])).1.step (PipelineStep.worker 2)).2 =
      some (PipelineEvent.recompute 2 (some (1 + 5/2048))) := by decide!
  ⟨he, (sink_access_exclusive 3 (1/2048) (fun _ => false)
      (sampleSchedule ++ [PipelineStep.worker 2]) 2).2.2.1
    (PipelineStep.worker 2) _ he⟩

/-- C14: for every grid, cell `(x, y)` and iso-level `L`, if a second grid has
at one corner of the cell a sample strictly above `L` and at the other three
corners the samples of the first grid, its classification code is the code of
the first grid with that corner's bit OR-ed in (1, 2, 4, 8 for the corners
`(x, y)`, `(x+1, y)`, `(x+1, y+1)`, `(x, y+1)`): the bit is set, no bit is
cleared and no other bit changes. -/
theorem classification_monotone (ms ms' : Squares) (x y : Nat) (L : ℚ) :
    (ms'.getPoint x y > L → ms'.getPoint (x+1) y = ms.getPoint (x+1) y →
      ms'.getPoint (x+1) (y+1) = ms.getPoint (x+1) (y+1) →
      ms'.getPoint x (y+1) = ms.getPoint x (y+1) →
      ms'.getSquareType x y L = ms.getSquareType x y L ||| 1 ∧
      ∀ j, (ms'.getSquareType x y L).testBit j =
        ((ms.getSquareType x y L).testBit j || decide (j = 0))) ∧
    (ms'.getPoint (x+1) y > L → ms'.getPoint x y = ms.getPoint x y →
      ms'.getPoint (x+1) (y+1) = ms.getPoint (x+1) (y+1) →
      ms'.getPoint x (y+1) = ms.getPoint x (y+1) →
      ms'.getSquareType x y L = ms.getSquareType x y L ||| 2 ∧
      ∀ j, (ms'.getSquareType x y L).testBit j =
        ((ms.getSquareType x y L).testBit j || decide (j = 1))) ∧
    (ms'.getPoint (x+1) (y+1) > L → ms'.getPoint x y = ms.getPoint x y →
      ms'.getPoint (x+1) y = ms.getPoint (x+1) y →
      ms'.getPoint x (y+1) = ms.getPoint x (y+1) →
      ms'.getSquareType x y L = ms.getSquareType x y L ||| 4 ∧
      ∀ j, (ms'.getSquareType x y L).testBit j =
        ((ms.getSquareType x y L).testBit j || decide (j = 2))) ∧
    (ms'.getPoint x (y+1) > L → ms'.getPoint x y = ms.getPoint x y →
      ms'.getPoint (x+1) y = ms.getPoint (x+1) y →
      ms'.getPoint (x+1) (y+1) = ms.getPoint (x+1) (y+1) →
      ms'.getSquareType x y L = ms.getSquareType x y L ||| 8 ∧
      ∀ j, (ms'.getSquareType x y L).testBit j =
        ((ms.getSquareType x y L).testBit j || decide (j = 3))) := by
  refine ⟨fun h e1 e2 e3 => ?_, fun h e1 e2 e3 => ?_, fun h e1 e2 e3 => ?_,
    fun h e1 e2 e3 => ?_⟩
  · have hc : ms'.getSquareType x y L = ms.getSquareType x y L ||| 1 := by
      rw [getSquareType_eq ms', getSquareType_eq ms, e1, e2, e3, if_pos h]
      by_cases h0 : ms.getPoint x y > L <;> by_cases h1 : ms.getPoint (x+1) y > L <;>
      by_cases h2 : ms.getPoint (x+1) (y+1) > L <;> by_cases h3 : ms.getPoint x (y+1) > L <;>
      simp only [h0, h1, h2, h3, if_true, if_false] <;> decide
    exact ⟨hc, testBit_or_two_pow _ _ 0 hc⟩
  · have hc : ms'.getSquareType x y L = ms.getSquareType x y L ||| 2 := by
      rw [getSquareType_eq ms', getSquareType_eq ms, e1, e2, e3, if_pos h]
      by_cases h0 : ms.getPoint x y > L <;> by_cases h1 : ms.getPoint (x+1) y > L <;>
      by_cases h2 : ms.getPoint (x+1) (y+1) > L <;> by_cases h3 : ms.getPoint x (y+1) > L <;>
      simp only [h0, h1, h2, h3, if_true, if_false] <;> decide
    exact ⟨hc, testBit_or_two_pow _ _ 1 hc⟩
  · have hc : ms'.getSquareType x y L = ms.getSquareType x y L ||| 4 := by
      rw [getSquareType_eq ms', getSquareType_eq ms, e1, e2, e3, if_pos h]
      by_cases h0 : ms.getPoint x y > L <;> by_cases h1 : ms.getPoint (x+1) y > L <;>
      by_cases h2 : ms.getPoint (x+1) (y+1) > L <;> by_cases h3 : ms.getPoint x (y+1) > L <;>
      simp only [h0, h1, h2, h3, if_true, if_false] <;> decide
    exact ⟨hc, testBit_or_two_pow _ _ 2 hc⟩
  · have hc : ms'.getSquareType x y L = ms.getSquareType x y L ||| 8 := by
      rw [getSquareType_eq ms', getSquareType_eq ms, e1, e2, e3, if_pos h]
      by_cases h0 : ms.getPoint x y > L <;> by_cases h1 : ms.getPoint (x+1) y > L <;>
      by_cases h2 : ms.getPoint (x+1) (y+1) > L <;> by_cases h3 : ms.getPoint x (y+1) > L <;>
      simp only [h0, h1, h2, h3, if_true, if_false] <;> decide
    exact ⟨hc, testBit_or_two_pow _ _ 3 hc⟩

/-- C14, at concrete inputs: the all-zero 2x2 grid against the four grids
that differ from it by a sample 1 at one corner of the cell, with iso-level
`1/2`: the code goes from 0 to 1, 2, 4 and 8. -/
theorem classification_monotone_witness :
    ((cornerGrid 0 0).getPoint 0 0 > 1/2 ∧
      (cornerGrid 0 0).getSquareType 0 0 (1/2) = zeroGrid.getSquareType 0 0 (1/2) ||| 1) ∧
    ((cornerGrid 1 0).getPoint (0+1) 0 > 1/2 ∧
      (cornerGrid 1 0).getSquareType 0 0 (1/2) = zeroGrid.getSquareType 0 0 (1/2) ||| 2) ∧
    ((cornerGrid 1 1).getPoint (0+1) (0+1) > 1/2 ∧
      (cornerGrid 1 1).getSquareType 0 0 (1/2) = zeroGrid.getSquareType 0 0 (1/2) ||| 4) ∧
    ((cornerGrid 0 1).getPoint 0 (0+1) > 1/2 ∧
      (cornerGrid 0 1).getSquareType 0 0 (1/2) = zeroGrid.getSquareType 0 0 (1/2) ||| 8) :=
  ⟨⟨by decide!, ((classification_monotone zeroGrid (cornerGrid 0 0) 0 0 (1/2)).1
      (by decide!) (by decide!) (by decide!) (by decide!)).1⟩,
   ⟨by decide!, ((classification_monotone zeroGrid (cornerGrid 1 0) 0 0 (1/2)).2.1
      (by decide!) (by decide!) (by decide!) (by decide!)).1⟩,
   ⟨by decide!, ((classification_monotone zeroGrid (cornerGrid 1 1) 0 0 (1/2)).2.2.1
      (by decide!) (by decide!) (by decide!) (by decide!)).1⟩,
   ⟨by decide!, ((classification_monotone zeroGrid (cornerGrid 0 1) 0 0 (1/2)).2.2.2
      (by decide!) (by decide!) (by decide!) (by decide!)).1⟩⟩

/-- C16: in every state the pipeline reaches from the launch, a worker that
has gone on to its lock or is inside its pass has its flag STALE
(`invalidated = true`), and the step that runs the pass finds the flag STALE
and leaves it READY; the consumer that has gone on to the lock of a lane or is
inside its draw has that lane's flag READY, and the step that draws finds the
flag READY and leaves it STALE, so the consumer never draws a lane whose flag
is STALE; and the passes and draws of each lane alternate strictly, starting
with a pass. -/
theorem lane_handshake (N : Nat) (S : ℚ)
    (readEarly : Nat → Bool) (schedule : List PipelineStep) (i : Nat) :
    (∀ w, ((Pipeline.launch N S readEarly).run schedule).1.workerThreads[i]? = some w →
      (((Pipeline.launch N S readEarly).run schedule).1.workerAt[i]? = some WorkerAt.lock ∨
       ((Pipeline.launch N S readEarly).run schedule).1.workerAt[i]? = some WorkerAt.pass) →
      w.invalidated = true) ∧
    (∀ (s : PipelineStep) (z : Option ℚ),
      (((Pipeline.launch N S readEarly).run schedule).1.step s).2 = some (PipelineEvent.recompute i z) →
      ∃ w w', ((Pipeline.launch N S readEarly).run schedule).1.workerThreads[i]? = some w ∧
        w.invalidated = true ∧
        (((Pipeline.launch N S readEarly).run schedule).1.step s).1.workerThreads[i]? = some w' ∧
        w'.invalidated = false) ∧
    (∀ w, ((Pipeline.launch N S readEarly).run schedule).1.workerThreads[i]? = some w →
      (((Pipeline.launch N S readEarly).run schedule).1.consumerAt = ConsumerAt.lock i ∨
       ((Pipeline.launch N S readEarly).run schedule).1.consumerAt = ConsumerAt.drawing i) →
      w.invalidated = false) ∧
    (∀ (s : PipelineStep) (z : Option (Option ℚ)),
      (((Pipeline.launch N S readEarly).run schedule).1.step s).2 = some (PipelineEvent.draw i z) →
      ∃ w w', ((Pipeline.launch N S readEarly).run schedule).1.workerThreads[i]? = some w ∧
        w.invalidated = false ∧
        (((Pipeline.launch N S readEarly).run schedule).1.step s).1.workerThreads[i]? = some w' ∧
        w'.invalidated = true) ∧
    laneEvents i ((Pipeline.launch N S readEarly).run schedule).2 =
      alternation (laneEvents i ((Pipeline.launch N S readEarly).run schedule).2).length := by
  obtain ⟨-, -, h2, h3, -, -⟩ := Pipeline.coherent_run N S readEarly schedule
  refine ⟨h2 i, fun s z he => ?_, h3 i, fun s z he => ?_,
    (Pipeline.handshake_invariant N S readEarly schedule i).1⟩
  · obtain ⟨ha, w, w', hw, -, hw', hf⟩ := Pipeline.recompute_step _ s i z he
    exact ⟨w, w', hw, h2 i w hw (Or.inr ha), hw', hf⟩
  · obtain ⟨hd, w, w', hw, -, hw', hf⟩ := Pipeline.draw_step _ s i z he
    exact ⟨w, w', hw, h3 i w hw (Or.inr hd), hw', hf⟩

/-- C16, at a concrete input: three lanes under the sample schedule: the
events of lane 0 are pass, draw, pass, draw; the worker of lane 2 stands at
its lock with its flag STALE. -/
theorem lane_handshake_witness :
    laneEvents 0 ((Pipeline.launch 3 (1/2048) (fun _ => false)).run sampleSchedule).2 =
      [true, false, true, false] ∧
    ((Pipeline.launch 3 (1/2048) (fun _ => false)).run sampleSchedule).1.workerAt[2]? = some WorkerAt.lock ∧
    ∀ w, ((Pipeline.launch 3 (1/2048) (fun _ => false)).run sampleSchedule).1.workerThreads[2]? = some w →
      w.invalidated = true :=
  have ha : ((Pipeline.launch 3 (1/2048) (fun _ => false)).run sampleSchedule).1.workerAt[2]? =
      some WorkerAt.lock := by decide!
  ⟨by decide!, ha, fun w hw =>
    (lane_handshake 3 (1/2048) (fun _ => false) sampleSchedule 2).1 w hw (Or.inl ha)⟩

/-- C17 (as stated, refuted): with the `double`s nearest to 0.19, 0.99 and 0.9
as samples `a`, `b` and iso-level `L`, which `a ≤ L < b` puts on opposite
sides, the factor `render` computes is `t = 3996944669291315 / 2^52` (0.8875),
and `a + t * (b - a)` is not `L`, in exact arithmetic and in `double`
arithmetic, where it is `2026619832316723 / 2^51` (0.8999999999999999).  On
the 2x2 grid with these samples in its two rows and pixel scale 4, `render`
emits the vertices of the left and right edges at the pixel height `4 * t`,
where the linearly interpolated sample is not `L`. -/
theorem edge_vertex_off_isoLevel :
    (Double.round 0.19 = some (3422735716801577/18014398509481984) ∧
      Double.round 0.99 = some (4458563631096791/4503599627370496) ∧
      Double.round 0.9 = some (8106479329266893/9007199254740992)) ∧
    ((3422735716801577/18014398509481984 : ℚ) ≤ 8106479329266893/9007199254740992 ∧
      (4458563631096791/4503599627370496 : ℚ) > 8106479329266893/9007199254740992) ∧
    edgeFactorDouble (8106479329266893/9007199254740992)
      (3422735716801577/18014398509481984) (4458563631096791/4503599627370496) =
      some (3996944669291315/4503599627370496) ∧
    (3422735716801577/18014398509481984 : ℚ) + 3996944669291315/4503599627370496 *
        (4458563631096791/4503599627370496 - 3422735716801577/18014398509481984) ≠
      8106479329266893/9007199254740992 ∧
    Double.add (some (3422735716801577/18014398509481984))
        (Double.mul (some (3996944669291315/4503599627370496))
          (Double.sub (some (4458563631096791/4503599627370496))
            (some (3422735716801577/18014398509481984)))) =
      some (2026619832316723/2251799813685248) ∧
    (2026619832316723/2251799813685248 : ℚ) ≠ 8106479329266893/9007199254740992 ∧
    bandGrid.mAllPoints =
      [3422735716801577/18014398509481984, 3422735716801577/18014398509481984,
       4458563631096791/4503599627370496, 4458563631096791/4503599627370496] ∧
    bandGrid.renderDouble [8106479329266893/9007199254740992] =
      [(8106479329266893/9007199254740992, some 4, some (3996944669291315/1125899906842624)),
       (8106479329266893/9007199254740992, some 0, some (3996944669291315/1125899906842624)),
       (8106479329266893/9007199254740992, some 0, some 4),
       (8106479329266893/9007199254740992, some 0, some 4),
       (8106479329266893/9007199254740992, some 4, some 4),
       (8106479329266893/9007199254740992, some 4, some (3996944669291315/1125899906842624))] ∧
    (3422735716801577/18014398509481984 : ℚ) + (3996944669291315/1125899906842624) / 4 *
        (4458563631096791/4503599627370496 - 3422735716801577/18014398509481984) ≠
      8106479329266893/9007199254740992 := by
  decide!

/-- C17 (amended): for an edge whose corner samples `a` (the corner the offset
is measured from) and `b` lie on opposite sides of the iso-level `L`, the
exact factor `t = |L - a| / |b - a|` satisfies `a + t * (b - a) = L`,
whichever corner is the one above `L`; the factor `render` computes in
`double` arithmetic satisfies it up to rounding, `|a + t * (b - a) - L|` being
at most `2^-51 * |L - a|` when no operation leaves the normal range.  On a
cell within exact `double` range `render` emits one vertex per reference of
the row of the cell's code: for the edge references 0 (left), 1 (top),
2 (right), 3 (bottom) it lies exactly on the line of the edge and, along the
edge, within `2^-50` times the far pixel coordinate of the cell of the point
at the exact fraction `t` from the corner `(x, y)`, `(x, y)`, `(x+1, y)`,
`(x, y+1)`; for the corner references 4 to 7 it is the corner.  The calls of
`render` are those of its cells, in loop order. -/
theorem edge_vertex_near_isoLevel (ms : Squares) (L : ℚ) (y x : Nat)
    (arr : List (Option ℚ × Option ℚ)) (harr : InterpolatedShapeDouble arr)
    (hn : ms.CellNormal x y L) :
    (∀ a b : ℚ, OppositeSides L a b →
      edgeFactor L a b = |L - a| / |b - a| ∧ a + edgeFactor L a b * (b - a) = L ∧
      (EdgeFactorNormal L a b →
        ∃ t, edgeFactorDouble L a b = some t ∧
          |a + t * (b - a) - L| ≤ Double.pow2 (-51) * |L - a|)) ∧
    (ms.renderCellDouble L y x arr).length = (vertexRefs (ms.getSquareType x y L)).length ∧
    (∀ (j : Nat) (i : Int), (vertexRefs (ms.getSquareType x y L))[j]? = some i →
      ∃ vx vy : ℚ, (ms.renderCellDouble L y x arr)[j]? = some (some vx, some vy) ∧
        (i = 0 → vx = (x : ℚ) * ms.PixelsPerPointX ∧
          |vy - ((y : ℚ) + edgeFactor L (ms.getPoint x y) (ms.getPoint x (y+1)))
              * ms.PixelsPerPointY| ≤
            Double.pow2 (-50) * (((y : ℚ) + 1) * ms.PixelsPerPointY)) ∧
        (i = 1 → vy = (y : ℚ) * ms.PixelsPerPointY ∧
          |vx - ((x : ℚ) + edgeFactor L (ms.getPoint x y) (ms.getPoint (x+1) y))
              * ms.PixelsPerPointX| ≤
            Double.pow2 (-50) * (((x : ℚ) + 1) * ms.PixelsPerPointX)) ∧
        (i = 2 → vx = ((x : ℚ) + 1) * ms.PixelsPerPointX ∧
          |vy - ((y : ℚ) + edgeFactor L (ms.getPoint (x+1) y) (ms.getPoint (x+1) (y+1)))
              * ms.PixelsPerPointY| ≤
            Double.pow2 (-50) * (((y : ℚ) + 1) * ms.PixelsPerPointY)) ∧
        (i = 3 → vy = ((y : ℚ) + 1) * ms.PixelsPerPointY ∧
          |vx - ((x : ℚ) + edgeFactor L (ms.getPoint x (y+1)) (ms.getPoint (x+1) (y+1)))
              * ms.PixelsPerPointX| ≤
            Double.pow2 (-50) * (((x : ℚ) + 1) * ms.PixelsPerPointX)) ∧
        (i = 4 → vx = (x : ℚ) * ms.PixelsPerPointX ∧ vy = (y : ℚ) * ms.PixelsPerPointY) ∧
        (i = 5 → vx = ((x : ℚ) + 1) * ms.PixelsPerPointX ∧
          vy = (y : ℚ) * ms.PixelsPerPointY) ∧
        (i = 6 → vx = ((x : ℚ) + 1) * ms.PixelsPerPointX ∧
          vy = ((y : ℚ) + 1) * ms.PixelsPerPointY) ∧
        (i = 7 → vx = (x : ℚ) * ms.PixelsPerPointX ∧
          vy = ((y : ℚ) + 1) * ms.PixelsPerPointY)) ∧
    ∀ isoLevels : List ℚ,
      ms.renderDouble isoLevels =
        isoLevels.flatMap (fun isoLevel =>
          (List.range (sizePred ms.ResolutionY)).flatMap (fun y =>
            (List.range (sizePred ms.ResolutionX)).flatMap (fun x =>
              (ms.renderCellDouble isoLevel y x interpolatedInitDouble).map
                (fun v => (isoLevel, v))))) := by
  refine ⟨fun a b h => ⟨edgeFactor_eq L a b, edgeFactor_interpolates L a b h,
      fun hnorm => edgeFactorDouble_interpolates L a b h hnorm⟩, ?_, ?_,
    fun isoLevels => renderDouble_eq ms isoLevels⟩
  · rw [renderCellDouble_eq ms L y x arr harr, List.length_map]
  · intro j i hj
    have hi : i ∈ vertexRefs (ms.getSquareType x y L) := List.getElem?_mem hj
    obtain ⟨vx, vy, hv, rest⟩ := vertexDouble_refs ms x y L i hn hi
    refine ⟨vx, vy, ?_, rest⟩
    rw [renderCellDouble_eq ms L y x arr harr, List.getElem?_map, hj, Option.map_some', hv]

/-- C17 (amended), at a concrete input: the cell of `bandGrid`, whose left edge
has the samples 0.19 and 0.99, at the iso-level 0.9; the second vertex
`render` emits is that of the left edge. -/
theorem edge_vertex_near_isoLevel_witness :
    (InterpolatedShapeDouble interpolatedInitDouble ∧
      bandGrid.CellNormal 0 0 (8106479329266893/9007199254740992) ∧
      (vertexRefs (bandGrid.getSquareType 0 0 (8106479329266893/9007199254740992)))[1]? =
        some 0) ∧
    ∃ vx vy : ℚ,
      (bandGrid.renderCellDouble (8106479329266893/9007199254740992) 0 0
        interpolatedInitDouble)[1]? = some (some vx, some vy) ∧
      vx = ((0 : ℕ) : ℚ) * bandGrid.PixelsPerPointX ∧
      |vy - (((0 : ℕ) : ℚ) + edgeFactor (8106479329266893/9007199254740992)
            (bandGrid.getPoint 0 0) (bandGrid.getPoint 0 (0+1))) * bandGrid.PixelsPerPointY| ≤
        Double.pow2 (-50) * ((((0 : ℕ) : ℚ) + 1) * bandGrid.PixelsPerPointY) :=
  have hn : bandGrid.CellNormal 0 0 (8106479329266893/9007199254740992) :=
    ⟨by decide, by decide, by decide, by decide,
      fun _ => by unfold EdgeFactorNormal Double.Normal; decide!,
      fun h => absurd h (by unfold OppositeSides; decide!),
      fun _ => by unfold EdgeFactorNormal Double.Normal; decide!,
      fun h => absurd h (by unfold OppositeSides; decide!)⟩
  have hj : (vertexRefs (bandGrid.getSquareType 0 0 (8106479329266893/9007199254740992)))[1]? =
      some 0 := by decide!
  have h := (edge_vertex_near_isoLevel bandGrid (8106479329266893/9007199254740992) 0 0
    interpolatedInitDouble interpolatedInitDouble_shape hn).2.2.1 1 0 hj
  ⟨⟨interpolatedInitDouble_shape, hn, hj⟩, h.choose, h.choose_spec.choose,
    h.choose_spec.choose_spec.1, (h.choose_spec.choose_spec.2.1 rfl).1,
    (h.choose_spec.choose_spec.2.1 rfl).2⟩

/-- C18: for every grid, cell and iso-level `L`, every reference in the table
row of the cell's classification code is one of 0 to 7, and every edge
reference in it (0 left, 1 top, 2 right, 3 bottom) names an edge whose two
corner samples lie on opposite sides of `L`, so that the denominator of that
edge's interpolation factor is not zero. -/
theorem edge_refs_cross (ms : Squares) (x y : Nat) (L : ℚ) (i : Int)
    (hi : i ∈ vertexRefs (ms.getSquareType x y L)) :
    (0 ≤ i ∧ i ≤ 7) ∧
    (i = 0 → OppositeSides L (ms.getPoint x y) (ms.getPoint x (y+1)) ∧
      ms.getPoint x (y+1) - ms.getPoint x y ≠ 0) ∧
    (i = 1 → OppositeSides L (ms.getPoint x y) (ms.getPoint (x+1) y) ∧
      ms.getPoint (x+1) y - ms.getPoint x y ≠ 0) ∧
    (i = 2 → OppositeSides L (ms.getPoint (x+1) y) (ms.getPoint (x+1) (y+1)) ∧
      ms.getPoint (x+1) (y+1) - ms.getPoint (x+1) y ≠ 0) ∧
    (i = 3 → OppositeSides L (ms.getPoint x (y+1)) (ms.getPoint (x+1) (y+1)) ∧
      ms.getPoint (x+1) (y+1) - ms.getPoint x (y+1) ≠ 0) := by
  have hne : ∀ a b : ℚ, OppositeSides L a b → OppositeSides L a b ∧ b - a ≠ 0 :=
    fun a b h => ⟨h, sub_ne_zero.mpr (Ne.symm h.ne)⟩
  rcases vertexRefs_cases ms x y L i hi with
    ⟨rfl, h⟩ | ⟨rfl, h⟩ | ⟨rfl, h⟩ | ⟨rfl, h⟩ | ⟨rfl, _⟩ | ⟨rfl, _⟩ | ⟨rfl, _⟩ | ⟨rfl, _⟩ <;>
    refine ⟨by decide, ?_, ?_, ?_, ?_⟩ <;>
    first
    | exact fun _ => hne _ _ h
    | exact fun e => absurd e (by decide)

/-- C18, at a concrete input: the references 0 and 1 of the row of the cell
`(1, 1)` of the `TestPattern` grid at iso-level 0.5 (code 14). -/
theorem edge_refs_cross_witness :
    (0 : Int) ∈ vertexRefs ((testGrid 4 4).getSquareType 1 1 0.5) ∧
    OppositeSides 0.5 ((testGrid 4 4).getPoint 1 1) ((testGrid 4 4).getPoint 1 (1+1)) ∧
    (testGrid 4 4).getPoint 1 (1+1) - (testGrid 4 4).getPoint 1 1 ≠ 0 :=
  have hi : (0 : Int) ∈ vertexRefs ((testGrid 4 4).getSquareType 1 1 0.5) := by decide!
  ⟨hi, (edge_refs_cross (testGrid 4 4) 1 1 0.5 0 hi).2.1 rfl⟩

/-- C20: for every classification code `c` from 0 to 15, a corner reference
4, 5, 6 or 7 appears in the table row of `c` exactly when bit 0, 1, 2 or 3 of
`c` is set; the references 4, 5, 6, 7 are the corners `(x, y)`, `(x+1, y)`,
`(x+1, y+1)`, `(x, y+1)` of the cell; so in every cell the corner references
of the row of its code are exactly the corners whose sample is above the
iso-level. -/
theorem corner_refs_match_bits (c : Nat) (hc : c < 16) :
    (((4 : Int) ∈ vertexRefs c ↔ c.testBit 0 = true) ∧
     ((5 : Int) ∈ vertexRefs c ↔ c.testBit 1 = true) ∧
     ((6 : Int) ∈ vertexRefs c ↔ c.testBit 2 = true) ∧
     ((7 : Int) ∈ vertexRefs c ↔ c.testBit 3 = true)) ∧
    (squareVerticies.getD 4 (0, 0) = (0, 0) ∧ squareVerticies.getD 5 (0, 0) = (1, 0) ∧
     squareVerticies.getD 6 (0, 0) = (1, 1) ∧ squareVerticies.getD 7 (0, 0) = (0, 1)) ∧
    ∀ (ms : Squares) (x y : Nat) (L : ℚ), ms.getSquareType x y L = c →
      (((4 : Int) ∈ vertexRefs c ↔ ms.getPoint x y > L) ∧
       ((5 : Int) ∈ vertexRefs c ↔ ms.getPoint (x+1) y > L) ∧
       ((6 : Int) ∈ vertexRefs c ↔ ms.getPoint (x+1) (y+1) > L) ∧
       ((7 : Int) ∈ vertexRefs c ↔ ms.getPoint x (y+1) > L)) := by
  have hrows : ((4 : Int) ∈ vertexRefs c ↔ c.testBit 0 = true) ∧
      ((5 : Int) ∈ vertexRefs c ↔ c.testBit 1 = true) ∧
      ((6 : Int) ∈ vertexRefs c ↔ c.testBit 2 = true) ∧
      ((7 : Int) ∈ vertexRefs c ↔ c.testBit 3 = true) := by
    interval_cases c <;> decide
  refine ⟨hrows, by decide, fun ms x y L hcode => ?_⟩
  obtain ⟨-, b0, b1, b2, b3⟩ := getSquareType_testBit ms x y L
  rw [hcode] at b0 b1 b2 b3
  exact ⟨hrows.1.trans b0, hrows.2.1.trans b1, hrows.2.2.1.trans b2, hrows.2.2.2.trans b3⟩

/-- C20, at a concrete input: code 9 (bits 0 and 3) lists the corners 4 and 7
and neither 5 nor 6. -/
theorem corner_refs_match_bits_witness :
    (9 < 16) ∧
    (((4 : Int) ∈ vertexRefs 9 ↔ Nat.testBit 9 0 = true) ∧
     ((5 : Int) ∈ vertexRefs 9 ↔ Nat.testBit 9 1 = true) ∧
     ((6 : Int) ∈ vertexRefs 9 ↔ Nat.testBit 9 2 = true) ∧
     ((7 : Int) ∈ vertexRefs 9 ↔ Nat.testBit 9 3 = true)) :=
  ⟨by decide, (corner_refs_match_bits 9 (by decide)).1⟩

/-- C21 (as stated, refuted): for `MarchingSquares<2^63, 2, 1, 1>` both
resolutions are at least 1, the constant `ArraySize`, a `size_t` product, is 0
and the buffer is empty: the first write of `recalculate`, at index
`0 * ResolutionX + 0 = 0`, is out of bounds, in the constructor already. -/
theorem first_write_out_of_bounds :
    1 ≤ 2 ^ 63 ∧ 1 ≤ 2 ∧ ArraySize (2 ^ 63) 2 = 0 ∧
    ((0 * 2 ^ 63) + 0) % SIZE_MOD = 0 ∧
    ¬ (((0 * 2 ^ 63) + 0) % SIZE_MOD < ArraySize (2 ^ 63) 2) ∧
    recalculatePoints? (2 ^ 63) 2 TestPattern.getPoint
      (List.replicate (ArraySize (2 ^ 63) 2) 0) = none ∧
    Squares.new? (2 ^ 63) 2 1 1 TestPattern.getPoint = none := by
  have h0 : ArraySize (2 ^ 63) 2 = 0 := by decide
  have hr : recalculatePoints? (2 ^ 63) 2 TestPattern.getPoint
      (List.replicate (ArraySize (2 ^ 63) 2) 0) = none := by
    rw [h0, List.replicate_zero]
    exact recalculatePoints?_nil _ _ _ (by decide) (by decide)
  refine ⟨by decide, by decide, h0, by decide, by decide, hr, ?_⟩
  simp only [Squares.new?, Squares.recalculate?, hr, Option.map_none']

/-- C21 (amended): whenever `ResolutionX >= 1`, `ResolutionY >= 1` and the
product `ResolutionX * ResolutionY` is below `2^64`, the constructor makes no
access out of bounds and leaves a buffer of `ArraySize = ResolutionX *
ResolutionY` samples; and on every extractor whose buffer has that length,
every array access made by `recalculate`, `countVerticies` and `render` is in
bounds, so that each method run with its subscripts checked returns what the
method returns. Each sample index `y * ResolutionX + x` with `x <
ResolutionX` and `y < ResolutionY` is computed without wrapping and is below
`ResolutionX * ResolutionY`, the length of the buffer; each classification code
is below 16, the number of rows of the table; each row has 10 entries, fewer
than 10 references before its `-1`, the `-1` right after them, and every
reference before it is in 0..7. -/
theorem accesses_in_bounds (ms : Squares) (isoLevels : List ℚ) (contour : ℚ)
    (hx : 1 ≤ ms.ResolutionX) (hy : 1 ≤ ms.ResolutionY)
    (hsz : ms.ResolutionX * ms.ResolutionY < SIZE_MOD)
    (hlen : ms.mAllPoints.length = ArraySize ms.ResolutionX ms.ResolutionY) :
    (Squares.new? ms.ResolutionX ms.ResolutionY ms.PixelsPerPointX ms.PixelsPerPointY
        ms.mGenerator =
      some (Squares.new ms.ResolutionX ms.ResolutionY ms.PixelsPerPointX ms.PixelsPerPointY
        ms.mGenerator) ∧
     (Squares.new ms.ResolutionX ms.ResolutionY ms.PixelsPerPointX ms.PixelsPerPointY
        ms.mGenerator).mAllPoints.length = ArraySize ms.ResolutionX ms.ResolutionY) ∧
    ArraySize ms.ResolutionX ms.ResolutionY = ms.ResolutionX * ms.ResolutionY ∧
    (ms.recalculate? = some ms.recalculate ∧
     ms.recalculate.mAllPoints.length = ArraySize ms.ResolutionX ms.ResolutionY) ∧
    ms.countVerticies? contour = some (ms.countVerticies contour) ∧
    ms.render? isoLevels = some (ms.render isoLevels) ∧
    (∀ x y : Nat, x < ms.ResolutionX → y < ms.ResolutionY →
      ((y * ms.ResolutionX) + x) % SIZE_MOD = (y * ms.ResolutionX) + x ∧
      (y * ms.ResolutionX) + x < ms.ResolutionX * ms.ResolutionY ∧
      (y * ms.ResolutionX) + x < ms.mAllPoints.length ∧
      ms.getPoint? x y = some (ms.getPoint x y)) ∧
    (∀ (x y : Nat) (L : ℚ),
      ms.getSquareType x y L < 16 ∧ squareIndicies.length = 16 ∧
      (squareIndicies.getD (ms.getSquareType x y L) []).length = 10 ∧
      (vertexRefs (ms.getSquareType x y L)).length < 10 ∧
      (squareIndicies.getD (ms.getSquareType x y L) []).getD
        (vertexRefs (ms.getSquareType x y L)).length 0 = -1 ∧
      ∀ i ∈ vertexRefs (ms.getSquareType x y L),
        0 ≤ i ∧ i ≤ 7 ∧ i.toNat < squareVerticies.length ∧
        i.toNat < interpolatedInit.length) := by
  have hA := ArraySize_eq ms.ResolutionX ms.ResolutionY hsz
  have hl : ms.mAllPoints.length = ms.ResolutionX * ms.ResolutionY := by rw [hlen, hA]
  refine ⟨⟨?_, ?_⟩, hA, ⟨?_, ?_⟩, countVerticies?_eq ms contour hx hy hl hsz,
    render?_eq ms isoLevels hx hy hl hsz, fun x y hxx hyy => ?_, fun x y L => ?_⟩
  · simp only [Squares.new?, Squares.new, Squares.recalculate?, Squares.recalculate]
    rw [recalculatePoints?_eq _ _ _ _ (by rw [List.length_replicate, hA]) hsz]
    rfl
  · simp only [Squares.new, Squares.recalculate, recalculatePoints_length,
      List.length_replicate]
  · simp only [Squares.recalculate?, Squares.recalculate]
    rw [recalculatePoints?_eq _ _ _ _ hl hsz]
    rfl
  · simp only [Squares.recalculate, recalculatePoints_length]
    exact hlen
  · obtain ⟨h1, h2⟩ := index_lt ms.ResolutionX ms.ResolutionY x y hsz hxx hyy
    exact ⟨h1, h2, by rw [hl]; exact h2, getPoint?_eq ms x y hl hsz hxx hyy⟩
  · have hc := (getSquareType_testBit ms x y L).1
    obtain ⟨r1, r2, r3, r4⟩ := squareIndicies_rows (ms.getSquareType x y L) hc
    refine ⟨hc, rfl, r1, r2, r3, fun i hi => ?_⟩
    obtain ⟨a, b⟩ := r4 i hi
    have h8 : i.toNat < 8 := by omega
    exact ⟨a, b, h8, h8⟩

/-- C21, at a concrete input: the 5x5 `TestPattern` grid at the iso-level 0.5;
the checked `render` returns the 81 vertices of the unchecked one, the checked
`countVerticies` its 26. -/
theorem accesses_in_bounds_witness :
    (1 ≤ (testGrid 4 4).ResolutionX ∧ 1 ≤ (testGrid 4 4).ResolutionY ∧
      (testGrid 4 4).ResolutionX * (testGrid 4 4).ResolutionY < SIZE_MOD ∧
      (testGrid 4 4).mAllPoints.length = ArraySize 5 5) ∧
    (testGrid 4 4).recalculate? = some (testGrid 4 4).recalculate ∧
    (testGrid 4 4).countVerticies? 0.5 = some ((testGrid 4 4).countVerticies 0.5) ∧
    (testGrid 4 4).render? [0.5] = some ((testGrid 4 4).render [0.5]) ∧
    ((testGrid 4 4).render? [0.5]).map (fun r => r.2) = some 81 ∧
    (testGrid 4 4).countVerticies? 0.5 = some 26 :=
  have h := accesses_in_bounds (testGrid 4 4) [0.5] 0.5 (by decide) (by decide) (by decide)
    (by decide)
  ⟨⟨by decide, by decide, by decide, by decide⟩, h.2.2.1.1, h.2.2.2.1, h.2.2.2.2.1,
    by decide!, by decide!⟩

/-- C22 (the code departs from the claim): on the 2x2 grid the ant starts at
`(1, 1)` and the first `update()` moves it to `x = 2 = Width`, off the grid:
the test `x > Width` after `++x` does not fire at `x = Width`.  The cell index
the next `update()` flips is `1*2 + 2 = 4`, not below the 4 cells, and that
call accesses the vector out of its bounds.  On the 1x1 grid the first
`update()` moves the ant from `(0, 0)` to `x = 1`, and on the 3x3 grid the
twelfth leaves it at `y = 3 = Height`.  The direction is one of 0 to 3 after
every number of updates on every grid. -/
theorem ant_leaves_grid :
    (LangstonsAnt.new 2 2).mAnt = (1, 1, 0) ∧
    ((LangstonsAnt.new 2 2).updates 1).map (fun s => s.mAnt) = some (2, 1, 1) ∧
    ((LangstonsAnt.new 2 2).updates 1).map
      (fun s => (s.Width, s.mCells.length, s.pointToArray (s.mAnt.1, s.mAnt.2.1))) =
      some (2, 4, 4) ∧
    ((LangstonsAnt.new 2 2).updates 2).isNone = true ∧
    ((LangstonsAnt.new 1 1).updates 1).map (fun s => s.mAnt) = some (1, 0, 1) ∧
    ((LangstonsAnt.new 3 3).updates 12).map (fun s => (s.mAnt, s.Height)) =
      some ((2, 3, 2), 3) ∧
    ∀ (Width Height n : Nat),
      ((LangstonsAnt.new Width Height).updates n).all
        (fun s => decide (s.mAnt.2.2 < 4)) = true := by
  refine ⟨by decide!, by decide!, by decide!, by decide!, by decide!, by decide!, ?_⟩
  intro Width Height n
  cases n with
  | zero => rfl
  | succ n =>
    show (((LangstonsAnt.new Width Height).updates n).bind LangstonsAnt.update).all _ = true
    cases ((LangstonsAnt.new Width Height).updates n) with
    | none => rfl
    | some s => exact LangstonsAnt.update_direction s

end MarchingSquares
